import Mathlib

/-!
# xiaohongshu-mcp: feed-data extraction and response mapping

A shallow embedding of `xiaohongshu/feed_detail.go`, `xiaohongshu/search.go` and of the
`SearchFeeds` operation of `service.go`.

* The in-page scripts are embedded over a tree model of JavaScript values (`JSVal`).
* `JSON.stringify` is split into its value layer (`jsonOf`, embedded here) and its text
  layer, `encoding/json` into its text layer and its typed layer (`GoType`, embedded here).
  The two text layers belong to the JavaScript engine and to the Go library; the operations
  take them as arguments (`stringify`, `parse`).
* Go `error` values are represented by their message (`Error()`).
* JavaScript numbers are represented by integers; fractional values, `NaN` and the
  infinities are outside the model.
-/

namespace Xhs

/-! ## JSON documents -/

/-- A JSON document tree. Objects keep their members in document order. -/
inductive Json where
  | null
  | bool (b : Bool)
  | num (n : Int)
  | str (s : String)
  | arr (xs : List Json)
  | obj (ps : List (String × Json))

/-- The message of a Go `error`. -/
abbrev GoError := String

/-! ## The typed layer of `encoding/json` -/

/-- A Go type as `json.Unmarshal` sees it: its zero value, and the decoding of a JSON value
into storage that currently holds `cur`. A type mismatch is an `UnmarshalTypeError`. -/
structure GoType (α : Type) where
  zero : α
  decode : Json → α → Except GoError α

/-- Case folding of one character of an object key, as `encoding/json` folds names:
ASCII letters to upper case, and the two non-ASCII characters whose simple case folding
is an ASCII letter (U+017F long s, U+212A Kelvin sign). -/
def foldChar (c : Char) : Char :=
  if c = Char.ofNat 0x17F then 'S'
  else if c = Char.ofNat 0x212A then 'K'
  else c.toUpper

/-- Folded form of a key. -/
def foldName (s : String) : List Char := s.data.map foldChar

/-- A struct field for the decoder: its JSON name and the update it performs. -/
structure Field (σ : Type) where
  name : String
  set : Json → σ → Except GoError σ

/-- Field selected by an object key: an exact match of the name is preferred, otherwise
the first field whose folded name equals the folded key. -/
def findField {σ : Type} (fields : List (Field σ)) (key : String) : Option (Field σ) :=
  match fields.find? (fun f => f.name == key) with
  | some f => some f
  | none => fields.find? (fun f => foldName f.name == foldName key)

/-- Members of an object decoded into a struct, in document order; a member whose key
selects no field is skipped. -/
def decodeMembers {σ : Type} (fields : List (Field σ)) :
    List (String × Json) → σ → Except GoError σ
  | [], s => .ok s
  | (k, v) :: rest, s =>
    match findField fields k with
    | none => decodeMembers fields rest s
    | some f =>
      match f.set v s with
      | .error e => .error e
      | .ok s1 => decodeMembers fields rest s1

/-- Decoding into a struct: `null` leaves the struct as it is, an object updates the
selected fields, any other value is a type error. -/
def decodeStruct {σ : Type} (goName : String) (fields : List (Field σ)) :
    Json → σ → Except GoError σ
  | .null, s => .ok s
  | .obj ps, s => decodeMembers fields ps s
  | .bool _, _ => .error ("json: cannot unmarshal bool into Go value of type " ++ goName)
  | .num _, _ => .error ("json: cannot unmarshal number into Go value of type " ++ goName)
  | .str _, _ => .error ("json: cannot unmarshal string into Go value of type " ++ goName)
  | .arr _, _ => .error ("json: cannot unmarshal array into Go value of type " ++ goName)

/-- A Go `map[string]V`, as the list of its entries; assignment replaces the entry of an
existing key. -/
abbrev GoMap (V : Type) := List (String × V)

/-- The assignment `m[k] = v`. -/
def GoMap.set {V : Type} : GoMap V → String → V → GoMap V
  | [], k, v => [(k, v)]
  | (k1, v1) :: rest, k, v =>
    if k1 = k then (k, v) :: rest else (k1, v1) :: GoMap.set rest k v

/-- The lookup `v, ok := m[k]`. -/
def GoMap.get {V : Type} (m : GoMap V) (k : String) : Option V :=
  match m.find? (fun p => p.1 == k) with
  | some p => some p.2
  | none => none

/-- Members of an object decoded into a map: every value is decoded into a fresh zero
element, which is then stored under the member's key. -/
def decodeMapMembers {V : Type} (elem : GoType V) :
    List (String × Json) → GoMap V → Except GoError (GoMap V)
  | [], m => .ok m
  | (k, v) :: rest, m =>
    match elem.decode v elem.zero with
    | .error e => .error e
    | .ok x => decodeMapMembers elem rest (GoMap.set m k x)

/-- Decoding into a `map[string]V`: `null` gives the nil map, an object adds its members
to the map, any other value is a type error. -/
def decodeMap {V : Type} (goName : String) (elem : GoType V) :
    Json → GoMap V → Except GoError (GoMap V)
  | .null, _ => .ok []
  | .obj ps, m => decodeMapMembers elem ps m
  | .bool _, _ => .error ("json: cannot unmarshal bool into Go value of type " ++ goName)
  | .num _, _ => .error ("json: cannot unmarshal number into Go value of type " ++ goName)
  | .str _, _ => .error ("json: cannot unmarshal string into Go value of type " ++ goName)
  | .arr _, _ => .error ("json: cannot unmarshal array into Go value of type " ++ goName)

/-- Elements of an array decoded into a slice: element `i` is decoded into the element
the slice already holds at `i`, or into a zero element when the slice is shorter. -/
def decodeElems {α : Type} (elem : GoType α) : List Json → List α → Except GoError (List α)
  | [], _ => .ok []
  | x :: xs, cur =>
    match elem.decode x (cur.headD elem.zero) with
    | .error e => .error e
    | .ok a =>
      match decodeElems elem xs cur.tail with
      | .error e => .error e
      | .ok as => .ok (a :: as)

/-- Decoding into a slice `[]α`: `null` gives the nil slice, an array gives a slice of the
array's length, any other value is a type error. -/
def decodeSlice {α : Type} (goName : String) (elem : GoType α) :
    Json → List α → Except GoError (List α)
  | .null, _ => .ok []
  | .arr xs, cur => decodeElems elem xs cur
  | .bool _, _ => .error ("json: cannot unmarshal bool into Go value of type " ++ goName)
  | .num _, _ => .error ("json: cannot unmarshal number into Go value of type " ++ goName)
  | .str _, _ => .error ("json: cannot unmarshal string into Go value of type " ++ goName)
  | .obj _, _ => .error ("json: cannot unmarshal object into Go value of type " ++ goName)

/-- The Go type `string`. -/
def goString : GoType String where
  zero := ""
  decode
    | .null, s => .ok s
    | .str t, _ => .ok t
    | .bool _, _ => .error "json: cannot unmarshal bool into Go value of type string"
    | .num _, _ => .error "json: cannot unmarshal number into Go value of type string"
    | .arr _, _ => .error "json: cannot unmarshal array into Go value of type string"
    | .obj _, _ => .error "json: cannot unmarshal object into Go value of type string"

/-- The Go type `json.RawMessage`: the value is kept as it is written. -/
def goRaw : GoType Json where
  zero := .null
  decode := fun j _ => .ok j

/-- The Go type `int` (64 bits): a number outside the range of `int64` is a type error. -/
def goInt : GoType Int where
  zero := 0
  decode
    | .null, n => .ok n
    | .num n, _ =>
      if -(2 : Int) ^ 63 ≤ n ∧ n < (2 : Int) ^ 63 then .ok n
      else .error "json: cannot unmarshal number into Go value of type int"
    | .bool _, _ => .error "json: cannot unmarshal bool into Go value of type int"
    | .str _, _ => .error "json: cannot unmarshal string into Go value of type int"
    | .arr _, _ => .error "json: cannot unmarshal array into Go value of type int"
    | .obj _, _ => .error "json: cannot unmarshal object into Go value of type int"

/-- The Go type `bool`. -/
def goBool : GoType Bool where
  zero := false
  decode
    | .null, b => .ok b
    | .bool b, _ => .ok b
    | .num _, _ => .error "json: cannot unmarshal number into Go value of type bool"
    | .str _, _ => .error "json: cannot unmarshal string into Go value of type bool"
    | .arr _, _ => .error "json: cannot unmarshal array into Go value of type bool"
    | .obj _, _ => .error "json: cannot unmarshal object into Go value of type bool"

/-- `json.Unmarshal(data, &v)` for storage holding the zero value of `ty`: the text layer
`parse` (a syntax error is returned as it is), then the typed layer. -/
def unmarshal {α : Type} (parse : String → Except GoError Json) (ty : GoType α)
    (data : String) : Except GoError α :=
  match parse data with
  | .error e => .error e
  | .ok j => ty.decode j ty.zero

/-! ## A reference text layer

A writer and a reader of JSON texts over `Json`, used to run the operations on concrete
texts. Numbers are integers in decimal notation. -/

/-- A lower-case hexadecimal digit. -/
def lowerhex (n : Nat) : Char :=
  if n < 10 then Char.ofNat (48 + n) else Char.ofNat (87 + n)

/-- One character of a string as `JSON.stringify` writes it. -/
def renderChar (c : Char) : List Char :=
  if c = '"' then ['\\', '"']
  else if c = '\\' then ['\\', '\\']
  else if c = '\n' then ['\\', 'n']
  else if c = '\r' then ['\\', 'r']
  else if c = '\t' then ['\\', 't']
  else if c.toNat = 8 then ['\\', 'b']
  else if c.toNat = 12 then ['\\', 'f']
  else if c.toNat < 0x20 then
    ['\\', 'u', '0', '0', lowerhex (c.toNat / 16), lowerhex (c.toNat % 16)]
  else [c]

/-- A string between quotes. -/
def renderString (s : String) : List Char :=
  '"' :: (s.data.flatMap renderChar ++ ['"'])

/-- An integer in decimal notation. -/
def renderInt : Int → List Char
  | .ofNat n => (Nat.repr n).data
  | .negSucc n => '-' :: (Nat.repr (n + 1)).data

mutual
/-- The text of a document, without white space. -/
def renderChars : Json → List Char
  | .null => "null".data
  | .bool true => "true".data
  | .bool false => "false".data
  | .num n => renderInt n
  | .str s => renderString s
  | .arr xs => '[' :: (renderElems xs ++ [']'])
  | .obj ps => '{' :: (renderMembers ps ++ ['}'])
/-- The elements of an array, separated by commas. -/
def renderElems : List Json → List Char
  | [] => []
  | [x] => renderChars x
  | x :: y :: xs => renderChars x ++ ',' :: renderElems (y :: xs)
/-- The members of an object, separated by commas. -/
def renderMembers : List (String × Json) → List Char
  | [] => []
  | [(k, v)] => renderString k ++ ':' :: renderChars v
  | (k, v) :: q :: ps => renderString k ++ ':' :: (renderChars v ++ ',' :: renderMembers (q :: ps))
end

/-- The text of a document. -/
def renderJson (j : Json) : String := String.mk (renderChars j)

/-- White space before a token. -/
def skipWs : List Char → List Char
  | [] => []
  | c :: cs => if c = ' ' ∨ c = '\n' ∨ c = '\t' ∨ c = '\r' then skipWs cs else c :: cs

/-- The value of a hexadecimal digit. -/
def hexValue (c : Char) : Option Nat :=
  let n := c.toNat
  if 48 ≤ n ∧ n ≤ 57 then some (n - 48)
  else if 97 ≤ n ∧ n ≤ 102 then some (n - 87)
  else if 65 ≤ n ∧ n ≤ 70 then some (n - 55)
  else none

/-- The character of an escape `\uXXXX`; a surrogate half is read as U+FFFD. -/
def unicodeEscape (a b c d : Char) : Option Char :=
  match hexValue a, hexValue b, hexValue c, hexValue d with
  | some x, some y, some z, some w =>
    let n := ((x * 16 + y) * 16 + z) * 16 + w
    if 0xD800 ≤ n ∧ n ≤ 0xDFFF then some (Char.ofNat 0xFFFD) else some (Char.ofNat n)
  | _, _, _, _ => none

/-- The rest of a string after its opening quote: the characters read so far (latest
first), up to the closing quote. -/
def readString : List Char → List Char → Option (String × List Char)
  | [], _ => none
  | c :: cs, acc =>
    if c = '"' then some (String.mk acc.reverse, cs)
    else if c = '\\' then
      match cs with
      | [] => none
      | e :: rest =>
        if e = '"' ∨ e = '\\' ∨ e = '/' then readString rest (e :: acc)
        else if e = 'n' then readString rest ('\n' :: acc)
        else if e = 'r' then readString rest ('\r' :: acc)
        else if e = 't' then readString rest ('\t' :: acc)
        else if e = 'b' then readString rest (Char.ofNat 8 :: acc)
        else if e = 'f' then readString rest (Char.ofNat 12 :: acc)
        else if e = 'u' then
          match rest with
          | h1 :: h2 :: h3 :: h4 :: rest4 =>
            match unicodeEscape h1 h2 h3 h4 with
            | some u => readString rest4 (u :: acc)
            | none => none
          | _ => none
        else none
    else if c.toNat < 0x20 then none
    else readString cs (c :: acc)

/-- The digits at the head of the input, as a number, with the rest of the input. -/
def readDigits : List Char → Nat → Nat × List Char
  | [], n => (n, [])
  | c :: cs, n =>
    if 48 ≤ c.toNat ∧ c.toNat ≤ 57 then readDigits cs (n * 10 + (c.toNat - 48))
    else (n, c :: cs)

/-- A natural number in decimal notation without a leading zero. -/
def readNat : List Char → Option (Nat × List Char)
  | [] => none
  | c :: cs =>
    if c = '0' then
      match cs with
      | [] => some (0, [])
      | d :: rest => if 48 ≤ d.toNat ∧ d.toNat ≤ 57 then none else some (0, d :: rest)
    else if 49 ≤ c.toNat ∧ c.toNat ≤ 57 then some (readDigits cs (c.toNat - 48))
    else none

/-- The input after a keyword, when the input starts with it. -/
def readWord : List Char → List Char → Option (List Char)
  | [], cs => some cs
  | _ :: _, [] => none
  | w :: ws, c :: cs => if w = c then readWord ws cs else none

mutual
/-- A value, with the rest of the input; the fuel bounds the number of values read. -/
def readValue : Nat → List Char → Option (Json × List Char)
  | 0, _ => none
  | fuel + 1, cs =>
    match skipWs cs with
    | [] => none
    | c :: rest =>
      if c = '{' then
        match skipWs rest with
        | [] => none
        | d :: rest1 =>
          if d = '}' then some (.obj [], rest1)
          else
            match readMembers fuel (d :: rest1) with
            | some (ps, rest2) => some (.obj ps, rest2)
            | none => none
      else if c = '[' then
        match skipWs rest with
        | [] => none
        | d :: rest1 =>
          if d = ']' then some (.arr [], rest1)
          else
            match readElems fuel (d :: rest1) with
            | some (xs, rest2) => some (.arr xs, rest2)
            | none => none
      else if c = '"' then
        match readString rest [] with
        | some (s, rest1) => some (.str s, rest1)
        | none => none
      else if c = '-' then
        match readNat rest with
        | some (n, rest1) => some (.num (-(n : Int)), rest1)
        | none => none
      else if c = 't' then
        match readWord "rue".data rest with
        | some rest1 => some (.bool true, rest1)
        | none => none
      else if c = 'f' then
        match readWord "alse".data rest with
        | some rest1 => some (.bool false, rest1)
        | none => none
      else if c = 'n' then
        match readWord "ull".data rest with
        | some rest1 => some (.null, rest1)
        | none => none
      else
        match readNat (c :: rest) with
        | some (n, rest1) => some (.num (n : Int), rest1)
        | none => none
/-- The elements of a non-empty array up to its closing bracket. -/
def readElems : Nat → List Char → Option (List Json × List Char)
  | 0, _ => none
  | fuel + 1, cs =>
    match readValue fuel cs with
    | none => none
    | some (x, rest) =>
      match skipWs rest with
      | [] => none
      | c :: rest1 =>
        if c = ']' then some ([x], rest1)
        else if c = ',' then
          match readElems fuel rest1 with
          | some (xs, rest2) => some (x :: xs, rest2)
          | none => none
        else none
/-- The members of a non-empty object up to its closing brace. -/
def readMembers : Nat → List Char → Option (List (String × Json) × List Char)
  | 0, _ => none
  | fuel + 1, cs =>
    match skipWs cs with
    | [] => none
    | q :: rest =>
      if q = '"' then
        match readString rest [] with
        | none => none
        | some (k, rest1) =>
          match skipWs rest1 with
          | [] => none
          | c :: rest2 =>
            if c = ':' then
              match readValue fuel rest2 with
              | none => none
              | some (v, rest3) =>
                match skipWs rest3 with
                | [] => none
                | d :: rest4 =>
                  if d = '}' then some ([(k, v)], rest4)
                  else if d = ',' then
                    match readMembers fuel rest4 with
                    | some (ps, rest5) => some ((k, v) :: ps, rest5)
                    | none => none
                  else none
            else none
      else none
end

/-- The document of a text: one value between optional white space. A text that is not
read is a syntax error. -/
def parseJson (s : String) : Except GoError Json :=
  match readValue (s.length + 1) s.data with
  | none => .error "invalid character in JSON input"
  | some (j, rest) =>
    match skipWs rest with
    | [] => .ok j
    | _ :: _ => .error "invalid character after top-level value"

/-- A decimal digit. -/
def isDigit (c : Char) : Prop := 48 ≤ c.toNat ∧ c.toNat ≤ 57

/-- The digits of `n`: all decimal, of value `n`, and without a leading zero. -/
def GoodDigits (n : Nat) (ds : List Char) : Prop :=
  (∀ c ∈ ds, isDigit c)
    ∧ (∀ m, ds.foldl (fun a c => a * 10 + (c.toNat - 48)) m = m * 10 ^ ds.length + n)
    ∧ ((n = 0 ∧ ds = ['0'])
      ∨ (n ≠ 0 ∧ ∃ c tl, ds = c :: tl ∧ 49 ≤ c.toNat ∧ c.toNat ≤ 57))

/-- White space of a JSON text. -/
def isWs (c : Char) : Prop := c = ' ' ∨ c = '\n' ∨ c = '\t' ∨ c = '\r'

/-- What may follow a value inside a document: the end of the text, a comma or a closing
bracket. -/
def Delim (rest : List Char) : Prop := ∀ c tl, rest = c :: tl → c = ',' ∨ c = ']' ∨ c = '}'

/-- A first character of a value. -/
def ValueStart (c : Char) : Prop := ¬ isWs c ∧ c ≠ ']' ∧ c ≠ '}'

/-! ## `fmt.Sprintf` and `net/url` -/

/-- Expansion of a format by `fmt.Sprintf` for string and error operands: the verbs `%s`,
`%v` and `%w` take the next operand, `%%` is a percent sign, a verb without operand is
reported as missing. Other verbs do not occur in the formats embedded here; they are
expanded like a verb that does not apply to a string. Every call embedded here passes as
many operands as its format has verbs. -/
def sprintfChars : List Char → List String → List Char
  | [], _ => []
  | c :: tl, args =>
    if c = '%' then
      match tl with
      | [] => "%!(NOVERB)".data
      | v :: rest =>
        if v = '%' then '%' :: sprintfChars rest args
        else
          match args with
          | [] => '%' :: '!' :: v :: ("(MISSING)".data ++ sprintfChars rest [])
          | a :: args1 =>
            if v = 's' ∨ v = 'v' ∨ v = 'w' then a.data ++ sprintfChars rest args1
            else '%' :: '!' :: v :: ("(string=".data ++ a.data ++ ")".data
              ++ sprintfChars rest args1)
    else c :: sprintfChars tl args

/-- The call `fmt.Sprintf(format, args...)`; `fmt.Errorf` builds an error with this
message. -/
def sprintf (format : String) (args : List String) : String :=
  String.mk (sprintfChars format.data args)

/-- The UTF-8 bytes of a character. -/
def utf8Bytes (c : Char) : List Nat :=
  let n := c.toNat
  if n < 0x80 then [n]
  else if n < 0x800 then [0xC0 + n / 0x40, 0x80 + n % 0x40]
  else if n < 0x10000 then [0xE0 + n / 0x1000, 0x80 + n / 0x40 % 0x40, 0x80 + n % 0x40]
  else [0xF0 + n / 0x40000, 0x80 + n / 0x1000 % 0x40, 0x80 + n / 0x40 % 0x40, 0x80 + n % 0x40]

/-- Bytes that `url.QueryEscape` leaves as they are: ASCII letters, digits, and the
characters `-`, `_`, `.` and `~`. -/
def unreservedByte (b : Nat) : Bool :=
  (97 ≤ b && b ≤ 122) || (65 ≤ b && b ≤ 90) || (48 ≤ b && b ≤ 57)
    || b == 45 || b == 95 || b == 46 || b == 126

/-- An upper-case hexadecimal digit. -/
def upperhex (n : Nat) : Char :=
  if n < 10 then Char.ofNat (48 + n) else Char.ofNat (55 + n)

/-- Escaping of one byte in query-component mode: a space becomes `+`, any other byte
that is not unreserved becomes `%XX`. -/
def escapeByte (b : Nat) : List Char :=
  if unreservedByte b then [Char.ofNat b]
  else if b = 32 then ['+']
  else ['%', upperhex (b / 16), upperhex (b % 16)]

/-- The function `url.QueryEscape`. -/
def QueryEscape (s : String) : String :=
  String.mk (s.data.flatMap (fun c => (utf8Bytes c).flatMap escapeByte))

/-- The type `url.Values`: a map from a key to its list of values. -/
abbrev Values := GoMap (List String)

/-- The method `Values.Set`: the key's values are replaced by the single value. -/
def Values.Set (v : Values) (key value : String) : Values := GoMap.set v key [value]

/-- The order of Go strings on their characters: lexicographic on the UTF-8 bytes, which
is the lexicographic order on the code points. -/
def ltChars : List Char → List Char → Bool
  | _, [] => false
  | [], _ :: _ => true
  | a :: as, b :: bs =>
    if a.toNat < b.toNat then true
    else if b.toNat < a.toNat then false
    else ltChars as bs

/-- Insertion of a key into a list of keys sorted in increasing order. -/
def insertKey (k : String) : List String → List String
  | [] => [k]
  | a :: rest => if ltChars k.data a.data then k :: a :: rest else a :: insertKey k rest

/-- The keys of the map, sorted in increasing order. -/
def sortedKeys (v : Values) : List String :=
  (v.map Prod.fst).foldr insertKey []

/-- The pairs `key=value` of one key, both escaped. -/
def encodeKey (key : String) (vals : List String) : List String :=
  vals.map (fun value => QueryEscape key ++ "=" ++ QueryEscape value)

/-- The method `Values.Encode`: the pairs `key=value` in the order of the sorted keys,
joined by `&`. -/
def Values.Encode (v : Values) : String :=
  "&".intercalate ((sortedKeys v).flatMap (fun k => encodeKey k ((GoMap.get v k).getD [])))

/-! ## JavaScript values and `JSON.stringify` -/

/-- A JavaScript value of the page, as a tree: an object is the list of its own enumerable
properties in enumeration order. `func` stands for any function value, `bigint` for a
BigInt (a value that `JSON.stringify` cannot serialise). -/
inductive JSVal where
  | undefined
  | null
  | bool (b : Bool)
  | num (n : Int)
  | bigint (n : Int)
  | str (s : String)
  | func
  | arr (xs : List JSVal)
  | obj (ps : List (String × JSVal))

/-- A fault raised by the evaluation of a script: a `TypeError`. -/
inductive JSFault where
  | typeError
  deriving DecidableEq, Repr

/-- JavaScript truthiness (`ToBoolean`). -/
def JSVal.truthy : JSVal → Bool
  | .undefined => false
  | .null => false
  | .bool b => b
  | .num n => n != 0
  | .bigint n => n != 0
  | .str s => s != ""
  | .func => true
  | .arr _ => true
  | .obj _ => true

/-- The own property `k` of a value that is neither `null` nor `undefined`. None of the
property names the scripts read is defined on arrays, strings, numbers, booleans or
functions (a function is taken without properties of its own), so reading it from one of
them gives `undefined`. -/
def JSVal.prop : JSVal → String → JSVal
  | .obj ps, k =>
    match ps.find? (fun p => p.1 == k) with
    | some p => p.2
    | none => .undefined
  | _, _ => .undefined

/-- The property read `v.k`: a `TypeError` when `v` is `null` or `undefined`. -/
def JSVal.get (v : JSVal) (k : String) : Except JSFault JSVal :=
  match v with
  | .undefined => .error .typeError
  | .null => .error .typeError
  | _ => .ok (v.prop k)

/-- The value of `a || b` for operands already evaluated. -/
def jsOr (a b : JSVal) : JSVal := if a.truthy then a else b

/-- The expression `v.k || d`. -/
def getOr (v : JSVal) (k : String) (d : JSVal) : Except JSFault JSVal :=
  match v.get k with
  | .error e => .error e
  | .ok x => .ok (jsOr x d)

/-- The test `Array.isArray(v)`. -/
def JSVal.isArray : JSVal → Bool
  | .arr _ => true
  | _ => false

/-- Index keys `"i"`, `"i+1"`, ... paired with the elements of a list. -/
def indexed : Nat → List JSVal → List (String × JSVal)
  | _, [] => []
  | i, x :: xs => (toString i, x) :: indexed (i + 1) xs

/-- The call `Object.entries(v)` for a value that is neither `null` nor `undefined`: the
own enumerable properties of an object, the indexed elements of an array, the indexed
characters of a string, nothing for the other values. -/
def JSVal.entries : JSVal → List (String × JSVal)
  | .obj ps => ps
  | .arr xs => indexed 0 xs
  | .str s => indexed 0 (s.data.map (fun c => JSVal.str (String.singleton c)))
  | _ => []

/-- The call `xs.map(f)` for a callback that may raise a fault. -/
def mapArr (f : JSVal → Except JSFault JSVal) : List JSVal → Except JSFault (List JSVal)
  | [] => .ok []
  | x :: xs =>
    match f x with
    | .error e => .error e
    | .ok y =>
      match mapArr f xs with
      | .error e => .error e
      | .ok ys => .ok (y :: ys)

/-- The assignment `o[k] = v` on a plain object whose value `v` is an object: it creates or
replaces the own property `k`, except for the key `__proto__`, which sets the prototype and
leaves the own properties as they are. -/
def setOwn (o : List (String × JSVal)) (k : String) (v : JSVal) : List (String × JSVal) :=
  if k = "__proto__" then o else GoMap.set o k v

mutual
/-- The value layer of `JSON.stringify`: `none` where the value has no JSON form
(`undefined`, a function), a `TypeError` on a BigInt. -/
def jsonOf : JSVal → Except JSFault (Option Json)
  | .undefined => .ok none
  | .func => .ok none
  | .null => .ok (some .null)
  | .bool b => .ok (some (.bool b))
  | .num n => .ok (some (.num n))
  | .str s => .ok (some (.str s))
  | .bigint _ => .error .typeError
  | .arr xs =>
    match jsonOfElems xs with
    | .error e => .error e
    | .ok js => .ok (some (.arr js))
  | .obj ps =>
    match jsonOfMembers ps with
    | .error e => .error e
    | .ok js => .ok (some (.obj js))
/-- Elements of an array: an element without JSON form is written as `null`. -/
def jsonOfElems : List JSVal → Except JSFault (List Json)
  | [] => .ok []
  | x :: xs =>
    match jsonOf x with
    | .error e => .error e
    | .ok j =>
      match jsonOfElems xs with
      | .error e => .error e
      | .ok js => .ok (j.getD .null :: js)
/-- Properties of an object: a property whose value has no JSON form is left out. -/
def jsonOfMembers : List (String × JSVal) → Except JSFault (List (String × Json))
  | [] => .ok []
  | (k, v) :: ps =>
    match jsonOf v with
    | .error e => .error e
    | .ok j =>
      match jsonOfMembers ps with
      | .error e => .error e
      | .ok js =>
        match j with
        | none => .ok js
        | some jv => .ok ((k, jv) :: js)
end

/-! ## The in-page scripts -/

/-- The expression `u ? { userId: u.userId || "", nickname: u.nickname || u.nickName || "",
avatar: u.avatar || "" } : {}` (feed_detail.go:69-73 and 105-109, search.go:62-66). -/
def userOf (u : JSVal) : Except JSFault JSVal :=
  if u.truthy then
    match getOr u "userId" (.str "") with
    | .error e => .error e
    | .ok userId =>
      match u.get "nickname" with
      | .error e => .error e
      | .ok n1 =>
        match (if n1.truthy then .ok n1 else getOr u "nickName" (.str "")) with
        | .error e => .error e
        | .ok nickname =>
          match getOr u "avatar" (.str "") with
          | .error e => .error e
          | .ok avatar =>
            .ok (.obj [("userId", userId), ("nickname", nickname), ("avatar", avatar)])
  else .ok (.obj [])

/-- The expression `i ? { liked: i.liked || false, likedCount: i.likedCount || "0", ... } : {}`
(feed_detail.go:91-98, search.go:67-74). -/
def interactInfoOf (i : JSVal) : Except JSFault JSVal :=
  if i.truthy then
    match getOr i "liked" (.bool false) with
    | .error e => .error e
    | .ok liked =>
      match getOr i "likedCount" (.str "0") with
      | .error e => .error e
      | .ok likedCount =>
        match getOr i "sharedCount" (.str "0") with
        | .error e => .error e
        | .ok sharedCount =>
          match getOr i "commentCount" (.str "0") with
          | .error e => .error e
          | .ok commentCount =>
            match getOr i "collectedCount" (.str "0") with
            | .error e => .error e
            | .ok collectedCount =>
              match getOr i "collected" (.bool false) with
              | .error e => .error e
              | .ok collected =>
                .ok (.obj [("liked", liked), ("likedCount", likedCount),
                  ("sharedCount", sharedCount), ("commentCount", commentCount),
                  ("collectedCount", collectedCount), ("collected", collected)])
  else .ok (.obj [])

/-- The callback of `noteDetail.images.map` (feed_detail.go:74-81). -/
def imageOf (img : JSVal) : Except JSFault JSVal :=
  match getOr img "url" (.str "") with
  | .error e => .error e
  | .ok url =>
    match getOr img "width" (.num 0) with
    | .error e => .error e
    | .ok width =>
      match getOr img "height" (.num 0) with
      | .error e => .error e
      | .ok height =>
        match getOr img "fileId" (.str "") with
        | .error e => .error e
        | .ok fileId =>
          match getOr img "urlPre" (.str "") with
          | .error e => .error e
          | .ok urlPre =>
            match getOr img "urlDefault" (.str "") with
            | .error e => .error e
            | .ok urlDefault =>
              .ok (.obj [("url", url), ("width", width), ("height", height),
                ("fileId", fileId), ("urlPre", urlPre), ("urlDefault", urlDefault)])

/-- The expression `images ? (Array.isArray(images) ? images.map(...) : []) : []`
(feed_detail.go:74-81). -/
def imagesOf (images : JSVal) : Except JSFault JSVal :=
  if images.truthy then
    match images with
    | .arr xs =>
      match mapArr imageOf xs with
      | .error e => .error e
      | .ok ys => .ok (.arr ys)
    | _ => .ok (.arr [])
  else .ok (.arr [])

/-- The expression for `video` of a note (feed_detail.go:82-90): the chain
`video.media.stream.h264.url`, each level replaced by `{}` when falsy, the whole by `null`
when `video` is falsy. -/
def detailVideoOf (video : JSVal) : Except JSFault JSVal :=
  if video.truthy then
    match video.get "media" with
    | .error e => .error e
    | .ok media =>
      if media.truthy then
        match media.get "stream" with
        | .error e => .error e
        | .ok stream =>
          if stream.truthy then
            match stream.get "h264" with
            | .error e => .error e
            | .ok h264 =>
              if h264.truthy then
                match getOr h264 "url" (.str "") with
                | .error e => .error e
                | .ok url =>
                  .ok (.obj [("media", .obj [("stream", .obj [("h264", .obj [("url", url)])])])])
              else .ok (.obj [("media", .obj [("stream", .obj [("h264", .obj [])])])])
          else .ok (.obj [("media", .obj [("stream", .obj [])])])
      else .ok (.obj [("media", .obj [])])
  else .ok .null

/-- The object literal for `note` of an entry (feed_detail.go:62-100). -/
def noteOf (noteDetail : JSVal) : Except JSFault JSVal :=
  match getOr noteDetail "id" (.str "") with
  | .error e => .error e
  | .ok id =>
  match getOr noteDetail "title" (.str "") with
  | .error e => .error e
  | .ok title =>
  match getOr noteDetail "desc" (.str "") with
  | .error e => .error e
  | .ok desc =>
  match getOr noteDetail "type" (.str "") with
  | .error e => .error e
  | .ok type =>
  match getOr noteDetail "time" (.num 0) with
  | .error e => .error e
  | .ok time =>
  match getOr noteDetail "lastUpdateTime" (.num 0) with
  | .error e => .error e
  | .ok lastUpdateTime =>
  match noteDetail.get "user" with
  | .error e => .error e
  | .ok u =>
  match userOf u with
  | .error e => .error e
  | .ok user =>
  match noteDetail.get "images" with
  | .error e => .error e
  | .ok imgs =>
  match imagesOf imgs with
  | .error e => .error e
  | .ok images =>
  match noteDetail.get "video" with
  | .error e => .error e
  | .ok v =>
  match detailVideoOf v with
  | .error e => .error e
  | .ok video =>
  match noteDetail.get "interactInfo" with
  | .error e => .error e
  | .ok ii =>
  match interactInfoOf ii with
  | .error e => .error e
  | .ok interactInfo =>
  match getOr noteDetail "tagList" (.arr []) with
  | .error e => .error e
  | .ok tagList =>
    .ok (.obj [("id", id), ("title", title), ("desc", desc), ("type", type), ("time", time),
      ("lastUpdateTime", lastUpdateTime), ("user", user), ("images", images),
      ("video", video), ("interactInfo", interactInfo), ("tagList", tagList)])

/-- The callback of `comments.comments.map` (feed_detail.go:102-113). -/
def commentOf (comment : JSVal) : Except JSFault JSVal :=
  match getOr comment "id" (.str "") with
  | .error e => .error e
  | .ok id =>
  match getOr comment "content" (.str "") with
  | .error e => .error e
  | .ok content =>
  match comment.get "user" with
  | .error e => .error e
  | .ok u =>
  match userOf u with
  | .error e => .error e
  | .ok user =>
  match getOr comment "time" (.num 0) with
  | .error e => .error e
  | .ok time =>
  match getOr comment "liked" (.bool false) with
  | .error e => .error e
  | .ok liked =>
  match getOr comment "likedCount" (.num 0) with
  | .error e => .error e
  | .ok likedCount =>
    .ok (.obj [("id", id), ("content", content), ("user", user), ("time", time),
      ("liked", liked), ("likedCount", likedCount)])

/-- The object literal for `comments` of an entry (feed_detail.go:58 and 101-114), from
the value of `detail.comments`. -/
def commentsOf (detailComments : JSVal) : Except JSFault JSVal :=
  let comments :=
    if detailComments.truthy then detailComments else .obj [("comments", .arr [])]
  match comments.get "comments" with
  | .error e => .error e
  | .ok cs =>
    match cs with
    | .arr xs =>
      match mapArr commentOf xs with
      | .error e => .error e
      | .ok ys => .ok (.obj [("comments", .arr ys)])
    | _ => .ok (.obj [("comments", .arr [])])

/-- The object literal assigned to `noteDetailMap[key]` (feed_detail.go:61-115), for a
`detail` whose `note` is truthy. -/
def entryOf (detail : JSVal) : Except JSFault JSVal :=
  match detail.get "note" with
  | .error e => .error e
  | .ok noteDetail =>
    match detail.get "comments" with
    | .error e => .error e
    | .ok dc =>
      match noteOf noteDetail with
      | .error e => .error e
      | .ok note =>
        match commentsOf dc with
        | .error e => .error e
        | .ok comments => .ok (.obj [("note", note), ("comments", comments)])

/-- The loop over `Object.entries(note.noteDetailMap)` (feed_detail.go:54-116), with the
object `noteDetailMap` built so far. -/
def extractEntries :
    List (String × JSVal) → List (String × JSVal) → Except JSFault (List (String × JSVal))
  | [], acc => .ok acc
  | (key, detail) :: rest, acc =>
    if !detail.truthy then extractEntries rest acc
    else
      match detail.get "note" with
      | .error e => .error e
      | .ok n =>
        if !n.truthy then extractEntries rest acc
        else
          match entryOf detail with
          | .error e => .error e
          | .ok entry => extractEntries rest (setOwn acc key entry)

/-- The function `safeExtractNoteData` of the feed-detail script (feed_detail.go:46-124);
`none` is its result `null`, `some ps` the object with the properties `ps`. -/
def safeExtractNoteData (noteObj : JSVal) :
    Except JSFault (Option (List (String × JSVal))) :=
  if !noteObj.truthy then .ok none
  else
    match noteObj.get "note" with
    | .error e => .error e
    | .ok note =>
      if !note.truthy then .ok none
      else
        match note.get "noteDetailMap" with
        | .error e => .error e
        | .ok ndm =>
          match (if ndm.truthy then extractEntries ndm.entries [] else .ok []) with
          | .error e => .error e
          | .ok noteDetailMap =>
            .ok (some [("note", .obj [("noteDetailMap", .obj noteDetailMap)])])

/-- The call `JSON.stringify(v)`: the value layer, then the text layer `stringify`; `none`
is the result `undefined`. -/
def jsonStringify (stringify : Json → String) (v : JSVal) : Except JSFault (Option String) :=
  match jsonOf v with
  | .error e => .error e
  | .ok none => .ok none
  | .ok (some j) => .ok (some (stringify j))

/-- The call `JSON.stringify(o)` for an object `o` built by an object literal: its result is
always a string. -/
def stringifyObject (stringify : Json → String) (ps : List (String × JSVal)) :
    Except JSFault String :=
  match jsonOfMembers ps with
  | .error e => .error e
  | .ok js => .ok (stringify (.obj js))

/-- The body of the outer `try` of the feed-detail script (feed_detail.go:39-136), for the
value `state` of `window.__INITIAL_STATE__`; `none` is the result `undefined`. -/
def feedDetailScriptBody (stringify : Json → String) (state : JSVal) :
    Except JSFault (Option String) :=
  if !state.truthy then .ok (some "")
  else
    match safeExtractNoteData state with
    | .error e => .error e
    | .ok none =>
      match jsonStringify stringify state with
      | .error _ => .ok (some "")
      | .ok r => .ok r
    | .ok (some noteData) =>
      match stringifyObject stringify noteData with
      | .error e => .error e
      | .ok r => .ok (some r)

/-- The in-page script of `GetFeedDetail` (feed_detail.go:37-140): the outer `catch`
turns a fault into the empty string. -/
def feedDetailScript (stringify : Json → String) (state : JSVal) : Option String :=
  match feedDetailScriptBody stringify state with
  | .error _ => some ""
  | .ok r => r

/-- The expression for `cover` of a note card (search.go:75-83). -/
def coverOf (cover : JSVal) : Except JSFault JSVal :=
  if cover.truthy then
    match getOr cover "width" (.num 0) with
    | .error e => .error e
    | .ok width =>
    match getOr cover "height" (.num 0) with
    | .error e => .error e
    | .ok height =>
    match getOr cover "url" (.str "") with
    | .error e => .error e
    | .ok url =>
    match getOr cover "fileId" (.str "") with
    | .error e => .error e
    | .ok fileId =>
    match getOr cover "urlPre" (.str "") with
    | .error e => .error e
    | .ok urlPre =>
    match getOr cover "urlDefault" (.str "") with
    | .error e => .error e
    | .ok urlDefault =>
    match getOr cover "infoList" (.arr []) with
    | .error e => .error e
    | .ok infoList =>
      .ok (.obj [("width", width), ("height", height), ("url", url), ("fileId", fileId),
        ("urlPre", urlPre), ("urlDefault", urlDefault), ("infoList", infoList)])
  else .ok (.obj [])

/-- The expression for `video` of a note card (search.go:84-88). -/
def cardVideoOf (video : JSVal) : Except JSFault JSVal :=
  if video.truthy then
    match video.get "capa" with
    | .error e => .error e
    | .ok capa =>
      if capa.truthy then
        match getOr capa "duration" (.num 0) with
        | .error e => .error e
        | .ok duration => .ok (.obj [("capa", .obj [("duration", duration)])])
      else .ok (.obj [("capa", .obj [])])
  else .ok .null

/-- The expression for `noteCard` of a feed (search.go:59-89). -/
def noteCardOf (noteCard : JSVal) : Except JSFault JSVal :=
  if noteCard.truthy then
    match getOr noteCard "type" (.str "") with
    | .error e => .error e
    | .ok type =>
    match getOr noteCard "displayTitle" (.str "") with
    | .error e => .error e
    | .ok displayTitle =>
    match noteCard.get "user" with
    | .error e => .error e
    | .ok u =>
    match userOf u with
    | .error e => .error e
    | .ok user =>
    match noteCard.get "interactInfo" with
    | .error e => .error e
    | .ok ii =>
    match interactInfoOf ii with
    | .error e => .error e
    | .ok interactInfo =>
    match noteCard.get "cover" with
    | .error e => .error e
    | .ok c =>
    match coverOf c with
    | .error e => .error e
    | .ok cover =>
    match noteCard.get "video" with
    | .error e => .error e
    | .ok v =>
    match cardVideoOf v with
    | .error e => .error e
    | .ok video =>
      .ok (.obj [("type", type), ("displayTitle", displayTitle), ("user", user),
        ("interactInfo", interactInfo), ("cover", cover), ("video", video)])
  else .ok (.obj [])

/-- The callback of `feeds._value.map` (search.go:51-91); the result `null` of a falsy
`feed` is `JSVal.null`. -/
def feedOf (feed : JSVal) : Except JSFault JSVal :=
  if !feed.truthy then .ok .null
  else
    match getOr feed "xsecToken" (.str "") with
    | .error e => .error e
    | .ok xsecToken =>
    match getOr feed "id" (.str "") with
    | .error e => .error e
    | .ok id =>
    match getOr feed "modelType" (.str "") with
    | .error e => .error e
    | .ok modelType =>
    match getOr feed "index" (.num 0) with
    | .error e => .error e
    | .ok index =>
    match feed.get "noteCard" with
    | .error e => .error e
    | .ok nc =>
    match noteCardOf nc with
    | .error e => .error e
    | .ok noteCard =>
      .ok (.obj [("xsecToken", xsecToken), ("id", id), ("modelType", modelType),
        ("index", index), ("noteCard", noteCard)])

/-- The test `feed !== null` of the `filter` callback (search.go:91). -/
def JSVal.notNull : JSVal → Bool
  | .null => false
  | _ => true

/-- The function `safeExtractFeeds` of the search script (search.go:44-92); `none` is its
result `null`. -/
def safeExtractFeeds (searchObj : JSVal) : Except JSFault (Option (List JSVal)) :=
  if !searchObj.truthy then .ok none
  else
    match searchObj.get "feeds" with
    | .error e => .error e
    | .ok feeds =>
      if !feeds.truthy then .ok none
      else
        match feeds.get "_value" with
        | .error e => .error e
        | .ok value =>
          if !value.truthy then .ok none
          else
            match value with
            | .arr xs =>
              match mapArr feedOf xs with
              | .error e => .error e
              | .ok ys => .ok (some (ys.filter JSVal.notNull))
            | _ => .ok none

/-- The in-page script of `Search` (search.go:39-108), for the value `state` of
`window.__INITIAL_STATE__`. The script has no `try`: a fault leaves it as an exception. -/
def searchScript (stringify : Json → String) (state : JSVal) : Except JSFault String :=
  if state.truthy then
    match state.get "search" with
    | .error e => .error e
    | .ok searchObj =>
      match safeExtractFeeds searchObj with
      | .error e => .error e
      | .ok none => .ok ""
      | .ok (some feeds) =>
        stringifyObject stringify [("search", .obj [("feeds", .obj [("_value", .arr feeds)])])]
  else .ok ""

/-! ### The defaults written in the scripts -/

/-- The test `v === null || v === undefined`. -/
def JSVal.nullish : JSVal → Bool
  | .undefined => true
  | .null => true
  | _ => false

/-- Fields of a feed with their defaults (search.go:55-59). -/
def feedDefaults : List (String × JSVal) :=
  [("xsecToken", .str ""), ("id", .str ""), ("modelType", .str ""), ("index", .num 0),
    ("noteCard", .obj [])]

/-- Fields of a note card with their defaults (search.go:60-88). -/
def noteCardDefaults : List (String × JSVal) :=
  [("type", .str ""), ("displayTitle", .str ""), ("user", .obj []), ("interactInfo", .obj []),
    ("cover", .obj []), ("video", .null)]

/-- Fields of a user read by one property, with their defaults (feed_detail.go:70-72). -/
def userDefaults : List (String × JSVal) :=
  [("userId", .str ""), ("avatar", .str "")]

/-- Fields of the interaction counters with their defaults (feed_detail.go:92-97). -/
def interactInfoDefaults : List (String × JSVal) :=
  [("liked", .bool false), ("likedCount", .str "0"), ("sharedCount", .str "0"),
    ("commentCount", .str "0"), ("collectedCount", .str "0"), ("collected", .bool false)]

/-- Fields of a cover with their defaults (search.go:76-82). -/
def coverDefaults : List (String × JSVal) :=
  [("width", .num 0), ("height", .num 0), ("url", .str ""), ("fileId", .str ""),
    ("urlPre", .str ""), ("urlDefault", .str ""), ("infoList", .arr [])]

/-- Fields of an image with their defaults (feed_detail.go:75-80). -/
def imageDefaults : List (String × JSVal) :=
  [("url", .str ""), ("width", .num 0), ("height", .num 0), ("fileId", .str ""),
    ("urlPre", .str ""), ("urlDefault", .str "")]

/-- Fields of a note with their defaults (feed_detail.go:63-99). -/
def noteDefaults : List (String × JSVal) :=
  [("id", .str ""), ("title", .str ""), ("desc", .str ""), ("type", .str ""), ("time", .num 0),
    ("lastUpdateTime", .num 0), ("user", .obj []), ("images", .arr []), ("video", .null),
    ("interactInfo", .obj []), ("tagList", .arr [])]

/-- Fields of a comment with their defaults (feed_detail.go:103-112). -/
def commentDefaults : List (String × JSVal) :=
  [("id", .str ""), ("content", .str ""), ("user", .obj []), ("time", .num 0),
    ("liked", .bool false), ("likedCount", .num 0)]

/-- The fields of a note that the script copies with `||` (feed_detail.go:63-68, 99). -/
def noteCopied : List (String × JSVal) :=
  [("id", .str ""), ("title", .str ""), ("desc", .str ""), ("type", .str ""), ("time", .num 0),
    ("lastUpdateTime", .num 0), ("tagList", .arr [])]

/-- The fields of a comment that the script copies with `||` (feed_detail.go:103-112). -/
def commentCopied : List (String × JSVal) :=
  [("id", .str ""), ("content", .str ""), ("time", .num 0), ("liked", .bool false),
    ("likedCount", .num 0)]

/-- The fields of a feed that the script copies with `||` (search.go:55-58). -/
def feedCopied : List (String × JSVal) :=
  [("xsecToken", .str ""), ("id", .str ""), ("modelType", .str ""), ("index", .num 0)]

/-- The fields of a note card that the script copies with `||` (search.go:60-61). -/
def noteCardCopied : List (String × JSVal) :=
  [("type", .str ""), ("displayTitle", .str "")]

/-! ## `xiaohongshu/feed_detail.go` -/

/-- `FeedDetailResponse` of package `xiaohongshu`: the note and its comments. The types
`FeedDetail` and `CommentList` are parameters. -/
structure FeedDetailResponse (FD CL : Type) where
  Note : FD
  Comments : CL

/-- Element type of `NoteDetailMap` (feed_detail.go:160-163). -/
structure NoteDetailEntry (FD CL : Type) where
  Note : FD
  Comments : CL

/-- The struct of the field `Note` of `initialState` (feed_detail.go:159-164). -/
structure InitialStateNote (FD CL : Type) where
  NoteDetailMap : GoMap (NoteDetailEntry FD CL)

/-- The local variable `initialState` (feed_detail.go:158-165). -/
structure InitialState (FD CL : Type) where
  Note : InitialStateNote FD CL

section FeedDetail

variable {FD CL : Type}

/-- Go type of the elements of `NoteDetailMap`, with the tags `note` and `comments`. -/
def noteDetailEntryType (fd : GoType FD) (cl : GoType CL) :
    GoType (NoteDetailEntry FD CL) where
  zero := { Note := fd.zero, Comments := cl.zero }
  decode := decodeStruct "struct"
    [ { name := "note"
        set := fun j s =>
          match fd.decode j s.Note with
          | .error e => .error e
          | .ok n => .ok { s with Note := n } },
      { name := "comments"
        set := fun j s =>
          match cl.decode j s.Comments with
          | .error e => .error e
          | .ok c => .ok { s with Comments := c } } ]

/-- Go type of `initialState.Note`, with the tag `noteDetailMap`. -/
def initialStateNoteType (fd : GoType FD) (cl : GoType CL) :
    GoType (InitialStateNote FD CL) where
  zero := { NoteDetailMap := [] }
  decode := decodeStruct "struct"
    [ { name := "noteDetailMap"
        set := fun j s =>
          match decodeMap "map" (noteDetailEntryType fd cl) j s.NoteDetailMap with
          | .error e => .error e
          | .ok m => .ok { s with NoteDetailMap := m } } ]

/-- Go type of `initialState`, with the tag `note`. -/
def initialStateType (fd : GoType FD) (cl : GoType CL) : GoType (InitialState FD CL) where
  zero := { Note := (initialStateNoteType fd cl).zero }
  decode := decodeStruct "struct"
    [ { name := "note"
        set := fun j s =>
          match (initialStateNoteType fd cl).decode j s.Note with
          | .error e => .error e
          | .ok n => .ok { s with Note := n } } ]

/-- The mapping step of `FeedDetailAction.GetFeedDetail` (feed_detail.go:152-180), from
the string `result` returned by the in-page script. -/
def FeedDetailAction.mapResult (parse : String → Except GoError Json)
    (fd : GoType FD) (cl : GoType CL) (result feedID : String) :
    Except GoError (FeedDetailResponse FD CL) :=
  if result = "" then
    .error (sprintf "__INITIAL_STATE__ not found or empty" [])
  else
    match unmarshal parse (initialStateType fd cl) result with
    | .error err => .error (sprintf "failed to unmarshal __INITIAL_STATE__: %w" [err])
    | .ok initialState =>
      match initialState.Note.NoteDetailMap.get feedID with
      | none => .error (sprintf "feed %s not found in noteDetailMap" [feedID])
      | some noteDetail => .ok { Note := noteDetail.Note, Comments := noteDetail.Comments }

/-- The function `makeFeedDetailURL` (feed_detail.go:183-185). -/
def makeFeedDetailURL (feedID xsecToken : String) : String :=
  sprintf "https://www.xiaohongshu.com/explore/%s?xsec_token=%s&xsec_source=pc_feed"
    [feedID, xsecToken]

/-- `FeedDetailAction.GetFeedDetail` from the script on (feed_detail.go:37-180), for the
value `state` of `window.__INITIAL_STATE__`. `undefinedText` is the text that
`resultVal.Value.String()` gives when the script returned `undefined`. The navigation and
a failure of `Eval` itself are outside the model. -/
def FeedDetailAction.GetFeedDetail (stringify : Json → String)
    (parse : String → Except GoError Json) (fd : GoType FD) (cl : GoType CL)
    (undefinedText : String) (state : JSVal) (feedID : String) :
    Except GoError (FeedDetailResponse FD CL) :=
  let result :=
    match feedDetailScript stringify state with
    | some r => r
    | none => undefinedText
  FeedDetailAction.mapResult parse fd cl result feedID

end FeedDetail

/-! ### The comments of a feed detail -/

/-- Modelled from the spec: the declaration of `Comment` (package `xiaohongshu`) is not
among the sources. The spec describes a comment by its id, author, text, timestamp, like
count and liked flag; the fields and their JSON names are those the feed-detail script
writes for a comment (feed_detail.go:102-113): `id` and `content` are texts, `time` and
`likedCount` numbers, `liked` a flag. The type of the author stays a parameter. -/
structure CommentOf (U : Type) where
  ID : String
  Content : String
  User : U
  Time : Int
  Liked : Bool
  LikedCount : Int

/-- Modelled from the spec: the declaration of `CommentList` (package `xiaohongshu`) is
not among the sources. The spec gives a feed detail a nested comment list; the script
writes it as the object `{ comments: [...] }` (feed_detail.go:101-114). -/
structure CommentListOf (U : Type) where
  Comments : List (CommentOf U)

/-- The fields of the modelled `Comment` with their JSON names. -/
def commentFields {U : Type} (u : GoType U) : List (Field (CommentOf U)) :=
  [ { name := "id"
      set := fun j s =>
        match goString.decode j s.ID with
        | .error e => .error e
        | .ok x => .ok { s with ID := x } },
    { name := "content"
      set := fun j s =>
        match goString.decode j s.Content with
        | .error e => .error e
        | .ok x => .ok { s with Content := x } },
    { name := "user"
      set := fun j s =>
        match u.decode j s.User with
        | .error e => .error e
        | .ok x => .ok { s with User := x } },
    { name := "time"
      set := fun j s =>
        match goInt.decode j s.Time with
        | .error e => .error e
        | .ok x => .ok { s with Time := x } },
    { name := "liked"
      set := fun j s =>
        match goBool.decode j s.Liked with
        | .error e => .error e
        | .ok x => .ok { s with Liked := x } },
    { name := "likedCount"
      set := fun j s =>
        match goInt.decode j s.LikedCount with
        | .error e => .error e
        | .ok x => .ok { s with LikedCount := x } } ]

/-- Go type of the modelled `Comment`. -/
def commentType {U : Type} (u : GoType U) : GoType (CommentOf U) where
  zero := { ID := "", Content := "", User := u.zero, Time := 0, Liked := false, LikedCount := 0 }
  decode := decodeStruct "xiaohongshu.Comment" (commentFields u)

/-- Go type of the modelled `CommentList`, with the tag `comments`. -/
def commentListType {U : Type} (u : GoType U) : GoType (CommentListOf U) where
  zero := { Comments := [] }
  decode := decodeStruct "xiaohongshu.CommentList"
    [ { name := "comments"
        set := fun j s =>
          match decodeSlice "[]xiaohongshu.Comment" (commentType u) j s.Comments with
          | .error e => .error e
          | .ok v => .ok { s with Comments := v } } ]

/-- The names the feed-detail script writes in a note (feed_detail.go:63-99). -/
def noteKeys : List String :=
  ["id", "title", "desc", "type", "time", "lastUpdateTime", "user", "images", "video",
    "interactInfo", "tagList"]

/-- The names the feed-detail script writes in a comment (feed_detail.go:103-112). -/
def commentKeys : List String := ["id", "content", "user", "time", "liked", "likedCount"]

/-- An object whose member names are names of `allowed` only, in the order of `allowed`
and each at most as often as there: the names are `allowed` with some names left out. -/
def HasKeys (allowed : List String) (j : Json) : Prop :=
  ∃ ms, j = .obj ms ∧ (ms.map Prod.fst).Sublist allowed

/-- The shape of an entry of `noteDetailMap` in the output of the feed-detail script: a
note and a comment list with the allow-listed names. -/
def EntryShape (j : Json) : Prop :=
  ∃ n cs, j = .obj [("note", n), ("comments", .obj [("comments", .arr cs)])]
    ∧ HasKeys noteKeys n ∧ ∀ c ∈ cs, HasKeys commentKeys c

/-! ## `xiaohongshu/search.go` and `service.go` -/

/-- Modelled from the spec: the declaration of `FeedsValue` (package `xiaohongshu`) is not
among the sources; `Search` reads its field `Value`, a `[]Feed`, and the spec names the
list `search.feeds._value`, so the field carries the tag `_value`. -/
structure FeedsValue (Feed : Type) where
  Value : List Feed

/-- The struct of the field `Search` of `SearchResult` (search.go:14-16). -/
structure SearchResultSearch (Feed : Type) where
  Feeds : FeedsValue Feed

/-- The type `SearchResult` (search.go:13-17). -/
structure SearchResult (Feed : Type) where
  Search : SearchResultSearch Feed

/-- The type `FeedsListResponse` (service.go:78-81). -/
structure FeedsListResponse (Feed : Type) where
  Feeds : List Feed
  Count : Nat

section Search

variable {Feed : Type}

/-- Go type of `FeedsValue`, with the tag `_value`. -/
def feedsValueType (feed : GoType Feed) : GoType (FeedsValue Feed) where
  zero := { Value := [] }
  decode := decodeStruct "xiaohongshu.FeedsValue"
    [ { name := "_value"
        set := fun j s =>
          match decodeSlice "[]xiaohongshu.Feed" feed j s.Value with
          | .error e => .error e
          | .ok v => .ok { s with Value := v } } ]

/-- Go type of `SearchResult.Search`, with the tag `feeds`. -/
def searchResultSearchType (feed : GoType Feed) : GoType (SearchResultSearch Feed) where
  zero := { Feeds := (feedsValueType feed).zero }
  decode := decodeStruct "struct"
    [ { name := "feeds"
        set := fun j s =>
          match (feedsValueType feed).decode j s.Feeds with
          | .error e => .error e
          | .ok f => .ok { s with Feeds := f } } ]

/-- Go type of `SearchResult`, with the tag `search`. -/
def searchResultType (feed : GoType Feed) : GoType (SearchResult Feed) where
  zero := { Search := (searchResultSearchType feed).zero }
  decode := decodeStruct "xiaohongshu.SearchResult"
    [ { name := "search"
        set := fun j s =>
          match (searchResultSearchType feed).decode j s.Search with
          | .error e => .error e
          | .ok x => .ok { s with Search := x } } ]

/-- The mapping step of `SearchAction.Search` (search.go:110-119), from the string
`result` returned by the in-page script. -/
def SearchAction.mapResult (parse : String → Except GoError Json) (feed : GoType Feed)
    (result : String) : Except GoError (List Feed) :=
  if result = "" then
    .error (sprintf "__INITIAL_STATE__ not found" [])
  else
    match unmarshal parse (searchResultType feed) result with
    | .error err => .error (sprintf "failed to unmarshal __INITIAL_STATE__: %w" [err])
    | .ok searchResult => .ok searchResult.Search.Feeds.Value

/-- The body of `XiaohongshuService.SearchFeeds` after `action.Search` has returned
(service.go:345-356). -/
def XiaohongshuService.searchFeedsResponse (searched : Except GoError (List Feed)) :
    Except GoError (FeedsListResponse Feed) :=
  match searched with
  | .error err => .error err
  | .ok feeds => .ok { Feeds := feeds, Count := feeds.length }

/-- The panics of `SearchAction.Search` after the navigation: `page.MustWait` ends on the
timeout of the page without `window.__INITIAL_STATE__` having become defined
(search.go:24, 36), or `page.MustEval` meets a fault of the script (search.go:39). -/
inductive SearchPanic where
  | waitTimeout
  | fault (e : JSFault)
  deriving DecidableEq, Repr

/-- `SearchAction.Search` from the wait on (search.go:36-119), on a page that keeps the
value `state` in `window.__INITIAL_STATE__`: the outer error is the panic of `MustWait`,
whose condition `window.__INITIAL_STATE__ !== undefined` never holds for the value
`undefined`, or the panic of `MustEval` on a fault of the script; the inner one is the
error that `Search` returns. -/
def SearchAction.Search (stringify : Json → String) (parse : String → Except GoError Json)
    (feed : GoType Feed) (state : JSVal) : Except SearchPanic (Except GoError (List Feed)) :=
  match state with
  | .undefined => .error .waitTimeout
  | _ =>
    match searchScript stringify state with
    | .error e => .error (.fault e)
    | .ok result => .ok (SearchAction.mapResult parse feed result)

/-- The function `makeSearchURL` (search.go:122-129). -/
def makeSearchURL (keyword : String) : String :=
  let values : Values := []
  let values := values.Set "keyword" keyword
  let values := values.Set "source" "web_explore_feed"
  sprintf "https://www.xiaohongshu.com/search_result?%s" [values.Encode]

end Search

/-- Modelled from the spec: the declaration of `Feed` (package `xiaohongshu`) is not among
the sources. The spec describes a feed by its id, its access token and its card; the
fields and their JSON names are those the search script writes for a feed
(search.go:54-59): `xsecToken`, `id` and `modelType` are texts, `index` is a number. The
type of the note card stays a parameter. -/
structure FeedOf (NC : Type) where
  XsecToken : String
  ID : String
  ModelType : String
  NoteCard : NC
  Index : Int

/-- The fields of the modelled `Feed` with their JSON names. -/
def feedFields {NC : Type} (nc : GoType NC) : List (Field (FeedOf NC)) :=
  [ { name := "xsecToken"
      set := fun j s =>
        match goString.decode j s.XsecToken with
        | .error e => .error e
        | .ok x => .ok { s with XsecToken := x } },
    { name := "id"
      set := fun j s =>
        match goString.decode j s.ID with
        | .error e => .error e
        | .ok x => .ok { s with ID := x } },
    { name := "modelType"
      set := fun j s =>
        match goString.decode j s.ModelType with
        | .error e => .error e
        | .ok x => .ok { s with ModelType := x } },
    { name := "noteCard"
      set := fun j s =>
        match nc.decode j s.NoteCard with
        | .error e => .error e
        | .ok x => .ok { s with NoteCard := x } },
    { name := "index"
      set := fun j s =>
        match goInt.decode j s.Index with
        | .error e => .error e
        | .ok x => .ok { s with Index := x } } ]

/-- Go type of the modelled `Feed`. -/
def feedType {NC : Type} (nc : GoType NC) : GoType (FeedOf NC) where
  zero := { XsecToken := "", ID := "", ModelType := "", NoteCard := nc.zero, Index := 0 }
  decode := decodeStruct "xiaohongshu.Feed" (feedFields nc)


/-- A JavaScript object whose property names are exactly the names `allowed`, in that
order. -/
def JSHasKeys (allowed : List String) (v : JSVal) : Prop :=
  ∃ ps, v = .obj ps ∧ ps.map Prod.fst = allowed

/-- The shape of the object literal assigned to `noteDetailMap[key]`: a note and a comment
list with exactly the allow-listed names. -/
def JSEntryShape (v : JSVal) : Prop :=
  ∃ n ys, v = .obj [("note", n), ("comments", .obj [("comments", .arr ys)])]
    ∧ JSHasKeys noteKeys n ∧ ∀ y ∈ ys, JSHasKeys commentKeys y

/-! ## Go calls: returns, panics and deferred calls (`middleware.go`) -/

/-- How a Go call ends: it returns a value, or it panics. A panic carries the text that
`%v` prints for its value; the value that `recover()` yields for a panic is never nil. -/
inductive Outcome (α : Type) where
  | ret (a : α)
  | panic (r : String)

/-- What an action does with its page, as far as the operations tell the steps apart. -/
inductive PageEvent where
  | navigate
  | inspect
  | interact
  | verify
  deriving DecidableEq

/-- What a service operation does outside itself, in the order it happens: the life of
the browser and of the page, the steps of the action on the page, the processing of the
images of a request, the check of a file name, the start of a goroutine. -/
inductive Event where
  | newBrowser
  | newPage
  | page (e : PageEvent)
  | pageClose
  | browserClose
  | processImages
  | stat (name : String)
  | go
  deriving DecidableEq

/-- A call that has run: how it ended and what it did. -/
structure Run (α : Type) where
  outcome : Outcome α
  trace : List Event

/-- A call of an action of package `xiaohongshu` that has run: how it ended and what it
did with the page. An action neither opens nor closes a page or a browser. -/
structure ActionRun (α : Type) where
  outcome : Outcome α
  events : List PageEvent

/-- A statement that returns `a` and does nothing else. -/
def Run.pure {α : Type} (a : α) : Run α := { outcome := .ret a, trace := [] }

/-- A statement that does `e` and goes on. -/
def Run.emit (e : Event) : Run Unit := { outcome := .ret (), trace := [e] }

/-- Sequencing of statements: a panic of the first ends the sequence. -/
def Run.bind {α β : Type} (x : Run α) (f : α → Run β) : Run β :=
  match x.outcome with
  | .panic r => { outcome := .panic r, trace := x.trace }
  | .ret a => { outcome := (f a).outcome, trace := x.trace ++ (f a).trace }

/-- The statement `defer call` followed by the rest of the function body: the deferred
call runs when the body ends, by a return or by a panic, and leaves the way it ended and
the (unnamed) results as they are. -/
def Run.defer {α : Type} (deferred : List Event) (body : Run α) : Run α :=
  { outcome := body.outcome, trace := body.trace ++ deferred }

/-- The statement `defer func() { if r := recover(); r != nil { log }; call }()` followed
by the rest of the function body: when the body panics the deferred function recovers the
panic, and the function returns the zero values of its unnamed results (`zero`). -/
def Run.deferRecover {α : Type} (zero : α) (deferred : List Event) (body : Run α) : Run α :=
  match body.outcome with
  | .ret a => { outcome := .ret a, trace := body.trace ++ deferred }
  | .panic _ => { outcome := .ret zero, trace := body.trace ++ deferred }

/-- The action run as a statement of a service operation. -/
def ActionRun.run {α : Type} (a : ActionRun α) : Run α :=
  { outcome := a.outcome, trace := a.events.map Event.page }

/-- The call `newBrowser()` (service.go:502-504), which launches a browser or panics. -/
def newBrowser (launched : Outcome Unit) : Run Unit :=
  match launched with
  | .ret _ => Run.emit .newBrowser
  | .panic r => { outcome := .panic r, trace := [] }

/-- The call `b.NewPage()`, which opens a page or panics. -/
def NewPage (opened : Outcome Unit) : Run Unit :=
  match opened with
  | .ret _ => Run.emit .newPage
  | .panic r => { outcome := .panic r, trace := [] }

/-- The four statements that open most operations (for instance service.go:312-316):
`b := newBrowser(); defer b.Close(); page := b.NewPage(); defer page.Close()`, followed by
the rest of the function body. -/
def withPage {α : Type} (launched opened : Outcome Unit) (body : Run α) : Run α :=
  (newBrowser launched).bind fun _ =>
    Run.defer [.browserClose]
      ((NewPage opened).bind fun _ => Run.defer [.pageClose] body)

/-- Whether the browser is open after the events of a trace. -/
def browserOpen (tr : List Event) : Bool :=
  tr.foldl (fun b e =>
    match e with
    | .newBrowser => true
    | .browserClose => false
    | _ => b) false

/-- Whether the page is open after the events of a trace. -/
def pageOpen (tr : List Event) : Bool :=
  tr.foldl (fun b e =>
    match e with
    | .newPage => true
    | .pageClose => false
    | _ => b) false

/-- Whether both the page and the browser are closed after the events of a trace. -/
def handlesClosed (tr : List Event) : Bool := !pageOpen tr && !browserOpen tr

/-- The function `panicRecoveryWrapper` (middleware.go:38-47): the deferred function
sets the named result `err` when it recovers a panic. Logging is not modelled. -/
def panicRecoveryWrapper (fn : Run (Option GoError)) : Run (Option GoError) :=
  match fn.outcome with
  | .ret err => { outcome := .ret err, trace := fn.trace }
  | .panic r =>
    { outcome := .ret (some (sprintf "操作失败，发生内部错误: %v" [r])), trace := fn.trace }

/-- The function `panicRecoveryWrapperWithResult` (middleware.go:50-59): when `fn` panics
the named result `result` keeps its zero value (`zero`) and the deferred function sets
`err`. Logging is not modelled. -/
def panicRecoveryWrapperWithResult {T : Type} (zero : T) (fn : Run (T × Option GoError)) :
    Run (T × Option GoError) :=
  match fn.outcome with
  | .ret a => { outcome := .ret a, trace := fn.trace }
  | .panic r =>
    { outcome := .ret (zero, some (sprintf "操作失败，发生内部错误: %v" [r])),
      trace := fn.trace }

/-! ## The operations of `service.go` -/

/-- The type `PublishRequest` (service.go:30-36). -/
structure PublishRequest where
  Title : String
  Content : String
  Images : List String
  Tags : List String
  AccessToken : String

/-- The type `LoginStatusResponse` (service.go:39-42). -/
structure LoginStatusResponse where
  IsLoggedIn : Bool
  Username : String

/-- The type `LoginQrcodeResponse` (service.go:45-49). -/
structure LoginQrcodeResponse where
  Timeout : String
  IsLoggedIn : Bool
  Img : String

/-- The type `PublishResponse` (service.go:52-58). -/
structure PublishResponse where
  Title : String
  Content : String
  Images : Nat
  Status : String
  PostID : String

/-- The type `PublishVideoRequest` (service.go:61-66). -/
structure PublishVideoRequest where
  Title : String
  Content : String
  Video : String
  Tags : List String

/-- The type `PublishVideoResponse` (service.go:69-75). -/
structure PublishVideoResponse where
  Title : String
  Content : String
  Video : String
  Status : String
  PostID : String

/-- The type `UserProfileResponse` (service.go:84-88); the types of its fields, declared in
package `xiaohongshu`, are parameters. -/
structure UserProfileResponse (B I F : Type) where
  UserBasicInfo : B
  Interactions : List I
  Feeds : List F

/-- The type `FeedDetailResponse` of package `main` (types.go:43-46); the type of the
value put into `Data` is a parameter. -/
structure Main.FeedDetailResponse (D : Type) where
  FeedID : String
  Data : D

/-- The type `PostCommentResponse` (types.go:56-60). -/
structure PostCommentResponse where
  FeedID : String
  Success : Bool
  Message : String

/-- The type `ActionResult` (types.go:69-73). -/
structure ActionResult where
  FeedID : String
  Success : Bool
  Message : String

/-- `XiaohongshuService.CheckLoginStatus` (service.go:97-117); `check` is the call
`loginAction.CheckLoginStatus(ctx)` and `username` the value of `configs.Username`. -/
def XiaohongshuService.CheckLoginStatus (launched opened : Outcome Unit)
    (check : ActionRun (Except GoError Bool)) (username : String) :
    Run (Option LoginStatusResponse × Option GoError) :=
  withPage launched opened
    (check.run.bind fun r =>
      match r with
      | .error err => Run.pure (none, some err)
      | .ok isLoggedIn =>
        Run.pure (some { IsLoggedIn := isLoggedIn, Username := username }, none))

/-- `XiaohongshuService.GetLoginQrcode` (service.go:120-165); `fetch` is the call
`loginAction.FetchQrcodeImage(ctx)` with its results `img, loggedIn, err`. The function
`deferFunc` is deferred only when `err != nil || loggedIn`; otherwise a goroutine is
started, which runs `XiaohongshuService.loginWaiter` after the operation has returned. -/
def XiaohongshuService.GetLoginQrcode (launched opened : Outcome Unit)
    (fetch : ActionRun (String × Bool × Option GoError)) :
    Run (Option LoginQrcodeResponse × Option GoError) :=
  (newBrowser launched).bind fun _ =>
    (NewPage opened).bind fun _ =>
      fetch.run.bind fun r =>
        Run.defer (if r.2.2.isSome || r.2.1 then [.pageClose, .browserClose] else [])
          (match r.2.2 with
            | some err => Run.pure (none, some err)
            | none =>
              (if !r.2.1 then Run.emit .go else Run.pure ()).bind fun _ =>
                Run.pure
                  (some { Timeout := if r.2.1 then "0s" else "4m0s", Img := r.1, IsLoggedIn := r.2.1 },
                    none))

/-- The goroutine started by `GetLoginQrcode` (service.go:142-152): it waits for the
login, saves the cookies when the login came, and runs the deferred `deferFunc`, which
closes the page and the browser. `wait` is the call `loginAction.WaitForLogin` and `save`
the call `saveCookies(page)`, whose error is only logged. -/
def XiaohongshuService.loginWaiter (wait : ActionRun Bool)
    (save : Outcome (Option GoError)) : Run Unit :=
  Run.defer [.pageClose, .browserClose]
    (wait.run.bind fun loggedIn =>
      if loggedIn then
        match save with
        | .ret _ => Run.pure ()
        | .panic r => { outcome := .panic r, trace := [] }
      else Run.pure ())

/-- `XiaohongshuService.processImages` (service.go:207-210): the work is done by package
`downloader`; `processed` is how the call ends. -/
def XiaohongshuService.processImages
    (processed : Outcome (Except GoError (List String))) :
    Run (Except GoError (List String)) :=
  { outcome := processed, trace := [.processImages] }

/-- `XiaohongshuService.publishContent` (service.go:240-254); `newAction` is the call
`xiaohongshu.NewPublishImageAction(page)` and `publish` the call `action.Publish`. -/
def XiaohongshuService.publishContent (launched opened : Outcome Unit)
    (newAction publish : ActionRun (Option GoError)) : Run (Option GoError) :=
  withPage launched opened
    (newAction.run.bind fun err =>
      match err with
      | some err => Run.pure (some err)
      | none => publish.run)

/-- `XiaohongshuService.PublishContent` (service.go:168-204); `width` is
`runewidth.StringWidth`. -/
def XiaohongshuService.PublishContent (width : String → Nat)
    (processed : Outcome (Except GoError (List String))) (launched opened : Outcome Unit)
    (newAction publish : ActionRun (Option GoError)) (req : PublishRequest) :
    Run (Option PublishResponse × Option GoError) :=
  panicRecoveryWrapperWithResult none
    (if width req.Title > 40 then
      Run.pure (none, some (sprintf "标题长度超过限制" []))
    else
      (XiaohongshuService.processImages processed).bind fun r =>
        match r with
        | .error err => Run.pure (none, some err)
        | .ok imagePaths =>
          (XiaohongshuService.publishContent launched opened newAction publish).bind
            fun err =>
              match err with
              | some err => Run.pure (none, some err)
              | none =>
                Run.pure
                  (some { Title := req.Title, Content := req.Content, Images := imagePaths.length, Status := "发布完成", PostID := "" },
                    none))

/-- `XiaohongshuService.publishVideo` (service.go:296-309); `newAction` is the call
`xiaohongshu.NewPublishVideoAction(page)` and `publish` the call `action.PublishVideo`. -/
def XiaohongshuService.publishVideo (launched opened : Outcome Unit)
    (newAction publish : ActionRun (Option GoError)) : Run (Option GoError) :=
  withPage launched opened
    (newAction.run.bind fun err =>
      match err with
      | some err => Run.pure (some err)
      | none => publish.run)

/-- `XiaohongshuService.PublishVideo` (service.go:257-293); `width` is
`runewidth.StringWidth` and `stat` the error of `os.Stat` for a file name. -/
def XiaohongshuService.PublishVideo (width : String → Nat) (stat : String → Option GoError)
    (launched opened : Outcome Unit) (newAction publish : ActionRun (Option GoError))
    (req : PublishVideoRequest) : Run (Option PublishVideoResponse × Option GoError) :=
  if width req.Title > 40 then
    Run.pure (none, some (sprintf "标题长度超过限制" []))
  else if req.Video = "" then
    Run.pure (none, some (sprintf "必须提供本地视频文件" []))
  else
    (Run.emit (.stat req.Video)).bind fun _ =>
      match stat req.Video with
      | some err => Run.pure (none, some (sprintf "视频文件不存在或不可访问: %v" [err]))
      | none =>
        (XiaohongshuService.publishVideo launched opened newAction publish).bind fun err =>
          match err with
          | some err => Run.pure (none, some err)
          | none =>
            Run.pure
              (some { Title := req.Title, Content := req.Content, Video := req.Video, Status := "发布完成", PostID := "" },
                none)

/-- `XiaohongshuService.ListFeeds` (service.go:311-334); `action` is the call
`action.GetFeedsList(ctx)`. -/
def XiaohongshuService.ListFeeds {Feed : Type} (launched opened : Outcome Unit)
    (action : ActionRun (Except GoError (List Feed))) :
    Run (Option (FeedsListResponse Feed) × Option GoError) :=
  withPage launched opened
    (action.run.bind fun r =>
      match r with
      | .error err => Run.pure (none, some err)
      | .ok feeds => Run.pure (some { Feeds := feeds, Count := feeds.length }, none))

/-- `XiaohongshuService.SearchFeeds` (service.go:336-358); `action` is the call
`action.Search(ctx, keyword)`. -/
def XiaohongshuService.SearchFeeds {Feed : Type} (launched opened : Outcome Unit)
    (action : ActionRun (Except GoError (List Feed))) :
    Run (Option (FeedsListResponse Feed) × Option GoError) :=
  panicRecoveryWrapperWithResult none
    (withPage launched opened
      (action.run.bind fun r =>
        match r with
        | .error err => Run.pure (none, some err)
        | .ok feeds => Run.pure (some { Feeds := feeds, Count := feeds.length }, none)))

/-- `XiaohongshuService.GetFeedDetail` (service.go:360-397); `action` is the call
`action.GetFeedDetail(ctx, feedID, xsecToken)`. Both deferred functions of the inner
function call `recover()` before they close. -/
def XiaohongshuService.GetFeedDetail {D : Type} (launched opened : Outcome Unit)
    (action : ActionRun (Except GoError D)) (feedID : String) :
    Run (Option (Main.FeedDetailResponse D) × Option GoError) :=
  panicRecoveryWrapperWithResult none
    ((newBrowser launched).bind fun _ =>
      Run.deferRecover (none, none) [.browserClose]
        ((NewPage opened).bind fun _ =>
          Run.deferRecover (none, none) [.pageClose]
            (action.run.bind fun r =>
              match r with
              | .error err => Run.pure (none, some err)
              | .ok result => Run.pure (some { FeedID := feedID, Data := result }, none))))

/-- `XiaohongshuService.UserProfile` (service.go:400-420); `action` is the call
`action.UserProfile(ctx, userID, xsecToken)`, whose result has the three fields that the
response copies. -/
def XiaohongshuService.UserProfile {B I F : Type} (launched opened : Outcome Unit)
    (action : ActionRun (Except GoError (UserProfileResponse B I F))) :
    Run (Option (UserProfileResponse B I F) × Option GoError) :=
  withPage launched opened
    (action.run.bind fun r =>
      match r with
      | .error err => Run.pure (none, some err)
      | .ok result =>
        Run.pure
          (some { UserBasicInfo := result.UserBasicInfo, Interactions := result.Interactions, Feeds := result.Feeds },
            none))

/-- `XiaohongshuService.PostCommentToFeed` (service.go:423-437); `action` is the call
`action.PostComment(ctx, feedID, xsecToken, content)`. -/
def XiaohongshuService.PostCommentToFeed (launched opened : Outcome Unit)
    (action : ActionRun (Option GoError)) (feedID : String) :
    Run (Option PostCommentResponse × Option GoError) :=
  withPage launched opened
    (action.run.bind fun err =>
      match err with
      | some err => Run.pure (none, some err)
      | none =>
        Run.pure (some { FeedID := feedID, Success := true, Message := "评论发表成功" }, none))

/-- `XiaohongshuService.LikeFeed` (service.go:440-453); `action` is the call
`action.Like(ctx, feedID, xsecToken)`. -/
def XiaohongshuService.LikeFeed (launched opened : Outcome Unit)
    (action : ActionRun (Option GoError)) (feedID : String) :
    Run (Option ActionResult × Option GoError) :=
  withPage launched opened
    (action.run.bind fun err =>
      match err with
      | some err => Run.pure (none, some err)
      | none =>
        Run.pure (some { FeedID := feedID, Success := true, Message := "点赞成功或已点赞" }, none))

/-- `XiaohongshuService.UnlikeFeed` (service.go:456-468); `action` is the call
`action.Unlike(ctx, feedID, xsecToken)`. -/
def XiaohongshuService.UnlikeFeed (launched opened : Outcome Unit)
    (action : ActionRun (Option GoError)) (feedID : String) :
    Run (Option ActionResult × Option GoError) :=
  withPage launched opened
    (action.run.bind fun err =>
      match err with
      | some err => Run.pure (none, some err)
      | none =>
        Run.pure
          (some { FeedID := feedID, Success := true, Message := "取消点赞成功或未点赞" }, none))

/-- `XiaohongshuService.FavoriteFeed` (service.go:471-483); `action` is the call
`action.Favorite(ctx, feedID, xsecToken)`. -/
def XiaohongshuService.FavoriteFeed (launched opened : Outcome Unit)
    (action : ActionRun (Option GoError)) (feedID : String) :
    Run (Option ActionResult × Option GoError) :=
  withPage launched opened
    (action.run.bind fun err =>
      match err with
      | some err => Run.pure (none, some err)
      | none =>
        Run.pure (some { FeedID := feedID, Success := true, Message := "收藏成功或已收藏" }, none))

/-- `XiaohongshuService.UnfavoriteFeed` (service.go:486-498); `action` is the call
`action.Unfavorite(ctx, feedID, xsecToken)`. -/
def XiaohongshuService.UnfavoriteFeed (launched opened : Outcome Unit)
    (action : ActionRun (Option GoError)) (feedID : String) :
    Run (Option ActionResult × Option GoError) :=
  withPage launched opened
    (action.run.bind fun err =>
      match err with
      | some err => Run.pure (none, some err)
      | none =>
        Run.pure
          (some { FeedID := feedID, Success := true, Message := "取消收藏成功或未收藏" }, none))

/-! ## The like and favorite actions -/

/-- Modelled from the spec: the like action of package `xiaohongshu` is not among the
sources. The spec gives it the states `{unknown, liked, unliked}`. -/
inductive LikeState where
  | unknown
  | liked
  | unliked
  deriving DecidableEq

/-- Modelled from the spec: the favorite action of package `xiaohongshu` is not among the
sources. The spec lets it mirror the like action with its own pair of states. -/
inductive FavoriteState where
  | unknown
  | favorited
  | unfavorited
  deriving DecidableEq

/-- Modelled from the spec: `LikeAction.Like` is not among the sources. In the spec `Like`
navigates to the page and inspects the current like state; if the feed is already liked
it returns success without further interaction; otherwise it performs the click and
verifies the resulting state. `navigated`, `clicked` and `verified` are the failures of
the three steps that can fail (none when the step succeeds), `current` the inspected
state. -/
def LikeAction.Like (navigated : Option GoError) (current : LikeState)
    (clicked verified : Option GoError) : ActionRun (Option GoError) :=
  match navigated with
  | some err => { outcome := .ret (some err), events := [.navigate] }
  | none =>
    if current = .liked then { outcome := .ret none, events := [.navigate, .inspect] }
    else
      match clicked with
      | some err => { outcome := .ret (some err), events := [.navigate, .inspect, .interact] }
      | none =>
        { outcome := .ret verified, events := [.navigate, .inspect, .interact, .verify] }

/-- Modelled from the spec: `LikeAction.Unlike` is not among the sources. In the spec
`Unlike` mirrors `Like`: it returns success without further interaction when the feed is
already unliked. -/
def LikeAction.Unlike (navigated : Option GoError) (current : LikeState)
    (clicked verified : Option GoError) : ActionRun (Option GoError) :=
  match navigated with
  | some err => { outcome := .ret (some err), events := [.navigate] }
  | none =>
    if current = .unliked then { outcome := .ret none, events := [.navigate, .inspect] }
    else
      match clicked with
      | some err => { outcome := .ret (some err), events := [.navigate, .inspect, .interact] }
      | none =>
        { outcome := .ret verified, events := [.navigate, .inspect, .interact, .verify] }

/-- Modelled from the spec: `FavoriteAction.Favorite` is not among the sources. In the
spec `Favorite` mirrors `Like`: it returns success without further interaction when the
feed is already favorited. -/
def FavoriteAction.Favorite (navigated : Option GoError) (current : FavoriteState)
    (clicked verified : Option GoError) : ActionRun (Option GoError) :=
  match navigated with
  | some err => { outcome := .ret (some err), events := [.navigate] }
  | none =>
    if current = .favorited then { outcome := .ret none, events := [.navigate, .inspect] }
    else
      match clicked with
      | some err => { outcome := .ret (some err), events := [.navigate, .inspect, .interact] }
      | none =>
        { outcome := .ret verified, events := [.navigate, .inspect, .interact, .verify] }

/-- Modelled from the spec: `FavoriteAction.Unfavorite` is not among the sources. In the
spec `Unfavorite` mirrors `Like`: it returns success without further interaction when the
feed is already unfavorited. -/
def FavoriteAction.Unfavorite (navigated : Option GoError) (current : FavoriteState)
    (clicked verified : Option GoError) : ActionRun (Option GoError) :=
  match navigated with
  | some err => { outcome := .ret (some err), events := [.navigate] }
  | none =>
    if current = .unfavorited then { outcome := .ret none, events := [.navigate, .inspect] }
    else
      match clicked with
      | some err => { outcome := .ret (some err), events := [.navigate, .inspect, .interact] }
      | none =>
        { outcome := .ret verified, events := [.navigate, .inspect, .interact, .verify] }

/-! ## The width of a title -/

/-- The width of a character in the units of the title check, as its comment gives them
(service.go:171-172): a Chinese, Japanese or Korean character takes 2 units, an English
letter or a digit 1. -/
def unitWidth (c : Char) : Nat := if c.toNat < 128 then 1 else 2

/-- The width of a text of such characters, on which `runewidth.StringWidth` is the sum
of the widths of the characters. -/
def unitStringWidth (s : String) : Nat := (s.data.map unitWidth).sum

/-! ## `pkg/downloader` -/

/-- The value of `len(s)` for a Go string: the number of bytes of its UTF-8 text. -/
def goLen (s : String) : Nat := (s.data.flatMap utf8Bytes).length

/-- Whether a list of characters starts with another one. -/
def startsWithChars : List Char → List Char → Bool
  | _, [] => true
  | [], _ :: _ => false
  | c :: cs, p :: ps => c == p && startsWithChars cs ps

/-- The function `strings.HasPrefix`. -/
def strings.HasPrefix (s p : String) : Bool := startsWithChars s.data p.data

/-- Whether a list of characters holds another one as a contiguous part. -/
def containsChars : List Char → List Char → Bool
  | [], sub => startsWithChars [] sub
  | c :: cs, sub => startsWithChars (c :: cs) sub || containsChars cs sub

/-- The function `strings.Contains`. -/
def strings.Contains (s substr : String) : Bool := containsChars s.data substr.data

/-- The lower-case form of a character as `strings.ToLower` takes it: an ASCII capital
becomes its small letter, any other ASCII character stays, and a character outside ASCII
is mapped by `unicode.ToLower`, whose table is the parameter `lower`. -/
def toLowerChar (lower : Char → Char) (c : Char) : Char :=
  if 65 ≤ c.toNat ∧ c.toNat ≤ 90 then Char.ofNat (c.toNat + 32)
  else if c.toNat < 128 then c
  else lower c

/-- The function `strings.ToLower`. -/
def strings.ToLower (lower : Char → Char) (s : String) : String :=
  String.mk (s.data.map (toLowerChar lower))

/-- The function `IsImageURL` (images.go:145-148). -/
def IsImageURL (lower : Char → Char) (path : String) : Bool :=
  strings.HasPrefix (strings.ToLower lower path) "http://"
    || strings.HasPrefix (strings.ToLower lower path) "https://"

/-- The test of the loop of `IsFeishuFileToken` on one character (images.go:163): an ASCII
letter or digit. -/
def isTokenChar (r : Char) : Bool :=
  (97 ≤ r.toNat && r.toNat ≤ 122) || (65 ≤ r.toNat && r.toNat ≤ 90)
    || (48 ≤ r.toNat && r.toNat ≤ 57)

/-- The function `IsFeishuFileToken` (images.go:153-168). -/
def IsFeishuFileToken (token : String) : Bool :=
  if goLen token < 15 || goLen token > 50 then false
  else if strings.Contains token "/" || strings.Contains token "\\" then false
  else token.data.all isTokenChar

/-- The three lists that the loop of `ProcessImagesWithFeishuToken` fills
(processor.go:40-42). -/
structure ImageLists where
  localPaths : List String
  urlsToDownload : List String
  feishuTokens : List String

/-- The loop that separates URLs, file tokens and local paths (processor.go:45-54). -/
def separateImages (lower : Char → Char) : List String → ImageLists → ImageLists
  | [], acc => acc
  | image :: rest, acc =>
    if IsImageURL lower image then
      separateImages lower rest { acc with urlsToDownload := acc.urlsToDownload ++ [image] }
    else if IsFeishuFileToken image then
      separateImages lower rest { acc with feishuTokens := acc.feishuTokens ++ [image] }
    else
      separateImages lower rest { acc with localPaths := acc.localPaths ++ [image] }

/-- `ImageProcessor.ProcessImagesWithFeishuToken` (processor.go:39-82); `downloadImages`
is the call `p.downloader.DownloadImages` and `downloadFeishuImages` the call
`p.downloader.DownloadFeishuImages`, each with the paths and the error it returns. -/
def ImageProcessor.ProcessImagesWithFeishuToken (lower : Char → Char)
    (downloadImages : List String → List String × Option GoError)
    (downloadFeishuImages : List String → String → List String × Option GoError)
    (images : List String) (accessToken : String) : Except GoError (List String) :=
  let lists := separateImages lower images
    { localPaths := [], urlsToDownload := [], feishuTokens := [] }
  let afterUrls : Except GoError (List String) :=
    if lists.urlsToDownload.length > 0 then
      match downloadImages lists.urlsToDownload with
      | (_, some err) => .error (sprintf "failed to download images: %w" [err])
      | (downloadedPaths, none) => .ok (lists.localPaths ++ downloadedPaths)
    else .ok lists.localPaths
  match afterUrls with
  | .error err => .error err
  | .ok localPaths =>
    let afterTokens : Except GoError (List String) :=
      if lists.feishuTokens.length > 0 then
        if accessToken = "" then
          .error (sprintf "access_token is required for feishu file_token download" [])
        else
          match downloadFeishuImages lists.feishuTokens accessToken with
          | (_, some err) => .error (sprintf "failed to download feishu images: %w" [err])
          | (downloadedPaths, none) => .ok (localPaths ++ downloadedPaths)
      else .ok localPaths
    match afterTokens with
    | .error err => .error err
    | .ok localPaths =>
      if localPaths.length = 0 then .error (sprintf "no valid images found" [])
      else .ok localPaths

/-- `ImageProcessor.ProcessImages` (processor.go:33-35). -/
def ImageProcessor.ProcessImages (lower : Char → Char)
    (downloadImages : List String → List String × Option GoError)
    (downloadFeishuImages : List String → String → List String × Option GoError)
    (images : List String) : Except GoError (List String) :=
  ImageProcessor.ProcessImagesWithFeishuToken lower downloadImages downloadFeishuImages
    images ""

/-! ## `mcp_handlers.go` and the request of a cover image -/

/-- The function `filepath.Base` with the separator `/`: trailing separators are dropped,
then the part after the last separator is taken; the empty path gives `.` and a path of
separators alone gives `/`. -/
def filepath.Base (path : String) : String :=
  if path = "" then "."
  else
    let stripped := (path.data.reverse.dropWhile (fun c => c == '/')).reverse
    let last := (stripped.reverse.takeWhile (fun c => c != '/')).reverse
    if last = [] then "/" else String.mk last

/-- The byte index that `strings.LastIndex(s, ":")` returns, `-1` when `s` has no colon;
`pos` is the byte index of the first character of the list and `found` the index found
so far. -/
def lastColonFrom : List Char → Nat → Int → Int
  | [], _, found => found
  | c :: cs, pos, found =>
    lastColonFrom cs (pos + (utf8Bytes c).length) (if c = ':' then (pos : Int) else found)

/-- The call `strings.LastIndex(s, ":")`. -/
def strings.LastIndexColon (s : String) : Int := lastColonFrom s.data 0 (-1)

/-- The characters of a text from a byte index on; the index is one at which a character
starts. -/
def dropBytes : List Char → Nat → List Char
  | cs, 0 => cs
  | [], _ + 1 => []
  | c :: cs, n + 1 => dropBytes cs (n + 1 - (utf8Bytes c).length)

/-- The function `convertToHTTPURL` (mcp_handlers.go:33-51); `ip` is the result of
`getLocalIP()`. -/
def convertToHTTPURL (ip : String) (localPath port : String) : String :=
  let filename := filepath.Base localPath
  let portOnly :=
    if strings.Contains port ":" then
      String.mk (dropBytes port.data (strings.LastIndexColon port).toNat)
    else port
  sprintf "http://%s%s/images/%s" [ip, portOnly, filename]

/-- The type `MCPContent` (types.go:27-32); its field `Type` is `ContentType` here. -/
structure MCPContent where
  ContentType : String
  Text : String
  MimeType : String
  Data : String

/-- The type `MCPToolResult` (types.go:21-24). -/
structure MCPToolResult where
  Content : List MCPContent
  IsError : Bool

/-- A value of the map `args` of a handler as the type assertions of `handleTextToImage`
tell the values apart: no entry, a `string`, an `int`, a `float64` (of the type `F`), or a
value of another type. -/
inductive ArgValue (F : Type) where
  | absent
  | string (s : String)
  | int (n : Int)
  | float64 (f : F)
  | other

/-- The map `req` that `handleTextToImage` hands to `CVProcess`
(mcp_handlers.go:654-659). -/
structure TextToImageApiRequest where
  req_key : String
  prompt : String
  width : Int
  height : Int

/-- The value of `width` or `height` after the type assertions and the range check
(mcp_handlers.go:622-643); `toInt` is the conversion `int(w)` of a `float64`. -/
def textToImageSize {F : Type} (toInt : F → Int) (arg : ArgValue F) : Int :=
  let size : Int :=
    match arg with
    | .int w => w
    | .float64 w => toInt w
    | _ => 512
  if size < 256 ∨ size > 768 then 512 else size

/-- `AppServer.handleTextToImage` up to the call of `CVProcess`
(mcp_handlers.go:607-662): the result returned for a missing prompt, or the request
handed to the image API. -/
def AppServer.handleTextToImageRequest {F : Type} (toInt : F → Int)
    (prompt width height : ArgValue F) : Except MCPToolResult TextToImageApiRequest :=
  match prompt with
  | .string p =>
    if p = "" then
      .error { Content := [{ ContentType := "text", Text := "文生图失败: 缺少prompt参数", MimeType := "", Data := "" }], IsError := true }
    else
      .ok { req_key := "jimeng_high_aes_general_v21_L", prompt := p, width := textToImageSize toInt width, height := textToImageSize toInt height }
  | _ =>
    .error { Content := [{ ContentType := "text", Text := "文生图失败: 缺少prompt参数", MimeType := "", Data := "" }], IsError := true }

/-- The type `CoverImageRequest` (types.go:107-118). -/
structure CoverImageRequest where
  Text : String
  Width : Int
  Height : Int
  FontSize : Int
  TextColor : String
  BgColor : String
  Style : String
  BackgroundImage : String
  TextOffsetY : Int
  OutputPath : String

/-- `ImageGenerator.GenerateCoverImage` up to the creation of the canvas
(image_generator.go:66-108): the request with the size taken from the background image or
the default size, and with the other default values. `getImageDimensions` is the method
of that name and `scaled` gives, for the width and the height of the background image, the
two values `int(float64(bgWidth) * scale)` and `int(float64(bgHeight) * scale)`. -/
def ImageGenerator.GenerateCoverImageRequest (getImageDimensions : String → Except GoError (Int × Int))
    (scaled : Int → Int → Int × Int) (req : CoverImageRequest) :
    Except GoError CoverImageRequest :=
  let sized : Except GoError CoverImageRequest :=
    if req.BackgroundImage ≠ "" then
      match getImageDimensions req.BackgroundImage with
      | .error err => .error (sprintf "读取背景图片失败: %v" [err])
      | .ok (bgWidth, bgHeight) =>
        .ok { req with Width := (scaled bgWidth bgHeight).1, Height := (scaled bgWidth bgHeight).2 }
    else
      let req1 := if req.Width = 0 then { req with Width := 1080 } else req
      .ok (if req1.Height = 0 then { req1 with Height := 1440 } else req1)
  match sized with
  | .error err => .error err
  | .ok req2 =>
    let req3 := if req2.FontSize = 0 then { req2 with FontSize := 48 } else req2
    let req4 := if req3.TextColor = "" then { req3 with TextColor := "#FFFFFF" } else req3
    .ok (if req4.Style = "" then { req4 with Style := "gradient" } else req4)

/-! ## The text of a cover image (`image_generator.go`) -/

/-- The first element of `[]rune(s)` for the bytes of a non-empty Go string: the first
rune that UTF-8 decoding finds, which is U+FFFD when the bytes do not start with a
well-formed encoding (package `unicode/utf8`). -/
def firstRune : List Nat → Nat
  | [] => 0xFFFD
  | s0 :: rest =>
    if s0 < 0x80 then s0
    else if s0 < 0xC2 then 0xFFFD
    else if s0 < 0xE0 then
      match rest with
      | s1 :: _ =>
        if s1 < 0x80 ∨ 0xBF < s1 then 0xFFFD else (s0 % 0x20) * 0x40 + s1 % 0x40
      | [] => 0xFFFD
    else if s0 < 0xF0 then
      match rest with
      | s1 :: s2 :: _ =>
        if s1 < (if s0 = 0xE0 then 0xA0 else 0x80) ∨ (if s0 = 0xED then 0x9F else 0xBF) < s1
        then 0xFFFD
        else if s2 < 0x80 ∨ 0xBF < s2 then 0xFFFD
        else (s0 % 0x10) * 0x1000 + (s1 % 0x40) * 0x40 + s2 % 0x40
      | _ => 0xFFFD
    else if s0 < 0xF5 then
      match rest with
      | s1 :: s2 :: s3 :: _ =>
        if s1 < (if s0 = 0xF0 then 0x90 else 0x80) ∨ (if s0 = 0xF4 then 0x8F else 0xBF) < s1
        then 0xFFFD
        else if s2 < 0x80 ∨ 0xBF < s2 then 0xFFFD
        else if s3 < 0x80 ∨ 0xBF < s3 then 0xFFFD
        else (s0 % 0x08) * 0x40000 + (s1 % 0x40) * 0x1000 + (s2 % 0x40) * 0x40 + s3 % 0x40
      | _ => 0xFFFD
    else 0xFFFD

/-- `ImageGenerator.isChinese` (image_generator.go:540-546), for the bytes of the Go
string `char`. -/
def ImageGenerator.isChinese (char : List Nat) : Bool :=
  if char.length = 0 then false
  else 0x4e00 ≤ firstRune char && firstRune char ≤ 0x9fff

/-- The loop of `splitText` (image_generator.go:511-529) with the words found so far and
the characters of the word in progress. -/
def splitTextLoop : List Char → List String → List Char → List String × List Char
  | [], words, current => (words, current)
  | r :: rest, words, current =>
    if ImageGenerator.isChinese (utf8Bytes r) then
      let words1 := if current.length > 0 then words ++ [String.mk current] else words
      splitTextLoop rest (words1 ++ [String.singleton r]) []
    else if r = ' ' ∨ r = '\t' then
      if current.length > 0 then splitTextLoop rest (words ++ [String.mk current]) []
      else splitTextLoop rest words current
    else splitTextLoop rest words (current ++ [r])

/-- `ImageGenerator.splitText` (image_generator.go:507-537). -/
def ImageGenerator.splitText (text : String) : List String :=
  let (words, current) := splitTextLoop text.data [] []
  if current.length > 0 then words ++ [String.mk current] else words

/-- The call `strings.Split(text, "\n")` on the characters of the text. -/
def splitNewlines : List Char → List Char → List String
  | [], current => [String.mk current]
  | c :: cs, current =>
    if c = '\n' then String.mk current :: splitNewlines cs []
    else splitNewlines cs (current ++ [c])

/-- The separator that `wrapText` puts between the line so far and the next word
(image_generator.go:465-473): the tests look at the last byte of the line and at the
first byte of the word. -/
def wrapSeparator (currentLine word : String) : String :=
  if goLen currentLine > 0 ∧ goLen word > 0 then
    let lastChar := ((currentLine.data.flatMap utf8Bytes).getLast?).toList
    let firstChar := ((word.data.flatMap utf8Bytes).head?).toList
    if ImageGenerator.isChinese lastChar || ImageGenerator.isChinese firstChar then ""
    else " "
  else " "

/-- The loop over the words of a paragraph after the first one
(image_generator.go:463-490); `fits` tells whether the measured width of a line is at
most `maxWidth`. -/
def wrapWords (fits : String → Bool) : List String → List String → String → List String × String
  | [], lines, currentLine => (lines, currentLine)
  | word :: rest, lines, currentLine =>
    let testLine := currentLine ++ wrapSeparator currentLine word ++ word
    if fits testLine then wrapWords fits rest lines testLine
    else wrapWords fits rest (lines ++ [currentLine]) word

/-- The loop over the paragraphs (image_generator.go:446-496). -/
def wrapParagraphs (fits : String → Bool) : List String → List String → List String
  | [], lines => lines
  | paragraph :: rest, lines =>
    if paragraph = "" then wrapParagraphs fits rest (lines ++ [""])
    else
      match ImageGenerator.splitText paragraph with
      | [] => wrapParagraphs fits rest lines
      | first :: words =>
        let (lines1, currentLine) := wrapWords fits words lines first
        if goLen currentLine > 0 then wrapParagraphs fits rest (lines1 ++ [currentLine])
        else wrapParagraphs fits rest lines1

/-- `ImageGenerator.wrapText` (image_generator.go:440-504); `fits` tells whether
`dc.MeasureString` gives a line a width of at most `maxWidth`. -/
def ImageGenerator.wrapText (fits : String → Bool) (text : String) : List String :=
  let lines := wrapParagraphs fits (splitNewlines text.data []) []
  if lines.length = 0 then [""] else lines

/-- A character in the range that `isChinese` tests, U+4E00 to U+9FFF. -/
def ChineseChar (c : Char) : Prop := 0x4e00 ≤ c.toNat ∧ c.toNat ≤ 0x9fff

/-- A word as `splitText` returns them: not empty, without a space or a tab, and a single
character when it holds a Chinese one. -/
def SplitWord (w : String) : Prop :=
  w ≠ "" ∧ ' ' ∉ w.data ∧ '\t' ∉ w.data ∧ ∀ c ∈ w.data, ChineseChar c → w = String.singleton c

/-- The errors with which `fmt.Sscanf` ends the scan of a number. -/
inductive ScanError where
  | unexpectedNewline
  | unexpectedEOF
  | expectedInteger

/-- The characters that package `fmt` skips as space when it scans. -/
def isScanSpace (c : Char) : Bool :=
  (0x0009 ≤ c.toNat && c.toNat ≤ 0x000d) || c.toNat == 0x0020 || c.toNat == 0x0085
    || c.toNat == 0x00a0 || c.toNat == 0x1680 || (0x2000 ≤ c.toNat && c.toNat ≤ 0x200a)
    || c.toNat == 0x2028 || c.toNat == 0x2029 || c.toNat == 0x202f || c.toNat == 0x205f
    || c.toNat == 0x3000

/-- The skipping of space before a verb of `fmt.Sscanf`: a newline in the input is an
error. -/
def skipScanSpace : List Char → Except ScanError (List Char)
  | [] => .ok []
  | c :: cs =>
    if c = '\n' then .error .unexpectedNewline
    else if isScanSpace c then skipScanSpace cs
    else .ok (c :: cs)

/-- The verb `%02x` of `fmt.Sscanf` for an operand of type `uint8`: after the space, one
or two hexadecimal digits are read; the result is their value and the rest of the
input. -/
def scanHex2 (input : List Char) : Except ScanError (Nat × List Char) :=
  match skipScanSpace input with
  | .error e => .error e
  | .ok [] => .error .unexpectedEOF
  | .ok (c1 :: rest) =>
    match hexValue c1 with
    | none => .error .expectedInteger
    | some d1 =>
      match rest with
      | [] => .ok (d1, [])
      | c2 :: rest2 =>
        match hexValue c2 with
        | none => .ok (d1, c2 :: rest2)
        | some d2 => .ok (d1 * 16 + d2, rest2)

/-- The call `fmt.Sscanf(colorStr, "%02x%02x%02x", &r, &g, &b)`: the three values, or the
error of the first verb that fails; input left over is ignored. -/
def sscanfHex3 (input : List Char) : Except ScanError (Nat × Nat × Nat) :=
  match scanHex2 input with
  | .error e => .error e
  | .ok (r, rest1) =>
    match scanHex2 rest1 with
    | .error e => .error e
    | .ok (g, rest2) =>
      match scanHex2 rest2 with
      | .error e => .error e
      | .ok (b, _) => .ok (r, g, b)

/-- The type `color.RGBA`. -/
structure RGBA where
  R : Nat
  G : Nat
  B : Nat
  A : Nat

/-- The text of `colorStr` after the first statement of `parseColor`
(image_generator.go:641-643): without one leading `#`. -/
def stripHash (colorStr : String) : String :=
  if strings.HasPrefix colorStr "#" then String.mk (colorStr.data.drop 1) else colorStr

/-- The function `parseColor` (image_generator.go:639-657); `errText` gives the message of
an error of `fmt.Sscanf`. -/
def parseColor (errText : ScanError → String) (colorStr : String) : Except GoError RGBA :=
  let colorStr := stripHash colorStr
  if goLen colorStr ≠ 6 then .error (sprintf "无效的颜色格式: %s" [colorStr])
  else
    match sscanfHex3 colorStr.data with
    | .error e => .error (sprintf "解析颜色失败: %v" [errText e])
    | .ok (r, g, b) => .ok { R := r, G := g, B := b, A := 255 }

end Xhs

namespace Xhs

/-! ## Properties -/

theorem escapeByte_unreserved (c : Char) (h : unreservedByte c.toNat = true) :
    (utf8Bytes c).flatMap escapeByte = [c] := by
  have hlt : c.toNat < 0x80 := by
    simp only [unreservedByte, Bool.or_eq_true, Bool.and_eq_true, decide_eq_true_eq,
      beq_iff_eq] at h
    omega
  simp [utf8Bytes, hlt, escapeByte, h, Char.ofNat_toNat]

theorem queryEscape_unreserved (cs : List Char)
    (h : ∀ c ∈ cs, unreservedByte c.toNat = true) :
    cs.flatMap (fun c => (utf8Bytes c).flatMap escapeByte) = cs := by
  induction cs with
  | nil => rfl
  | cons c cs ih =>
    have hc := escapeByte_unreserved c (h c (List.mem_cons_self _ _))
    have hr := ih (fun d hd => h d (List.mem_cons_of_mem _ hd))
    simp only [List.flatMap_cons, hc, hr, List.singleton_append]

/-- C5: `makeFeedDetailURL` returns the explore URL of the feed followed by the query
`xsec_token=<token>&xsec_source=pc_feed`, for every feed id and token. -/
theorem makeFeedDetailURL_eq (feedID xsecToken : String) :
    makeFeedDetailURL feedID xsecToken
      = "https://www.xiaohongshu.com/explore/" ++ feedID ++ "?xsec_token=" ++ xsecToken
          ++ "&xsec_source=pc_feed" := by
  apply String.ext
  simp [makeFeedDetailURL, sprintf, sprintfChars, String.data_append]

/-- C6: `makeSearchURL` returns the search URL with the query `keyword=<escaped keyword>`
followed by `source=web_explore_feed`; a keyword made of unreserved characters only is
its own escaped form. -/
theorem makeSearchURL_eq (keyword : String) :
    makeSearchURL keyword
        = "https://www.xiaohongshu.com/search_result?keyword=" ++ QueryEscape keyword
            ++ "&source=web_explore_feed"
      ∧ ((∀ c ∈ keyword.data, unreservedByte c.toNat = true) →
          makeSearchURL keyword
            = "https://www.xiaohongshu.com/search_result?keyword=" ++ keyword
                ++ "&source=web_explore_feed") := by
  have main : makeSearchURL keyword
        = "https://www.xiaohongshu.com/search_result?keyword=" ++ QueryEscape keyword
            ++ "&source=web_explore_feed" := by
    have h1 : QueryEscape "keyword" = "keyword" := by decide
    have h2 : QueryEscape "source" = "source" := by decide
    have h3 : QueryEscape "web_explore_feed" = "web_explore_feed" := by decide
    have hlt : ltChars "keyword".data "source".data = true := by decide
    have hset : (Values.Set (Values.Set [] "keyword" keyword) "source" "web_explore_feed")
        = [("keyword", [keyword]), ("source", ["web_explore_feed"])] := by
      simp [Values.Set, GoMap.set]
    have hkeys : sortedKeys [("keyword", [keyword]), ("source", ["web_explore_feed"])]
        = ["keyword", "source"] := by
      simp [sortedKeys, insertKey, hlt]
    have henc : Values.Encode [("keyword", [keyword]), ("source", ["web_explore_feed"])]
        = "keyword=" ++ QueryEscape keyword ++ "&source=web_explore_feed" := by
      simp only [Values.Encode, hkeys]
      simp [encodeKey, GoMap.get, h1, h2, h3, String.intercalate, String.intercalate.go]
      apply String.ext
      simp [String.data_append]
    simp only [makeSearchURL, hset, henc]
    apply String.ext
    simp [sprintf, sprintfChars, String.data_append]
  refine ⟨main, fun h => ?_⟩
  rw [main]
  have : QueryEscape keyword = keyword := by
    apply String.ext
    simp only [QueryEscape]
    exact queryEscape_unreserved _ h
  rw [this]

/-! ### The reference text layer reads what it writes -/

theorem hexValue_lowerhex (d : Nat) (h : d < 16) : hexValue (lowerhex d) = some d := by
  interval_cases d <;> rfl

theorem char_eq_ofNat (c : Char) (n : Nat) (h : c.toNat = n) : c = Char.ofNat n := by
  rw [← h, Char.ofNat_toNat]

theorem readString_control (c : Char) (rest acc : List Char) (h : c.toNat < 0x20) :
    readString ('\\' :: 'u' :: '0' :: '0' :: lowerhex (c.toNat / 16) :: lowerhex (c.toNat % 16)
      :: rest) acc = readString rest (c :: acc) := by
  have hc := char_eq_ofNat c c.toNat rfl
  generalize c.toNat = n at h hc
  subst hc
  rw [readString.eq_def]
  interval_cases n <;> simp +decide [unicodeEscape, hexValue, lowerhex]

theorem readString_plain (c : Char) (rest acc : List Char) (h1 : c ≠ '"') (h2 : c ≠ '\\')
    (h3 : ¬ c.toNat < 0x20) : readString (c :: rest) acc = readString rest (c :: acc) := by
  rw [readString.eq_def]
  simp [h1, h2, h3]

theorem readString_renderChar (c : Char) (rest acc : List Char) :
    readString (renderChar c ++ rest) acc = readString rest (c :: acc) := by
  unfold renderChar
  split_ifs with h1 h2 h3 h4 h5 h6 h7 h8
  · subst h1; rw [readString.eq_def]; simp +decide
  · subst h2; rw [readString.eq_def]; simp +decide
  · subst h3; rw [readString.eq_def]; simp +decide
  · subst h4; rw [readString.eq_def]; simp +decide
  · subst h5; rw [readString.eq_def]; simp +decide
  · have := char_eq_ofNat c 8 h6; subst this; rw [readString.eq_def]; simp +decide
  · have := char_eq_ofNat c 12 h7; subst this; rw [readString.eq_def]; simp +decide
  · exact readString_control c rest acc h8
  · exact readString_plain c rest acc h1 h2 h8

theorem readString_render (s rest acc : List Char) :
    readString (s.flatMap renderChar ++ '"' :: rest) acc
      = some (String.mk (acc.reverse ++ s), rest) := by
  induction s generalizing acc with
  | nil => rw [List.flatMap_nil, List.nil_append, readString.eq_def]; simp
  | cons c s ih =>
    rw [List.flatMap_cons, List.append_assoc, readString_renderChar, ih]
    simp

theorem readString_renderString (s : String) (rest : List Char) :
    ∃ tl, renderString s ++ rest = '"' :: tl ∧ readString tl [] = some (s, rest) := by
  refine ⟨s.data.flatMap renderChar ++ '"' :: rest, ?_, ?_⟩
  · simp [renderString]
  · rw [readString_render]
    simp

theorem digitChar_toNat (k : Nat) (h : k < 10) : (Nat.digitChar k).toNat = 48 + k := by
  interval_cases k <;> rfl

theorem readDigits_append (ds rest : List Char) (m : Nat) (hds : ∀ c ∈ ds, isDigit c)
    (hrest : ∀ c tl, rest = c :: tl → ¬ isDigit c) :
    readDigits (ds ++ rest) m = (ds.foldl (fun a c => a * 10 + (c.toNat - 48)) m, rest) := by
  induction ds generalizing m with
  | nil =>
    cases rest with
    | nil => rfl
    | cons c tl =>
      have := hrest c tl rfl
      simp only [isDigit] at this
      simp [readDigits, this]
  | cons d ds ih =>
    have hd := hds d (List.mem_cons_self _ _)
    simp only [isDigit] at hd
    simp only [List.cons_append, readDigits, hd, and_self, if_true, List.foldl_cons]
    exact ih _ (fun c hc => hds c (List.mem_cons_of_mem _ hc))

theorem toDigitsCore_good (n : Nat) :
    ∀ fuel, n < fuel → ∀ acc,
      ∃ ds, Nat.toDigitsCore 10 fuel n acc = ds ++ acc ∧ GoodDigits n ds := by
  induction n using Nat.strong_induction_on with
  | _ n ih =>
    intro fuel hfuel acc
    cases fuel with
    | zero => omega
    | succ f =>
      have hmod : n % 10 < 10 := Nat.mod_lt _ (by decide)
      have hd := digitChar_toNat (n % 10) hmod
      by_cases hq : n / 10 = 0
      · refine ⟨[Nat.digitChar (n % 10)], by simp [Nat.toDigitsCore, hq], ?_, ?_, ?_⟩
        · intro c hc
          simp only [List.mem_singleton] at hc
          subst hc
          simp only [isDigit, hd]
          omega
        · intro m
          simp only [List.foldl_cons, List.foldl_nil, hd, List.length_singleton, pow_one]
          omega
        · by_cases h0 : n = 0
          · left
            subst h0
            exact ⟨rfl, rfl⟩
          · right
            exact ⟨h0, _, [], rfl, by omega, by omega⟩
      · have hlt : n / 10 < n := Nat.div_lt_self (by omega) (by decide)
        obtain ⟨ds, hds, hall, hval, hhead⟩ :=
          ih (n / 10) hlt f (by omega) (Nat.digitChar (n % 10) :: acc)
        refine ⟨ds ++ [Nat.digitChar (n % 10)], by simp [Nat.toDigitsCore, hq, hds], ?_, ?_, ?_⟩
        · intro c hc
          rcases List.mem_append.mp hc with h | h
          · exact hall c h
          · simp only [List.mem_singleton] at h
            subst h
            simp only [isDigit, hd]
            omega
        · intro m
          simp only [List.foldl_append, hval, List.foldl_cons, List.foldl_nil, hd,
            List.length_append, List.length_singleton, pow_succ]
          have := Nat.div_add_mod n 10
          have h2 : 48 + n % 10 - 48 = n % 10 := by omega
          rw [h2]
          nlinarith [this]
        · right
          rcases hhead with ⟨h0, _⟩ | ⟨_, c, tl, hc, h1, h2⟩
          · exact absurd h0 hq
          · exact ⟨by omega, c, tl ++ [Nat.digitChar (n % 10)], by simp [hc], h1, h2⟩

theorem repr_good (n : Nat) : GoodDigits n (Nat.repr n).data := by
  obtain ⟨ds, hds, hgood⟩ := toDigitsCore_good n (n + 1) (Nat.lt_succ_self n) []
  have : (Nat.repr n).data = ds := by
    simp [Nat.repr, Nat.toDigits, hds, List.asString]
  rw [this]
  exact hgood

theorem readNat_good (n : Nat) (ds rest : List Char) (h : GoodDigits n ds)
    (hrest : ∀ c tl, rest = c :: tl → ¬ isDigit c) :
    readNat (ds ++ rest) = some (n, rest) := by
  obtain ⟨hall, hval, hhead⟩ := h
  rcases hhead with ⟨h0, hds⟩ | ⟨_, c, tl, hds, h1, h2⟩
  · subst h0 hds
    cases rest with
    | nil => rfl
    | cons d tl =>
      have := hrest d tl rfl
      simp only [isDigit] at this
      simp [readNat, this]
  · subst hds
    have hc0 : c ≠ '0' := by
      intro hc
      subst hc
      simp at h1
    have htl : ∀ d ∈ tl, isDigit d := fun d hd => hall d (List.mem_cons_of_mem _ hd)
    simp only [List.cons_append, readNat, hc0, if_false, h1, h2, and_self, if_true,
      readDigits_append tl rest _ htl hrest]
    have := hval 0
    simp only [List.foldl_cons, Nat.zero_mul, Nat.zero_add] at this
    rw [this]

theorem skipWs_cons (c : Char) (cs : List Char) (h : ¬ isWs c) : skipWs (c :: cs) = c :: cs := by
  simp only [isWs] at h
  simp [skipWs, h]

theorem Delim.not_digit {rest : List Char} (h : Delim rest) :
    ∀ c tl, rest = c :: tl → ¬ isDigit c := by
  intro c tl hc hd
  rcases h c tl hc with rfl | rfl | rfl <;> simp [isDigit] at hd

theorem Delim.skipWs {rest : List Char} (h : Delim rest) : skipWs rest = rest := by
  cases rest with
  | nil => rfl
  | cons c tl =>
    apply skipWs_cons
    rcases h c tl rfl with rfl | rfl | rfl <;> simp +decide [isWs]

theorem delim_cons_comma (rest : List Char) : Delim (',' :: rest) := by
  intro c tl h
  simp only [List.cons.injEq] at h
  exact Or.inl h.1.symm

theorem delim_cons_bracket (rest : List Char) : Delim (']' :: rest) := by
  intro c tl h
  simp only [List.cons.injEq] at h
  exact Or.inr (Or.inl h.1.symm)

theorem delim_cons_brace (rest : List Char) : Delim ('}' :: rest) := by
  intro c tl h
  simp only [List.cons.injEq] at h
  exact Or.inr (Or.inr h.1.symm)

theorem isDigit.valueStart {c : Char} (h : isDigit c) : ValueStart c := by
  simp only [isDigit] at h
  refine ⟨?_, ?_, ?_⟩
  · rintro (rfl | rfl | rfl | rfl) <;> simp at h
  · rintro rfl
    simp at h
  · rintro rfl
    simp at h

theorem GoodDigits.head {n : Nat} {ds : List Char} (h : GoodDigits n ds) :
    ∃ c tl, ds = c :: tl ∧ isDigit c := by
  rcases h.2.2 with ⟨_, hds⟩ | ⟨_, c, tl, hds, h1, h2⟩
  · exact ⟨'0', [], hds, by simp [isDigit]⟩
  · exact ⟨c, tl, hds, by simp only [isDigit]; omega⟩

theorem readValue_digits (fuel n : Nat) (ds rest : List Char) (h : GoodDigits n ds)
    (hrest : Delim rest) : readValue (fuel + 1) (ds ++ rest) = some (.num (n : Int), rest) := by
  have hread := readNat_good n ds rest h hrest.not_digit
  obtain ⟨c, tl, hds, hc⟩ := h.head
  subst hds
  have hstart := hc.valueStart
  simp only [isDigit] at hc
  have h1 : c ≠ '{' := by rintro rfl; simp at hc
  have h2 : c ≠ '[' := by rintro rfl; simp at hc
  have h3 : c ≠ '"' := by rintro rfl; simp at hc
  have h4 : c ≠ '-' := by rintro rfl; simp at hc
  have h5 : c ≠ 't' := by rintro rfl; simp at hc
  have h6 : c ≠ 'f' := by rintro rfl; simp at hc
  have h7 : c ≠ 'n' := by rintro rfl; simp at hc
  rw [List.cons_append] at hread ⊢
  simp only [readValue, skipWs_cons c _ hstart.1, h1, h2, h3, h4, h5, h6, h7, if_false, hread]

theorem readValue_num (fuel : Nat) (n : Int) (rest : List Char) (hrest : Delim rest) :
    readValue (fuel + 1) (renderInt n ++ rest) = some (.num n, rest) := by
  cases n with
  | ofNat k => exact readValue_digits fuel k _ rest (repr_good k) hrest
  | negSucc k =>
    have hread := readNat_good (k + 1) _ rest (repr_good (k + 1)) hrest.not_digit
    have hws : ¬ isWs '-' := by simp +decide [isWs]
    simp only [renderInt, List.cons_append, readValue, skipWs_cons _ _ hws, hread]
    simp +decide [Int.negSucc_eq]

theorem renderInt_head (n : Int) : ∃ c tl, renderInt n = c :: tl ∧ ValueStart c := by
  cases n with
  | ofNat k =>
    obtain ⟨c, tl, hds, hc⟩ := (repr_good k).head
    exact ⟨c, tl, hds, hc.valueStart⟩
  | negSucc k => exact ⟨'-', _, rfl, by simp +decide [ValueStart, isWs]⟩

theorem renderChars_head (j : Json) : ∃ c tl, renderChars j = c :: tl ∧ ValueStart c := by
  cases j with
  | null => exact ⟨'n', _, rfl, by simp +decide [ValueStart, isWs]⟩
  | bool b =>
    cases b
    · exact ⟨'f', _, rfl, by simp +decide [ValueStart, isWs]⟩
    · exact ⟨'t', _, rfl, by simp +decide [ValueStart, isWs]⟩
  | num n => simpa [renderChars] using renderInt_head n
  | str s =>
    exact ⟨'"', s.data.flatMap renderChar ++ ['"'], by simp [renderChars, renderString],
      by simp +decide [ValueStart, isWs]⟩
  | arr xs =>
    exact ⟨'[', renderElems xs ++ [']'], by simp [renderChars],
      by simp +decide [ValueStart, isWs]⟩
  | obj ps =>
    exact ⟨'{', renderMembers ps ++ ['}'], by simp [renderChars],
      by simp +decide [ValueStart, isWs]⟩

theorem renderElems_head (x : Json) (xs : List Json) :
    ∃ c tl, renderElems (x :: xs) = c :: tl ∧ ValueStart c := by
  obtain ⟨c, tl, hx, hc⟩ := renderChars_head x
  cases xs with
  | nil => exact ⟨c, tl, by simp [renderElems, hx], hc⟩
  | cons y ys => exact ⟨c, tl ++ ',' :: renderElems (y :: ys), by simp [renderElems, hx], hc⟩

theorem readValue_word_null (fuel : Nat) (rest : List Char) :
    readValue (fuel + 1) ("null".data ++ rest) = some (.null, rest) := by
  simp +decide [readValue, skipWs, readWord]

theorem readValue_word_true (fuel : Nat) (rest : List Char) :
    readValue (fuel + 1) ("true".data ++ rest) = some (.bool true, rest) := by
  simp +decide [readValue, skipWs, readWord]

theorem readValue_word_false (fuel : Nat) (rest : List Char) :
    readValue (fuel + 1) ("false".data ++ rest) = some (.bool false, rest) := by
  simp +decide [readValue, skipWs, readWord]

theorem readValue_str (fuel : Nat) (s : String) (rest : List Char) :
    readValue (fuel + 1) (renderString s ++ rest) = some (.str s, rest) := by
  obtain ⟨tl, htl, hread⟩ := readString_renderString s rest
  have hws : ¬ isWs '"' := by simp +decide [isWs]
  rw [htl]
  simp +decide [readValue, skipWs_cons _ _ hws, hread]

theorem readValue_arr_nil (fuel : Nat) (rest : List Char) :
    readValue (fuel + 1) ('[' :: ']' :: rest) = some (.arr [], rest) := by
  simp +decide [readValue, skipWs]

theorem readValue_obj_nil (fuel : Nat) (rest : List Char) :
    readValue (fuel + 1) ('{' :: '}' :: rest) = some (.obj [], rest) := by
  simp +decide [readValue, skipWs]

theorem readValue_arr_cons (fuel : Nat) (cs : List Char) (c : Char) (tl : List Char)
    (hcs : cs = c :: tl) (hc : ValueStart c) :
    readValue (fuel + 1) ('[' :: cs) =
      match readElems fuel cs with
      | some (xs, rest2) => some (.arr xs, rest2)
      | none => none := by
  subst hcs
  have hws : ¬ isWs '[' := by simp +decide [isWs]
  simp +decide [readValue, skipWs_cons _ _ hws, skipWs_cons _ _ hc.1, hc.2.1]

theorem readValue_obj_cons (fuel : Nat) (tl : List Char) :
    readValue (fuel + 1) ('{' :: '"' :: tl) =
      match readMembers fuel ('"' :: tl) with
      | some (ps, rest2) => some (.obj ps, rest2)
      | none => none := by
  simp +decide [readValue, skipWs]

theorem readElems_step (fuel : Nat) (cs : List Char) (x : Json) (rest : List Char)
    (h : readValue fuel cs = some (x, rest)) (hrest : Delim rest) :
    readElems (fuel + 1) cs =
      match rest with
      | [] => none
      | c :: rest1 =>
        if c = ']' then some ([x], rest1)
        else if c = ',' then
          match readElems fuel rest1 with
          | some (xs, rest2) => some (x :: xs, rest2)
          | none => none
        else none := by
  have hskip := hrest.skipWs
  cases rest with
  | nil => simp only [readElems, h, hskip]
  | cons c tl => simp only [readElems, h, hskip]

theorem readMembers_step (fuel : Nat) (k : String) (cs : List Char) (v : Json)
    (rest : List Char) (h : readValue fuel cs = some (v, rest)) (hrest : Delim rest) :
    readMembers (fuel + 1) (renderString k ++ ':' :: cs) =
      match rest with
      | [] => none
      | d :: rest4 =>
        if d = '}' then some ([(k, v)], rest4)
        else if d = ',' then
          match readMembers fuel rest4 with
          | some (ps, rest5) => some ((k, v) :: ps, rest5)
          | none => none
        else none := by
  obtain ⟨tl, htl, hread⟩ := readString_renderString k (':' :: cs)
  have hws : ¬ isWs '"' := by simp +decide [isWs]
  have hws2 : ¬ isWs ':' := by simp +decide [isWs]
  rw [htl]
  have hskip := hrest.skipWs
  cases rest with
  | nil => simp only [readMembers, skipWs_cons _ _ hws, if_true, hread, skipWs_cons _ _ hws2, h,
      hskip]
  | cons c tl => simp only [readMembers, skipWs_cons _ _ hws, if_true, hread,
      skipWs_cons _ _ hws2, h, hskip]

mutual
theorem readValue_render : ∀ (j : Json) (fuel : Nat) (rest : List Char),
    (renderChars j).length ≤ fuel → Delim rest →
    readValue fuel (renderChars j ++ rest) = some (j, rest)
  | .null, fuel, rest, hf, _ => by
    cases fuel with
    | zero => simp [renderChars] at hf
    | succ f => exact readValue_word_null f rest
  | .bool true, fuel, rest, hf, _ => by
    cases fuel with
    | zero => simp [renderChars] at hf
    | succ f => exact readValue_word_true f rest
  | .bool false, fuel, rest, hf, _ => by
    cases fuel with
    | zero => simp [renderChars] at hf
    | succ f => exact readValue_word_false f rest
  | .num n, fuel, rest, hf, hd => by
    cases fuel with
    | zero =>
      obtain ⟨c, tl, hc, _⟩ := renderInt_head n
      simp [renderChars, hc] at hf
    | succ f => exact readValue_num f n rest hd
  | .str s, fuel, rest, hf, _ => by
    cases fuel with
    | zero => simp [renderChars, renderString] at hf
    | succ f => exact readValue_str f s rest
  | .arr [], fuel, rest, hf, _ => by
    cases fuel with
    | zero => simp [renderChars] at hf
    | succ f => exact readValue_arr_nil f rest
  | .arr (x :: xs), fuel, rest, hf, _ => by
    cases fuel with
    | zero => simp [renderChars] at hf
    | succ f =>
      obtain ⟨c, tl, hc, hstart⟩ := renderElems_head x xs
      have hlen : (renderElems (x :: xs)).length + 1 ≤ f := by
        simp only [renderChars, List.length_cons, List.length_append, List.length_nil] at hf
        omega
      have hB := readElems_render (x :: xs) f rest (List.cons_ne_nil _ _) hlen
      have : renderChars (.arr (x :: xs)) ++ rest
          = '[' :: (renderElems (x :: xs) ++ ']' :: rest) := by
        simp [renderChars]
      rw [this, readValue_arr_cons f _ c (tl ++ ']' :: rest) (by simp [hc]) hstart, hB]
  | .obj [], fuel, rest, hf, _ => by
    cases fuel with
    | zero => simp [renderChars] at hf
    | succ f => exact readValue_obj_nil f rest
  | .obj (p :: ps), fuel, rest, hf, _ => by
    cases fuel with
    | zero => simp [renderChars] at hf
    | succ f =>
      have hlen : (renderMembers (p :: ps)).length + 1 ≤ f := by
        simp only [renderChars, List.length_cons, List.length_append, List.length_nil] at hf
        omega
      have hC := readMembers_render (p :: ps) f rest (List.cons_ne_nil _ _) hlen
      obtain ⟨tl, htl⟩ : ∃ tl, renderMembers (p :: ps) ++ '}' :: rest = '"' :: tl := by
        obtain ⟨k, v⟩ := p
        cases ps with
        | nil => exact ⟨_, by simp [renderMembers, renderString]; rfl⟩
        | cons q qs => exact ⟨_, by simp [renderMembers, renderString]; rfl⟩
      have : renderChars (.obj (p :: ps)) ++ rest
          = '{' :: (renderMembers (p :: ps) ++ '}' :: rest) := by
        simp [renderChars]
      rw [this, htl, readValue_obj_cons, ← htl, hC]
theorem readElems_render : ∀ (xs : List Json) (fuel : Nat) (rest : List Char),
    xs ≠ [] → (renderElems xs).length + 1 ≤ fuel →
    readElems fuel (renderElems xs ++ ']' :: rest) = some (xs, rest)
  | [], _, _, hne, _ => absurd rfl hne
  | [x], fuel, rest, _, hf => by
    cases fuel with
    | zero => omega
    | succ f =>
      have hlen : (renderChars x).length ≤ f := by
        simp only [renderElems] at hf
        omega
      have hA := readValue_render x f (']' :: rest) hlen (delim_cons_bracket rest)
      simp only [renderElems]
      rw [readElems_step f _ x _ hA (delim_cons_bracket rest)]
      simp
  | x :: y :: xs, fuel, rest, _, hf => by
    cases fuel with
    | zero => omega
    | succ f =>
      simp only [renderElems, List.length_append, List.length_cons] at hf
      have hlen : (renderChars x).length ≤ f := by omega
      have hA := readValue_render x f (',' :: (renderElems (y :: xs) ++ ']' :: rest)) hlen
        (delim_cons_comma _)
      have hB := readElems_render (y :: xs) f rest (List.cons_ne_nil _ _) (by omega)
      have : renderElems (x :: y :: xs) ++ ']' :: rest
          = renderChars x ++ ',' :: (renderElems (y :: xs) ++ ']' :: rest) := by
        simp [renderElems]
      rw [this, readElems_step f _ x _ hA (delim_cons_comma _)]
      simp +decide [hB]
theorem readMembers_render : ∀ (ps : List (String × Json)) (fuel : Nat) (rest : List Char),
    ps ≠ [] → (renderMembers ps).length + 1 ≤ fuel →
    readMembers fuel (renderMembers ps ++ '}' :: rest) = some (ps, rest)
  | [], _, _, hne, _ => absurd rfl hne
  | [(k, v)], fuel, rest, _, hf => by
    cases fuel with
    | zero => omega
    | succ f =>
      have hlen : (renderChars v).length ≤ f := by
        simp only [renderMembers, List.length_append, List.length_cons] at hf
        omega
      have hA := readValue_render v f ('}' :: rest) hlen (delim_cons_brace rest)
      have : renderMembers [(k, v)] ++ '}' :: rest
          = renderString k ++ ':' :: (renderChars v ++ '}' :: rest) := by
        simp [renderMembers]
      rw [this, readMembers_step f k _ v _ hA (delim_cons_brace rest)]
      simp
  | (k, v) :: q :: ps, fuel, rest, _, hf => by
    cases fuel with
    | zero => omega
    | succ f =>
      simp only [renderMembers, List.length_append, List.length_cons] at hf
      have hlen : (renderChars v).length ≤ f := by omega
      have hA := readValue_render v f (',' :: (renderMembers (q :: ps) ++ '}' :: rest)) hlen
        (delim_cons_comma _)
      have hC := readMembers_render (q :: ps) f rest (List.cons_ne_nil _ _) (by omega)
      have : renderMembers ((k, v) :: q :: ps) ++ '}' :: rest
          = renderString k ++ ':' :: (renderChars v ++ ',' :: (renderMembers (q :: ps)
              ++ '}' :: rest)) := by
        simp [renderMembers]
      rw [this, readMembers_step f k _ v _ hA (delim_cons_comma _)]
      simp +decide [hC]
end

/-- The reference reader reads back every document the reference writer writes. -/
theorem parseJson_renderJson (j : Json) : parseJson (renderJson j) = .ok j := by
  have h := readValue_render j ((renderChars j).length + 1) [] (Nat.le_succ _)
    (fun c tl hc => by simp at hc)
  rw [List.append_nil] at h
  simp [parseJson, renderJson, h, skipWs]

/-- The reference writer never writes the empty text. -/
theorem renderJson_ne_empty (j : Json) : renderJson j ≠ "" := by
  obtain ⟨c, tl, hc, _⟩ := renderChars_head j
  intro h
  have := congrArg String.data h
  simp [renderJson, hc] at this

/-! ### Error messages -/

theorem sprintf_stateDetail :
    sprintf "__INITIAL_STATE__ not found or empty" [] = "__INITIAL_STATE__ not found or empty" := by
  decide

theorem sprintf_stateSearch :
    sprintf "__INITIAL_STATE__ not found" [] = "__INITIAL_STATE__ not found" := by
  decide

theorem sprintf_unmarshal (err : String) :
    sprintf "failed to unmarshal __INITIAL_STATE__: %w" [err]
      = "failed to unmarshal __INITIAL_STATE__: " ++ err := by
  apply String.ext
  simp [sprintf, sprintfChars, String.data_append]

theorem sprintf_notFound (feedID : String) :
    sprintf "feed %s not found in noteDetailMap" [feedID]
      = "feed " ++ feedID ++ " not found in noteDetailMap" := by
  apply String.ext
  simp [sprintf, sprintfChars, String.data_append]

theorem notFound_ne_state (feedID : String) :
    "feed " ++ feedID ++ " not found in noteDetailMap" ≠ "__INITIAL_STATE__ not found or empty" := by
  intro h
  have := congrArg String.data h
  simp [String.data_append] at this

theorem notFound_ne_unmarshal (feedID err : String) :
    "feed " ++ feedID ++ " not found in noteDetailMap"
      ≠ "failed to unmarshal __INITIAL_STATE__: " ++ err := by
  intro h
  have := congrArg String.data h
  simp [String.data_append] at this

theorem state_ne_unmarshal (err : String) :
    "__INITIAL_STATE__ not found or empty" ≠ "failed to unmarshal __INITIAL_STATE__: " ++ err := by
  intro h
  have := congrArg String.data h
  simp [String.data_append] at this

theorem stateSearch_ne_unmarshal (err : String) :
    "__INITIAL_STATE__ not found" ≠ "failed to unmarshal __INITIAL_STATE__: " ++ err := by
  intro h
  have := congrArg String.data h
  simp [String.data_append] at this

/-! ### Go maps -/

theorem GoMap.get_nil {V : Type} (k : String) : GoMap.get ([] : GoMap V) k = none := rfl

theorem GoMap.get_cons {V : Type} (k1 : String) (v1 : V) (m : GoMap V) (k : String) :
    GoMap.get ((k1, v1) :: m) k = if k1 = k then some v1 else GoMap.get m k := by
  by_cases h : k1 = k
  · simp [GoMap.get, List.find?, h]
  · have hb : (k1 == k) = false := by simpa using h
    simp [GoMap.get, List.find?, hb, h]

theorem GoMap.get_set {V : Type} (m : GoMap V) (k : String) (v : V) (k2 : String) :
    GoMap.get (GoMap.set m k v) k2 = if k = k2 then some v else GoMap.get m k2 := by
  induction m with
  | nil => simp [GoMap.set, GoMap.get_cons, GoMap.get_nil]
  | cons p m ih =>
    obtain ⟨k1, v1⟩ := p
    by_cases h1 : k1 = k
    · subst h1
      simp only [GoMap.set, if_true, GoMap.get_cons]
      by_cases h2 : k1 = k2 <;> simp [h2]
    · simp only [GoMap.set, h1, if_false, GoMap.get_cons, ih]
      by_cases h2 : k = k2
      · subst h2
        simp [h1]
      · simp [h2]

theorem GoMap.get_eq_none {V : Type} (m : GoMap V) (k : String)
    (h : ∀ p ∈ m, p.1 ≠ k) : GoMap.get m k = none := by
  induction m with
  | nil => rfl
  | cons p m ih =>
    obtain ⟨k1, v1⟩ := p
    have h1 : k1 ≠ k := h (k1, v1) (List.mem_cons_self _ _)
    rw [GoMap.get_cons, if_neg h1]
    exact ih (fun q hq => h q (List.mem_cons_of_mem _ hq))

/-! ### The typed decoder on the documents the scripts write -/

theorem decodeMapMembers_ok {V : Type} (elem : GoType V) (ps : List (String × Json))
    (h : ∀ p ∈ ps, ∃ x, elem.decode p.2 elem.zero = .ok x) (m : GoMap V) :
    ∃ m1, decodeMapMembers elem ps m = .ok m1 := by
  induction ps generalizing m with
  | nil => exact ⟨m, rfl⟩
  | cons p ps ih =>
    obtain ⟨k, v⟩ := p
    obtain ⟨x, hx⟩ := h (k, v) (List.mem_cons_self _ _)
    simp only [decodeMapMembers, hx]
    exact ih (fun q hq => h q (List.mem_cons_of_mem _ hq)) _

theorem decodeMapMembers_get_of_absent {V : Type} (elem : GoType V)
    (ps : List (String × Json)) (k : String) (h : ∀ p ∈ ps, p.1 ≠ k) (m m1 : GoMap V)
    (hm : decodeMapMembers elem ps m = .ok m1) : GoMap.get m1 k = GoMap.get m k := by
  induction ps generalizing m with
  | nil =>
    simp only [decodeMapMembers, Except.ok.injEq] at hm
    rw [hm]
  | cons p ps ih =>
    obtain ⟨k1, v⟩ := p
    have hk : k1 ≠ k := h (k1, v) (List.mem_cons_self _ _)
    simp only [decodeMapMembers] at hm
    cases hd : elem.decode v elem.zero with
    | error e => simp [hd] at hm
    | ok x =>
      simp only [hd] at hm
      rw [ih (fun q hq => h q (List.mem_cons_of_mem _ hq)) _ hm, GoMap.get_set, if_neg hk]

theorem decodeMapMembers_get_last {V : Type} (elem : GoType V)
    (pre post : List (String × Json)) (k : String) (j : Json) (x : V)
    (hpost : ∀ p ∈ post, p.1 ≠ k) (hx : elem.decode j elem.zero = .ok x) (m m1 : GoMap V)
    (hm : decodeMapMembers elem (pre ++ (k, j) :: post) m = .ok m1) :
    GoMap.get m1 k = some x := by
  induction pre generalizing m with
  | nil =>
    simp only [List.nil_append, decodeMapMembers, hx] at hm
    rw [decodeMapMembers_get_of_absent elem post k hpost _ _ hm, GoMap.get_set, if_pos rfl]
  | cons p pre ih =>
    obtain ⟨k1, v⟩ := p
    simp only [List.cons_append, decodeMapMembers] at hm
    cases hd : elem.decode v elem.zero with
    | error e => simp [hd] at hm
    | ok y =>
      simp only [hd] at hm
      exact ih _ hm

theorem decodeElems_ok {α : Type} (elem : GoType α) (xs : List Json)
    (h : ∀ x ∈ xs, ∃ a, elem.decode x elem.zero = .ok a) :
    ∃ as, decodeElems elem xs [] = .ok as
      ∧ List.Forall₂ (fun x a => elem.decode x elem.zero = .ok a) xs as := by
  induction xs with
  | nil => exact ⟨[], rfl, List.Forall₂.nil⟩
  | cons x xs ih =>
    obtain ⟨a, ha⟩ := h x (List.mem_cons_self _ _)
    obtain ⟨as, has, hall⟩ := ih (fun y hy => h y (List.mem_cons_of_mem _ hy))
    refine ⟨a :: as, ?_, List.Forall₂.cons ha hall⟩
    simp only [decodeElems, List.headD_nil, List.tail_nil, ha, has]

section

variable {FD CL Feed : Type}

/-- The document written by `safeExtractNoteData`. -/
theorem decode_noteDocument (fd : GoType FD) (cl : GoType CL)
    (entries : List (String × Json)) :
    (initialStateType fd cl).decode
        (.obj [("note", .obj [("noteDetailMap", .obj entries)])]) (initialStateType fd cl).zero
      = match decodeMapMembers (noteDetailEntryType fd cl) entries [] with
        | .error e => .error e
        | .ok m => .ok { Note := { NoteDetailMap := m } } := by
  simp only [initialStateType, decodeStruct, decodeMembers, findField, List.find?, beq_self_eq_true,
    initialStateNoteType, decodeMap]
  cases decodeMapMembers (noteDetailEntryType fd cl) entries [] <;> rfl

/-- An entry `{ note: ..., comments: ... }` of the document. -/
theorem decode_entry (fd : GoType FD) (cl : GoType CL) (jn jc : Json) (n : FD) (c : CL)
    (hn : fd.decode jn fd.zero = .ok n) (hc : cl.decode jc cl.zero = .ok c) :
    (noteDetailEntryType fd cl).decode (.obj [("note", jn), ("comments", jc)])
        (noteDetailEntryType fd cl).zero
      = .ok { Note := n, Comments := c } := by
  have h1 : ("note" == "comments") = false := by decide
  simp [noteDetailEntryType, decodeStruct, decodeMembers, findField, List.find?, hn, hc, h1]

/-- The document written by the search script. -/
theorem decode_searchDocument (feed : GoType Feed) (xs : List Json) :
    (searchResultType feed).decode
        (.obj [("search", .obj [("feeds", .obj [("_value", .arr xs)])])])
        (searchResultType feed).zero
      = match decodeElems feed xs [] with
        | .error e => .error e
        | .ok fs => .ok { Search := { Feeds := { Value := fs } } } := by
  simp only [searchResultType, decodeStruct, decodeMembers, findField, List.find?,
    beq_self_eq_true, searchResultSearchType, feedsValueType, decodeSlice]
  cases decodeElems feed xs [] <;> rfl

end

/-! ### The mapping steps -/

section

variable {FD CL Feed : Type}

theorem mapResult_detail_empty (parse : String → Except GoError Json) (fd : GoType FD)
    (cl : GoType CL) (feedID : String) :
    FeedDetailAction.mapResult parse fd cl "" feedID
      = .error "__INITIAL_STATE__ not found or empty" := by
  simp [FeedDetailAction.mapResult, sprintf_stateDetail]

theorem mapResult_detail_unmarshal (parse : String → Except GoError Json) (fd : GoType FD)
    (cl : GoType CL) (result feedID err : String) (hne : result ≠ "")
    (herr : unmarshal parse (initialStateType fd cl) result = .error err) :
    FeedDetailAction.mapResult parse fd cl result feedID
      = .error ("failed to unmarshal __INITIAL_STATE__: " ++ err) := by
  simp [FeedDetailAction.mapResult, hne, herr, sprintf_unmarshal]

theorem mapResult_detail_notFound (parse : String → Except GoError Json) (fd : GoType FD)
    (cl : GoType CL) (result feedID : String) (st : InitialState FD CL) (hne : result ≠ "")
    (hok : unmarshal parse (initialStateType fd cl) result = .ok st)
    (hkey : ∀ p ∈ st.Note.NoteDetailMap, p.1 ≠ feedID) :
    FeedDetailAction.mapResult parse fd cl result feedID
      = .error ("feed " ++ feedID ++ " not found in noteDetailMap") := by
  simp [FeedDetailAction.mapResult, hne, hok, GoMap.get_eq_none _ _ hkey, sprintf_notFound]

theorem mapResult_search_empty (parse : String → Except GoError Json) (feed : GoType Feed) :
    SearchAction.mapResult parse feed "" = .error "__INITIAL_STATE__ not found" := by
  simp [SearchAction.mapResult, sprintf_stateSearch]

theorem mapResult_search_unmarshal (parse : String → Except GoError Json) (feed : GoType Feed)
    (result err : String) (hne : result ≠ "")
    (herr : unmarshal parse (searchResultType feed) result = .error err) :
    SearchAction.mapResult parse feed result
      = .error ("failed to unmarshal __INITIAL_STATE__: " ++ err) := by
  simp [SearchAction.mapResult, hne, herr, sprintf_unmarshal]

/-- C1: when the extraction output unmarshals and its `noteDetailMap` has no key equal to
the requested feed id, the mapping step of `GetFeedDetail` returns the error
`feed <id> not found in noteDetailMap`; this error is neither the one returned for the
empty extraction string nor one returned for an output that fails to unmarshal. -/
theorem getFeedDetail_notFound (parse : String → Except GoError Json) (fd : GoType FD)
    (cl : GoType CL) (result feedID : String) (st : InitialState FD CL) (hne : result ≠ "")
    (hok : unmarshal parse (initialStateType fd cl) result = .ok st)
    (hkey : ∀ p ∈ st.Note.NoteDetailMap, p.1 ≠ feedID) :
    FeedDetailAction.mapResult parse fd cl result feedID
        = .error ("feed " ++ feedID ++ " not found in noteDetailMap")
      ∧ (∀ id2, FeedDetailAction.mapResult parse fd cl "" id2
          ≠ FeedDetailAction.mapResult parse fd cl result feedID)
      ∧ (∀ r2 id2 err, r2 ≠ "" → unmarshal parse (initialStateType fd cl) r2 = .error err →
          FeedDetailAction.mapResult parse fd cl r2 id2
            ≠ FeedDetailAction.mapResult parse fd cl result feedID) := by
  have h := mapResult_detail_notFound parse fd cl result feedID st hne hok hkey
  refine ⟨h, fun id2 => ?_, fun r2 id2 err h2 herr => ?_⟩
  · rw [h, mapResult_detail_empty]
    intro heq
    exact notFound_ne_state feedID (Except.error.inj heq).symm
  · rw [h, mapResult_detail_unmarshal parse fd cl r2 id2 err h2 herr]
    intro heq
    exact notFound_ne_unmarshal feedID err (Except.error.inj heq).symm

/-- C2: for the empty extraction string `GetFeedDetail` and `Search` return their
state-unavailable error whatever the JSON reader would make of the empty string, and that
error is not an unmarshal error. -/
theorem mapResult_empty (parse : String → Except GoError Json) (fd : GoType FD)
    (cl : GoType CL) (feed : GoType Feed) (feedID : String) :
    FeedDetailAction.mapResult parse fd cl "" feedID
        = .error "__INITIAL_STATE__ not found or empty"
      ∧ SearchAction.mapResult parse feed "" = .error "__INITIAL_STATE__ not found"
      ∧ (∀ err, FeedDetailAction.mapResult parse fd cl "" feedID
          ≠ .error (sprintf "failed to unmarshal __INITIAL_STATE__: %w" [err]))
      ∧ (∀ err, SearchAction.mapResult parse feed ""
          ≠ .error (sprintf "failed to unmarshal __INITIAL_STATE__: %w" [err])) := by
  refine ⟨mapResult_detail_empty parse fd cl feedID, mapResult_search_empty parse feed,
    fun err => ?_, fun err => ?_⟩
  · rw [mapResult_detail_empty, sprintf_unmarshal]
    intro heq
    exact state_ne_unmarshal err (Except.error.inj heq)
  · rw [mapResult_search_empty, sprintf_unmarshal]
    intro heq
    exact stateSearch_ne_unmarshal err (Except.error.inj heq)

/-- C3: when the extraction output is the document `{note: {noteDetailMap: {...}}}`, its
entries are well-formed and the entry stored under the requested feed id is
`{note: jn, comments: jc}`, the mapping step of `GetFeedDetail` returns the response made
of the decoded `jn` and `jc`, whatever the other entries are. -/
theorem getFeedDetail_found (parse : String → Except GoError Json) (fd : GoType FD)
    (cl : GoType CL) (result feedID : String) (pre post : List (String × Json))
    (jn jc : Json) (n : FD) (c : CL) (hne : result ≠ "")
    (hparse : parse result = .ok (.obj [("note", .obj [("noteDetailMap",
      .obj (pre ++ (feedID, .obj [("note", jn), ("comments", jc)]) :: post))])]))
    (hpre : ∀ p ∈ pre, ∃ x, (noteDetailEntryType fd cl).decode p.2
      (noteDetailEntryType fd cl).zero = .ok x)
    (hpost : ∀ p ∈ post, p.1 ≠ feedID ∧ ∃ x, (noteDetailEntryType fd cl).decode p.2
      (noteDetailEntryType fd cl).zero = .ok x)
    (hn : fd.decode jn fd.zero = .ok n) (hc : cl.decode jc cl.zero = .ok c) :
    FeedDetailAction.mapResult parse fd cl result feedID
      = .ok { Note := n, Comments := c } := by
  have he := decode_entry fd cl jn jc n c hn hc
  have hall : ∀ p ∈ pre ++ (feedID, Json.obj [("note", jn), ("comments", jc)]) :: post,
      ∃ x, (noteDetailEntryType fd cl).decode p.2 (noteDetailEntryType fd cl).zero = .ok x := by
    intro p hp
    rcases List.mem_append.mp hp with h | h
    · exact hpre p h
    · rcases List.mem_cons.mp h with h | h
      · subst h
        exact ⟨_, he⟩
      · exact (hpost p h).2
  obtain ⟨m, hm⟩ := decodeMapMembers_ok (noteDetailEntryType fd cl) _ hall []
  have hget := decodeMapMembers_get_last (noteDetailEntryType fd cl) pre post feedID _ _
    (fun p hp => (hpost p hp).1) he [] m hm
  have hun : unmarshal parse (initialStateType fd cl) result
      = .ok { Note := { NoteDetailMap := m } } := by
    simp only [unmarshal, hparse, decode_noteDocument, hm]
  simp [FeedDetailAction.mapResult, hne, hun, hget]

/-- C4: for a non-empty extraction string that fails to unmarshal into the expected
structure, `GetFeedDetail` and `Search` return the unmarshal error, which is neither
the state-unavailable error nor a not-found error. -/
theorem mapResult_unmarshalError (parse : String → Except GoError Json) (fd : GoType FD)
    (cl : GoType CL) (feed : GoType Feed) (result feedID : String) (hne : result ≠ "") :
    (∀ err, unmarshal parse (initialStateType fd cl) result = .error err →
        FeedDetailAction.mapResult parse fd cl result feedID
            = .error ("failed to unmarshal __INITIAL_STATE__: " ++ err)
          ∧ FeedDetailAction.mapResult parse fd cl result feedID
            ≠ FeedDetailAction.mapResult parse fd cl "" feedID
          ∧ ∀ id2, FeedDetailAction.mapResult parse fd cl result feedID
            ≠ .error (sprintf "feed %s not found in noteDetailMap" [id2]))
      ∧ (∀ err, unmarshal parse (searchResultType feed) result = .error err →
        SearchAction.mapResult parse feed result
            = .error ("failed to unmarshal __INITIAL_STATE__: " ++ err)
          ∧ SearchAction.mapResult parse feed result ≠ SearchAction.mapResult parse feed "") := by
  refine ⟨fun err herr => ?_, fun err herr => ?_⟩
  · have h := mapResult_detail_unmarshal parse fd cl result feedID err hne herr
    refine ⟨h, ?_, fun id2 => ?_⟩
    · rw [h, mapResult_detail_empty]
      intro heq
      exact state_ne_unmarshal err (Except.error.inj heq).symm
    · rw [h, sprintf_notFound]
      intro heq
      exact notFound_ne_unmarshal id2 err (Except.error.inj heq).symm
  · have h := mapResult_search_unmarshal parse feed result err hne herr
    refine ⟨h, ?_⟩
    rw [h, mapResult_search_empty]
    intro heq
    exact stateSearch_ne_unmarshal err (Except.error.inj heq).symm

/-- C7: when the extraction output is the document `{search: {feeds: {_value: [...]}}}`
with a list of `n` feed objects, `Search` returns the `n` decoded feeds in the order of the
list, and the response of `SearchFeeds` has `Count = n`. -/
theorem search_length (parse : String → Except GoError Json) (feed : GoType Feed)
    (result : String) (xs : List Json) (hne : result ≠ "")
    (hparse : parse result
      = .ok (.obj [("search", .obj [("feeds", .obj [("_value", .arr xs)])])]))
    (hfeeds : ∀ x ∈ xs, ∃ f, feed.decode x feed.zero = .ok f) :
    ∃ fs, SearchAction.mapResult parse feed result = .ok fs
      ∧ fs.length = xs.length
      ∧ List.Forall₂ (fun x f => feed.decode x feed.zero = .ok f) xs fs
      ∧ XiaohongshuService.searchFeedsResponse (SearchAction.mapResult parse feed result)
          = .ok { Feeds := fs, Count := xs.length } := by
  obtain ⟨fs, hfs, hall⟩ := decodeElems_ok feed xs hfeeds
  have hun : unmarshal parse (searchResultType feed) result
      = .ok { Search := { Feeds := { Value := fs } } } := by
    simp only [unmarshal, hparse, decode_searchDocument, hfs]
  have hres : SearchAction.mapResult parse feed result = .ok fs := by
    simp [SearchAction.mapResult, hne, hun]
  have hlen : fs.length = xs.length := hall.length_eq.symm
  exact ⟨fs, hres, hlen, hall, by simp [hres, XiaohongshuService.searchFeedsResponse, hlen]⟩

end

/-! ### The record builders of the scripts -/

theorem prop_obj_nil (k : String) : (JSVal.obj []).prop k = .undefined := rfl

theorem prop_obj_cons (k1 : String) (x : JSVal) (ps : List (String × JSVal)) (k : String) :
    (JSVal.obj ((k1, x) :: ps)).prop k = if k1 = k then x else (JSVal.obj ps).prop k := by
  by_cases hk : k1 = k
  · simp [JSVal.prop, List.find?, hk]
  · have hb : (k1 == k) = false := by simpa using hk
    simp [JSVal.prop, List.find?, hb, hk]

theorem get_of_truthy (v : JSVal) (k : String) (h : v.truthy = true) :
    v.get k = .ok (v.prop k) := by
  cases v <;> simp_all [JSVal.get, JSVal.truthy]

theorem getOr_of_truthy (v : JSVal) (k : String) (d : JSVal) (h : v.truthy = true) :
    getOr v k d = .ok (jsOr (v.prop k) d) := by
  simp [getOr, get_of_truthy v k h]

theorem jsOr_of_falsy (a b : JSVal) (h : a.truthy = false) : jsOr a b = b := by
  simp [jsOr, h]

theorem jsOr_of_truthy (a b : JSVal) (h : a.truthy = true) : jsOr a b = a := by
  simp [jsOr, h]

theorem jsOr_undefined (b : JSVal) : jsOr .undefined b = b := rfl

theorem userOf_eq (u : JSVal) (h : u.truthy = true) :
    userOf u = .ok (.obj [("userId", jsOr (u.prop "userId") (.str "")),
      ("nickname", jsOr (u.prop "nickname") (jsOr (u.prop "nickName") (.str ""))),
      ("avatar", jsOr (u.prop "avatar") (.str ""))]) := by
  simp only [userOf, h, if_true, getOr_of_truthy u _ _ h, get_of_truthy u _ h]
  by_cases hn : (u.prop "nickname").truthy = true
  · simp [hn, jsOr]
  · simp [hn, jsOr]

theorem userOf_falsy (u : JSVal) (h : u.truthy = false) : userOf u = .ok (.obj []) := by
  simp [userOf, h]

theorem interactInfoOf_eq (i : JSVal) (h : i.truthy = true) :
    interactInfoOf i = .ok (.obj [("liked", jsOr (i.prop "liked") (.bool false)),
      ("likedCount", jsOr (i.prop "likedCount") (.str "0")),
      ("sharedCount", jsOr (i.prop "sharedCount") (.str "0")),
      ("commentCount", jsOr (i.prop "commentCount") (.str "0")),
      ("collectedCount", jsOr (i.prop "collectedCount") (.str "0")),
      ("collected", jsOr (i.prop "collected") (.bool false))]) := by
  simp only [interactInfoOf, h, if_true, getOr_of_truthy i _ _ h]

theorem interactInfoOf_falsy (i : JSVal) (h : i.truthy = false) :
    interactInfoOf i = .ok (.obj []) := by
  simp [interactInfoOf, h]

theorem coverOf_eq (c : JSVal) (h : c.truthy = true) :
    coverOf c = .ok (.obj [("width", jsOr (c.prop "width") (.num 0)),
      ("height", jsOr (c.prop "height") (.num 0)),
      ("url", jsOr (c.prop "url") (.str "")),
      ("fileId", jsOr (c.prop "fileId") (.str "")),
      ("urlPre", jsOr (c.prop "urlPre") (.str "")),
      ("urlDefault", jsOr (c.prop "urlDefault") (.str "")),
      ("infoList", jsOr (c.prop "infoList") (.arr []))]) := by
  simp only [coverOf, h, if_true, getOr_of_truthy c _ _ h]

theorem coverOf_falsy (c : JSVal) (h : c.truthy = false) : coverOf c = .ok (.obj []) := by
  simp [coverOf, h]

theorem imageOf_eq (img : JSVal) (h : img.truthy = true) :
    imageOf img = .ok (.obj [("url", jsOr (img.prop "url") (.str "")),
      ("width", jsOr (img.prop "width") (.num 0)),
      ("height", jsOr (img.prop "height") (.num 0)),
      ("fileId", jsOr (img.prop "fileId") (.str "")),
      ("urlPre", jsOr (img.prop "urlPre") (.str "")),
      ("urlDefault", jsOr (img.prop "urlDefault") (.str ""))]) := by
  simp only [imageOf, getOr_of_truthy img _ _ h]

theorem userOf_total (u : JSVal) : ∃ r, userOf u = .ok r := by
  cases h : u.truthy
  · exact ⟨_, userOf_falsy u h⟩
  · exact ⟨_, userOf_eq u h⟩

theorem interactInfoOf_total (i : JSVal) : ∃ r, interactInfoOf i = .ok r := by
  cases h : i.truthy
  · exact ⟨_, interactInfoOf_falsy i h⟩
  · exact ⟨_, interactInfoOf_eq i h⟩

theorem coverOf_total (c : JSVal) : ∃ r, coverOf c = .ok r := by
  cases h : c.truthy
  · exact ⟨_, coverOf_falsy c h⟩
  · exact ⟨_, coverOf_eq c h⟩

theorem cardVideoOf_falsy (v : JSVal) (h : v.truthy = false) : cardVideoOf v = .ok .null := by
  simp [cardVideoOf, h]

theorem cardVideoOf_eq (v : JSVal) (h : v.truthy = true) :
    cardVideoOf v = .ok (.obj [("capa",
      if (v.prop "capa").truthy
      then .obj [("duration", jsOr ((v.prop "capa").prop "duration") (.num 0))]
      else .obj [])]) := by
  simp only [cardVideoOf, h, if_true, get_of_truthy v _ h]
  by_cases hc : (v.prop "capa").truthy = true
  · simp [hc, getOr_of_truthy _ _ _ hc]
  · simp [hc]

theorem cardVideoOf_total (v : JSVal) : ∃ r, cardVideoOf v = .ok r := by
  cases h : v.truthy
  · exact ⟨_, cardVideoOf_falsy v h⟩
  · exact ⟨_, cardVideoOf_eq v h⟩

theorem detailVideoOf_falsy (v : JSVal) (h : v.truthy = false) :
    detailVideoOf v = .ok .null := by
  simp [detailVideoOf, h]

theorem detailVideoOf_total (v : JSVal) : ∃ r, detailVideoOf v = .ok r := by
  cases h : v.truthy
  · exact ⟨_, detailVideoOf_falsy v h⟩
  · simp only [detailVideoOf, h, if_true, get_of_truthy v _ h]
    by_cases h1 : (v.prop "media").truthy = true
    · simp only [h1, if_true, get_of_truthy _ _ h1]
      by_cases h2 : ((v.prop "media").prop "stream").truthy = true
      · simp only [h2, if_true, get_of_truthy _ _ h2]
        by_cases h3 : (((v.prop "media").prop "stream").prop "h264").truthy = true
        · simp [h3, getOr_of_truthy _ _ _ h3]
        · simp [h3]
      · simp [h2]
    · simp [h1]

theorem noteCardOf_falsy (nc : JSVal) (h : nc.truthy = false) :
    noteCardOf nc = .ok (.obj []) := by
  simp [noteCardOf, h]

theorem noteCardOf_eq (nc : JSVal) (h : nc.truthy = true) :
    ∃ user interactInfo cover video,
      userOf (nc.prop "user") = .ok user
      ∧ interactInfoOf (nc.prop "interactInfo") = .ok interactInfo
      ∧ coverOf (nc.prop "cover") = .ok cover
      ∧ cardVideoOf (nc.prop "video") = .ok video
      ∧ noteCardOf nc = .ok (.obj [("type", jsOr (nc.prop "type") (.str "")),
          ("displayTitle", jsOr (nc.prop "displayTitle") (.str "")),
          ("user", user), ("interactInfo", interactInfo), ("cover", cover),
          ("video", video)]) := by
  obtain ⟨user, hu⟩ := userOf_total (nc.prop "user")
  obtain ⟨ii, hi⟩ := interactInfoOf_total (nc.prop "interactInfo")
  obtain ⟨cover, hc⟩ := coverOf_total (nc.prop "cover")
  obtain ⟨video, hv⟩ := cardVideoOf_total (nc.prop "video")
  refine ⟨user, ii, cover, video, hu, hi, hc, hv, ?_⟩
  simp only [noteCardOf, h, if_true, getOr_of_truthy nc _ _ h, get_of_truthy nc _ h, hu, hi, hc,
    hv]

theorem noteCardOf_total (nc : JSVal) : ∃ r, noteCardOf nc = .ok r := by
  cases h : nc.truthy
  · exact ⟨_, noteCardOf_falsy nc h⟩
  · obtain ⟨_, _, _, _, _, _, _, _, hr⟩ := noteCardOf_eq nc h
    exact ⟨_, hr⟩

theorem feedOf_falsy (feed : JSVal) (h : feed.truthy = false) : feedOf feed = .ok .null := by
  simp [feedOf, h]

theorem feedOf_eq (feed : JSVal) (h : feed.truthy = true) :
    ∃ noteCard, noteCardOf (feed.prop "noteCard") = .ok noteCard
      ∧ feedOf feed = .ok (.obj [("xsecToken", jsOr (feed.prop "xsecToken") (.str "")),
          ("id", jsOr (feed.prop "id") (.str "")),
          ("modelType", jsOr (feed.prop "modelType") (.str "")),
          ("index", jsOr (feed.prop "index") (.num 0)),
          ("noteCard", noteCard)]) := by
  obtain ⟨noteCard, hn⟩ := noteCardOf_total (feed.prop "noteCard")
  refine ⟨noteCard, hn, ?_⟩
  simp only [feedOf, h, Bool.not_true, Bool.false_eq_true, if_false, getOr_of_truthy feed _ _ h,
    get_of_truthy feed _ h, hn]


theorem get_of_not_nullish (v : JSVal) (k : String) (h : v.nullish = false) :
    v.get k = .ok (v.prop k) := by
  cases v <;> simp_all [JSVal.get, JSVal.nullish]

theorem getOr_of_not_nullish (v : JSVal) (k : String) (d : JSVal) (h : v.nullish = false) :
    getOr v k d = .ok (jsOr (v.prop k) d) := by
  simp [getOr, get_of_not_nullish v k h]

theorem not_nullish_of_truthy (v : JSVal) (h : v.truthy = true) : v.nullish = false := by
  cases v <;> simp_all [JSVal.truthy, JSVal.nullish]

theorem imageOf_of_not_nullish (img : JSVal) (h : img.nullish = false) :
    imageOf img = .ok (.obj [("url", jsOr (img.prop "url") (.str "")),
      ("width", jsOr (img.prop "width") (.num 0)),
      ("height", jsOr (img.prop "height") (.num 0)),
      ("fileId", jsOr (img.prop "fileId") (.str "")),
      ("urlPre", jsOr (img.prop "urlPre") (.str "")),
      ("urlDefault", jsOr (img.prop "urlDefault") (.str ""))]) := by
  simp only [imageOf, getOr_of_not_nullish img _ _ h]

theorem commentOf_of_not_nullish (c : JSVal) (h : c.nullish = false) :
    ∃ user, userOf (c.prop "user") = .ok user
      ∧ commentOf c = .ok (.obj [("id", jsOr (c.prop "id") (.str "")),
          ("content", jsOr (c.prop "content") (.str "")),
          ("user", user),
          ("time", jsOr (c.prop "time") (.num 0)),
          ("liked", jsOr (c.prop "liked") (.bool false)),
          ("likedCount", jsOr (c.prop "likedCount") (.num 0))]) := by
  obtain ⟨user, hu⟩ := userOf_total (c.prop "user")
  refine ⟨user, hu, ?_⟩
  simp only [commentOf, getOr_of_not_nullish c _ _ h, get_of_not_nullish c _ h, hu]

theorem mapArr_ok (f : JSVal → Except JSFault JSVal) (xs : List JSVal)
    (h : ∀ x ∈ xs, ∃ y, f x = .ok y) :
    ∃ ys, mapArr f xs = .ok ys ∧ List.Forall₂ (fun x y => f x = .ok y) xs ys := by
  induction xs with
  | nil => exact ⟨[], rfl, List.Forall₂.nil⟩
  | cons x xs ih =>
    obtain ⟨y, hy⟩ := h x (List.mem_cons_self _ _)
    obtain ⟨ys, hys, hall⟩ := ih (fun z hz => h z (List.mem_cons_of_mem _ hz))
    exact ⟨y :: ys, by simp only [mapArr, hy, hys], List.Forall₂.cons hy hall⟩

theorem mapArr_forall₂ (f : JSVal → Except JSFault JSVal) (xs ys : List JSVal)
    (h : mapArr f xs = .ok ys) : List.Forall₂ (fun x y => f x = .ok y) xs ys := by
  induction xs generalizing ys with
  | nil =>
    simp only [mapArr, Except.ok.injEq] at h
    subst h
    exact List.Forall₂.nil
  | cons x xs ih =>
    simp only [mapArr] at h
    cases hx : f x with
    | error e => simp [hx] at h
    | ok y =>
      cases hxs : mapArr f xs with
      | error e => simp [hx, hxs] at h
      | ok zs =>
        simp only [hx, hxs, Except.ok.injEq] at h
        subst h
        exact List.Forall₂.cons hx (ih zs hxs)

theorem imagesOf_of_not_array (v : JSVal) (h : v.isArray = false) :
    imagesOf v = .ok (.arr []) := by
  cases v <;> simp_all [imagesOf, JSVal.isArray]

theorem imagesOf_ok (v : JSVal)
    (h : ∀ xs, v = .arr xs → ∀ x ∈ xs, x.nullish = false) : ∃ r, imagesOf v = .ok r := by
  cases hv : v.isArray
  · exact ⟨_, imagesOf_of_not_array v hv⟩
  · cases v <;> simp [JSVal.isArray] at hv
    rename_i xs
    obtain ⟨ys, hys, _⟩ := mapArr_ok imageOf xs
      (fun x hx => ⟨_, imageOf_of_not_nullish x (h xs rfl x hx)⟩)
    exact ⟨.arr ys, by simp [imagesOf, JSVal.truthy, hys]⟩

theorem noteOf_eq (nd images : JSVal) (h : nd.truthy = true)
    (himg : imagesOf (nd.prop "images") = .ok images) :
    ∃ user video interactInfo,
      userOf (nd.prop "user") = .ok user
      ∧ detailVideoOf (nd.prop "video") = .ok video
      ∧ interactInfoOf (nd.prop "interactInfo") = .ok interactInfo
      ∧ noteOf nd = .ok (.obj [("id", jsOr (nd.prop "id") (.str "")),
          ("title", jsOr (nd.prop "title") (.str "")),
          ("desc", jsOr (nd.prop "desc") (.str "")),
          ("type", jsOr (nd.prop "type") (.str "")),
          ("time", jsOr (nd.prop "time") (.num 0)),
          ("lastUpdateTime", jsOr (nd.prop "lastUpdateTime") (.num 0)),
          ("user", user), ("images", images), ("video", video),
          ("interactInfo", interactInfo),
          ("tagList", jsOr (nd.prop "tagList") (.arr []))]) := by
  obtain ⟨user, hu⟩ := userOf_total (nd.prop "user")
  obtain ⟨video, hv⟩ := detailVideoOf_total (nd.prop "video")
  obtain ⟨ii, hi⟩ := interactInfoOf_total (nd.prop "interactInfo")
  refine ⟨user, video, ii, hu, hv, hi, ?_⟩
  simp only [noteOf, getOr_of_truthy nd _ _ h, get_of_truthy nd _ h, hu, hv, hi, himg]

theorem commentsOf_of_not_array (dc : JSVal)
    (h : ((jsOr dc (.obj [("comments", .arr [])])).prop "comments").isArray = false) :
    commentsOf dc = .ok (.obj [("comments", .arr [])]) := by
  have ht : (jsOr dc (.obj [("comments", .arr [])])).truthy = true := by
    unfold jsOr
    split
    · assumption
    · rfl
  have hg := get_of_truthy _ "comments" ht
  simp only [jsOr] at hg h
  simp only [commentsOf, hg]
  cases hc : JSVal.prop (if dc.truthy = true then dc else JSVal.obj [("comments", JSVal.arr [])])
      "comments" <;> simp_all [JSVal.isArray]


/-! ### Defaults of absent and of wrong-typed fields -/

/-- C9 (counterexample): a note without `video` is extracted with `video: null`, not with the
empty object, and interaction counters without `likedCount` are extracted with the text
`"0"`, not with the empty string. -/
theorem extraction_defaults_counterexample :
    (JSVal.obj [("id", .str "n1")]).prop "video" = .undefined
      ∧ (∃ r, noteOf (.obj [("id", .str "n1")]) = .ok r ∧ r.prop "video" = .null
          ∧ r.prop "video" ≠ .obj [])
      ∧ (JSVal.obj [("liked", .bool true)]).prop "likedCount" = .undefined
      ∧ (∃ r, interactInfoOf (.obj [("liked", .bool true)]) = .ok r
          ∧ r.prop "likedCount" = .str "0" ∧ r.prop "likedCount" ≠ .str "") := by
  refine ⟨rfl, ⟨_, rfl, rfl, ?_⟩, rfl, ⟨_, rfl, rfl, ?_⟩⟩
  · simp +decide [prop_obj_cons]
  · simp +decide [prop_obj_cons, jsOr, JSVal.truthy]

/-- C9 (amended): for every truthy source object `v`, each record builder of the scripts
returns a record without raising a fault (for a note: provided its image list holds no
`null` or `undefined` element), and a field that is absent from `v` holds the default the
script writes for it: `""` for text fields, `"0"` for the interaction counters, `0` for
numeric fields, `false` for flags, `[]` for lists, `{}` for the nested objects and `null`
for `video`; an absent `comments` gives the empty comment list. -/
theorem extraction_defaults (v : JSVal) (h : v.truthy = true) :
    (∃ r, feedOf v = .ok r
        ∧ ∀ p ∈ feedDefaults, v.prop p.1 = .undefined → r.prop p.1 = p.2)
      ∧ (∃ r, noteCardOf v = .ok r
        ∧ ∀ p ∈ noteCardDefaults, v.prop p.1 = .undefined → r.prop p.1 = p.2)
      ∧ (∃ r, userOf v = .ok r
        ∧ (∀ p ∈ userDefaults, v.prop p.1 = .undefined → r.prop p.1 = p.2)
        ∧ (v.prop "nickname" = .undefined → v.prop "nickName" = .undefined →
            r.prop "nickname" = .str ""))
      ∧ (∃ r, interactInfoOf v = .ok r
        ∧ ∀ p ∈ interactInfoDefaults, v.prop p.1 = .undefined → r.prop p.1 = p.2)
      ∧ (∃ r, coverOf v = .ok r
        ∧ ∀ p ∈ coverDefaults, v.prop p.1 = .undefined → r.prop p.1 = p.2)
      ∧ (∃ r, imageOf v = .ok r
        ∧ ∀ p ∈ imageDefaults, v.prop p.1 = .undefined → r.prop p.1 = p.2)
      ∧ (∃ r, commentOf v = .ok r
        ∧ ∀ p ∈ commentDefaults, v.prop p.1 = .undefined → r.prop p.1 = p.2)
      ∧ ((∀ xs, v.prop "images" = .arr xs → ∀ x ∈ xs, x.nullish = false) →
          ∃ r, noteOf v = .ok r
            ∧ ∀ p ∈ noteDefaults, v.prop p.1 = .undefined → r.prop p.1 = p.2)
      ∧ (∃ r, cardVideoOf v = .ok r
        ∧ (v.prop "capa" = .undefined → r.prop "capa" = .obj []))
      ∧ (∃ r, detailVideoOf v = .ok r
        ∧ (v.prop "media" = .undefined → r.prop "media" = .obj []))
      ∧ commentsOf .undefined = .ok (.obj [("comments", .arr [])])
      ∧ (v.prop "comments" = .undefined →
          commentsOf v = .ok (.obj [("comments", .arr [])])) := by
  have hnn := not_nullish_of_truthy v h
  have hund_user : ∀ r, userOf (v.prop "user") = .ok r → v.prop "user" = .undefined →
      r = .obj [] := by
    intro r hr hu
    rw [hu, userOf_falsy .undefined rfl] at hr
    exact (Except.ok.inj hr).symm
  have hund_interact : ∀ r, interactInfoOf (v.prop "interactInfo") = .ok r →
      v.prop "interactInfo" = .undefined → r = .obj [] := by
    intro r hr hu
    rw [hu, interactInfoOf_falsy .undefined rfl] at hr
    exact (Except.ok.inj hr).symm
  refine ⟨?_, ?_, ?_, ?_, ?_, ?_, ?_, ?_, ?_, ?_, ?_, ?_⟩
  · obtain ⟨nc, hnc, hr⟩ := feedOf_eq v h
    refine ⟨_, hr, ?_⟩
    intro p hp hund
    simp only [feedDefaults, List.mem_cons, List.mem_singleton, List.not_mem_nil, or_false] at hp
    rcases hp with rfl | rfl | rfl | rfl | rfl
    all_goals simp only [] at hund
    all_goals simp +decide [prop_obj_cons, hund, jsOr_undefined]
    rw [hund, noteCardOf_falsy .undefined rfl] at hnc
    exact (Except.ok.inj hnc).symm
  · obtain ⟨user, ii, cover, video, hu, hi, hc, hv, hr⟩ := noteCardOf_eq v h
    refine ⟨_, hr, ?_⟩
    intro p hp hund
    simp only [noteCardDefaults, List.mem_cons, List.mem_singleton, List.not_mem_nil,
      or_false] at hp
    rcases hp with rfl | rfl | rfl | rfl | rfl | rfl
    all_goals simp only [] at hund
    all_goals simp +decide [prop_obj_cons, hund, jsOr_undefined]
    · exact hund_user _ hu hund
    · exact hund_interact _ hi hund
    · rw [hund, coverOf_falsy .undefined rfl] at hc
      exact (Except.ok.inj hc).symm
    · rw [hund, cardVideoOf_falsy .undefined rfl] at hv
      exact (Except.ok.inj hv).symm
  · refine ⟨_, userOf_eq v h, ?_, ?_⟩
    · intro p hp hund
      simp only [userDefaults, List.mem_cons, List.mem_singleton, List.not_mem_nil,
        or_false] at hp
      rcases hp with rfl | rfl
      all_goals simp only [] at hund
      all_goals simp +decide [prop_obj_cons, hund, jsOr_undefined]
    · intro h1 h2
      simp +decide [prop_obj_cons, h1, h2, jsOr_undefined]
  · refine ⟨_, interactInfoOf_eq v h, ?_⟩
    intro p hp hund
    simp only [interactInfoDefaults, List.mem_cons, List.mem_singleton, List.not_mem_nil,
      or_false] at hp
    rcases hp with rfl | rfl | rfl | rfl | rfl | rfl
    all_goals simp only [] at hund
    all_goals simp +decide [prop_obj_cons, hund, jsOr_undefined]
  · refine ⟨_, coverOf_eq v h, ?_⟩
    intro p hp hund
    simp only [coverDefaults, List.mem_cons, List.mem_singleton, List.not_mem_nil,
      or_false] at hp
    rcases hp with rfl | rfl | rfl | rfl | rfl | rfl | rfl
    all_goals simp only [] at hund
    all_goals simp +decide [prop_obj_cons, hund, jsOr_undefined]
  · refine ⟨_, imageOf_eq v h, ?_⟩
    intro p hp hund
    simp only [imageDefaults, List.mem_cons, List.mem_singleton, List.not_mem_nil,
      or_false] at hp
    rcases hp with rfl | rfl | rfl | rfl | rfl | rfl
    all_goals simp only [] at hund
    all_goals simp +decide [prop_obj_cons, hund, jsOr_undefined]
  · obtain ⟨user, hu, hr⟩ := commentOf_of_not_nullish v hnn
    refine ⟨_, hr, ?_⟩
    intro p hp hund
    simp only [commentDefaults, List.mem_cons, List.mem_singleton, List.not_mem_nil,
      or_false] at hp
    rcases hp with rfl | rfl | rfl | rfl | rfl | rfl
    all_goals simp only [] at hund
    all_goals simp +decide [prop_obj_cons, hund, jsOr_undefined]
    exact hund_user _ hu hund
  · intro himgs
    obtain ⟨images, himg⟩ := imagesOf_ok (v.prop "images") himgs
    obtain ⟨user, video, ii, hu, hv, hi, hr⟩ := noteOf_eq v images h himg
    refine ⟨_, hr, ?_⟩
    intro p hp hund
    simp only [noteDefaults, List.mem_cons, List.mem_singleton, List.not_mem_nil,
      or_false] at hp
    rcases hp with rfl | rfl | rfl | rfl | rfl | rfl | rfl | rfl | rfl | rfl | rfl
    all_goals simp only [] at hund
    all_goals simp +decide [prop_obj_cons, hund, jsOr_undefined]
    · exact hund_user _ hu hund
    · rw [hund, imagesOf_of_not_array .undefined rfl] at himg
      exact (Except.ok.inj himg).symm
    · rw [hund, detailVideoOf_falsy .undefined rfl] at hv
      exact (Except.ok.inj hv).symm
    · exact hund_interact _ hi hund
  · refine ⟨_, cardVideoOf_eq v h, ?_⟩
    intro hund
    simp +decide [prop_obj_cons, hund, JSVal.truthy]
  · by_cases hm : (v.prop "media").truthy = true
    · obtain ⟨r, hr⟩ := detailVideoOf_total v
      refine ⟨r, hr, ?_⟩
      intro hund
      rw [hund] at hm
      simp [JSVal.truthy] at hm
    · refine ⟨.obj [("media", .obj [])], ?_, ?_⟩
      · simp [detailVideoOf, h, get_of_truthy v _ h, hm]
      · intro _
        simp +decide [prop_obj_cons]
  · rfl
  · intro hund
    apply commentsOf_of_not_array
    simp [jsOr, h, hund, JSVal.isArray]

/-- C10 (counterexample): a note whose `title` is the number 42 and whose `tagList` is the
text `"x"` is extracted with `title: 42` and `tagList: "x"`: the wrong-typed values are
copied, not replaced by `""` and `[]`. -/
theorem extraction_wrongType_counterexample :
    ∃ r, noteOf (.obj [("title", .num 42), ("tagList", .str "x")]) = .ok r
      ∧ r.prop "title" = .num 42 ∧ r.prop "title" ≠ .str ""
      ∧ r.prop "tagList" = .str "x" ∧ r.prop "tagList" ≠ .arr [] := by
  refine ⟨_, rfl, rfl, ?_, rfl, ?_⟩
  · simp +decide [prop_obj_cons, jsOr, JSVal.truthy]
  · simp +decide [prop_obj_cons, jsOr, JSVal.truthy]

/-- C10 (amended): for every truthy source object `v`, a field that the scripts copy with
`||` holds the source value when that value is truthy, whatever its type, and the default
of the field when the value is falsy; a value of `images` or of `comments.comments` that is
not an array gives the empty list; and a truthy value without properties where a nested
object is expected gives the nested object with every field at its default. -/
theorem extraction_wrongType (v : JSVal) (h : v.truthy = true) :
    (∃ r, feedOf v = .ok r ∧ ∀ p ∈ feedCopied, r.prop p.1 = jsOr (v.prop p.1) p.2)
      ∧ (∃ r, noteCardOf v = .ok r
        ∧ ∀ p ∈ noteCardCopied, r.prop p.1 = jsOr (v.prop p.1) p.2)
      ∧ (∃ r, userOf v = .ok r ∧ ∀ p ∈ userDefaults, r.prop p.1 = jsOr (v.prop p.1) p.2)
      ∧ (∃ r, interactInfoOf v = .ok r
        ∧ ∀ p ∈ interactInfoDefaults, r.prop p.1 = jsOr (v.prop p.1) p.2)
      ∧ (∃ r, coverOf v = .ok r ∧ ∀ p ∈ coverDefaults, r.prop p.1 = jsOr (v.prop p.1) p.2)
      ∧ (∃ r, imageOf v = .ok r ∧ ∀ p ∈ imageDefaults, r.prop p.1 = jsOr (v.prop p.1) p.2)
      ∧ (∃ r, commentOf v = .ok r
        ∧ ∀ p ∈ commentCopied, r.prop p.1 = jsOr (v.prop p.1) p.2)
      ∧ (∀ r, noteOf v = .ok r → ∀ p ∈ noteCopied, r.prop p.1 = jsOr (v.prop p.1) p.2)
      ∧ ((v.prop "images").isArray = false →
          ∃ r, noteOf v = .ok r ∧ r.prop "images" = .arr [])
      ∧ ((v.prop "comments").isArray = false →
          commentsOf v = .ok (.obj [("comments", .arr [])]))
      ∧ ((∀ k, v.prop k = .undefined) →
          userOf v = .ok (.obj [("userId", .str ""), ("nickname", .str ""), ("avatar", .str "")])
          ∧ interactInfoOf v = .ok (.obj [("liked", .bool false), ("likedCount", .str "0"),
              ("sharedCount", .str "0"), ("commentCount", .str "0"),
              ("collectedCount", .str "0"), ("collected", .bool false)])
          ∧ coverOf v = .ok (.obj [("width", .num 0), ("height", .num 0), ("url", .str ""),
              ("fileId", .str ""), ("urlPre", .str ""), ("urlDefault", .str ""),
              ("infoList", .arr [])])
          ∧ noteCardOf v = .ok (.obj [("type", .str ""), ("displayTitle", .str ""),
              ("user", .obj []), ("interactInfo", .obj []), ("cover", .obj []),
              ("video", .null)])
          ∧ cardVideoOf v = .ok (.obj [("capa", .obj [])])
          ∧ detailVideoOf v = .ok (.obj [("media", .obj [])])) := by
  have hnn := not_nullish_of_truthy v h
  refine ⟨?_, ?_, ?_, ?_, ?_, ?_, ?_, ?_, ?_, ?_, ?_⟩
  · obtain ⟨nc, _, hr⟩ := feedOf_eq v h
    refine ⟨_, hr, ?_⟩
    intro p hp
    simp only [feedCopied, List.mem_cons, List.mem_singleton, List.not_mem_nil, or_false] at hp
    rcases hp with rfl | rfl | rfl | rfl
    all_goals simp +decide [prop_obj_cons]
  · obtain ⟨user, ii, cover, video, _, _, _, _, hr⟩ := noteCardOf_eq v h
    refine ⟨_, hr, ?_⟩
    intro p hp
    simp only [noteCardCopied, List.mem_cons, List.mem_singleton, List.not_mem_nil,
      or_false] at hp
    rcases hp with rfl | rfl
    all_goals simp +decide [prop_obj_cons]
  · refine ⟨_, userOf_eq v h, ?_⟩
    intro p hp
    simp only [userDefaults, List.mem_cons, List.mem_singleton, List.not_mem_nil,
      or_false] at hp
    rcases hp with rfl | rfl
    all_goals simp +decide [prop_obj_cons]
  · refine ⟨_, interactInfoOf_eq v h, ?_⟩
    intro p hp
    simp only [interactInfoDefaults, List.mem_cons, List.mem_singleton, List.not_mem_nil,
      or_false] at hp
    rcases hp with rfl | rfl | rfl | rfl | rfl | rfl
    all_goals simp +decide [prop_obj_cons]
  · refine ⟨_, coverOf_eq v h, ?_⟩
    intro p hp
    simp only [coverDefaults, List.mem_cons, List.mem_singleton, List.not_mem_nil,
      or_false] at hp
    rcases hp with rfl | rfl | rfl | rfl | rfl | rfl | rfl
    all_goals simp +decide [prop_obj_cons]
  · refine ⟨_, imageOf_eq v h, ?_⟩
    intro p hp
    simp only [imageDefaults, List.mem_cons, List.mem_singleton, List.not_mem_nil,
      or_false] at hp
    rcases hp with rfl | rfl | rfl | rfl | rfl | rfl
    all_goals simp +decide [prop_obj_cons]
  · obtain ⟨user, _, hr⟩ := commentOf_of_not_nullish v hnn
    refine ⟨_, hr, ?_⟩
    intro p hp
    simp only [commentCopied, List.mem_cons, List.mem_singleton, List.not_mem_nil,
      or_false] at hp
    rcases hp with rfl | rfl | rfl | rfl | rfl
    all_goals simp +decide [prop_obj_cons]
  · intro r hr p hp
    cases himg : imagesOf (v.prop "images") with
    | error e =>
      simp [noteOf, getOr_of_truthy v _ _ h, get_of_truthy v _ h, himg] at hr
      obtain ⟨u, hu⟩ := userOf_total (v.prop "user")
      simp [hu] at hr
    | ok images =>
      obtain ⟨user, video, ii, _, _, _, hr2⟩ := noteOf_eq v images h himg
      rw [hr2] at hr
      have hr3 := (Except.ok.inj hr).symm
      subst hr3
      simp only [noteCopied, List.mem_cons, List.mem_singleton, List.not_mem_nil,
        or_false] at hp
      rcases hp with rfl | rfl | rfl | rfl | rfl | rfl | rfl
      all_goals simp +decide [prop_obj_cons]
  · intro hna
    obtain ⟨user, video, ii, _, _, _, hr⟩ :=
      noteOf_eq v (.arr []) h (imagesOf_of_not_array _ hna)
    exact ⟨_, hr, by simp +decide [prop_obj_cons]⟩
  · intro hna
    apply commentsOf_of_not_array
    simpa [jsOr, h] using hna
  · intro hall
    have hu : JSVal.undefined.truthy = false := rfl
    refine ⟨?_, ?_, ?_, ?_, ?_, ?_⟩
    · rw [userOf_eq v h]
      simp [hall, jsOr_undefined]
    · rw [interactInfoOf_eq v h]
      simp [hall, jsOr_undefined]
    · rw [coverOf_eq v h]
      simp [hall, jsOr_undefined]
    · obtain ⟨user, ii, cover, video, h1, h2, h3, h4, hr⟩ := noteCardOf_eq v h
      rw [hall, userOf_falsy _ hu] at h1
      rw [hall, interactInfoOf_falsy _ hu] at h2
      rw [hall, coverOf_falsy _ hu] at h3
      rw [hall, cardVideoOf_falsy _ hu] at h4
      rw [hr, ← Except.ok.inj h1, ← Except.ok.inj h2, ← Except.ok.inj h3, ← Except.ok.inj h4]
      simp [hall, jsOr_undefined]
    · rw [cardVideoOf_eq v h]
      simp [hall, JSVal.truthy]
    · simp only [detailVideoOf, h, if_true, get_of_truthy v _ h, hall]
      rfl


/-! ### Search: from the page state to the feeds -/

theorem truthy_of_prop_ne_undefined (v : JSVal) (k : String) (h : v.prop k ≠ .undefined) :
    v.truthy = true := by
  cases v <;> simp_all [JSVal.prop, JSVal.truthy]

theorem feedOf_total (feed : JSVal) : ∃ r, feedOf feed = .ok r := by
  cases h : feed.truthy
  · exact ⟨_, feedOf_falsy feed h⟩
  · obtain ⟨_, _, hr⟩ := feedOf_eq feed h
    exact ⟨_, hr⟩

theorem forall₂_filter_feedOf (xs ys : List JSVal)
    (h : List.Forall₂ (fun x y => feedOf x = .ok y) xs ys) :
    List.Forall₂ (fun x y => x.truthy = true ∧ feedOf x = .ok y)
      (xs.filter JSVal.truthy) (ys.filter JSVal.notNull) := by
  induction h with
  | nil => exact List.Forall₂.nil
  | @cons x y xs ys hxy _ ih =>
    cases hx : x.truthy
    · rw [feedOf_falsy x hx] at hxy
      have hy : y = .null := (Except.ok.inj hxy).symm
      subst hy
      simpa [List.filter, hx, JSVal.notNull] using ih
    · obtain ⟨nc, _, hr⟩ := feedOf_eq x hx
      have hy : y.notNull = true := by
        rw [hr] at hxy
        have := (Except.ok.inj hxy).symm
        subst this
        rfl
      simp only [List.filter, hx, hy]
      exact List.Forall₂.cons ⟨hx, hxy⟩ ih

theorem jsonOfElems_forall₂ (zs : List JSVal) (es : List Json) (h : jsonOfElems zs = .ok es) :
    List.Forall₂ (fun z e => ∃ j, jsonOf z = .ok j ∧ e = j.getD .null) zs es := by
  induction zs generalizing es with
  | nil =>
    simp only [jsonOfElems, Except.ok.injEq] at h
    subst h
    exact List.Forall₂.nil
  | cons z zs ih =>
    simp only [jsonOfElems] at h
    cases hz : jsonOf z with
    | error e => simp [hz] at h
    | ok j =>
      cases hzs : jsonOfElems zs with
      | error e => simp [hz, hzs] at h
      | ok js =>
        simp only [hz, hzs, Except.ok.injEq] at h
        subst h
        exact List.Forall₂.cons ⟨j, hz, rfl⟩ (ih js hzs)

theorem decodeElems_forall₂ {α : Type} (elem : GoType α) (es : List Json) (fs : List α)
    (h : decodeElems elem es [] = .ok fs) :
    List.Forall₂ (fun e f => elem.decode e elem.zero = .ok f) es fs := by
  induction es generalizing fs with
  | nil =>
    simp only [decodeElems, Except.ok.injEq] at h
    subst h
    exact List.Forall₂.nil
  | cons e es ih =>
    simp only [decodeElems, List.headD_nil, List.tail_nil] at h
    cases he : elem.decode e elem.zero with
    | error x => simp [he] at h
    | ok a =>
      cases hes : decodeElems elem es [] with
      | error x => simp [he, hes] at h
      | ok as =>
        simp only [he, hes, Except.ok.injEq] at h
        subst h
        exact List.Forall₂.cons he (ih as hes)

theorem forall₂_comp {α β γ : Type} {R : α → β → Prop} {S : β → γ → Prop}
    {as : List α} {bs : List β} {cs : List γ} (h1 : List.Forall₂ R as bs)
    (h2 : List.Forall₂ S bs cs) : List.Forall₂ (fun a c => ∃ b, R a b ∧ S b c) as cs := by
  induction h1 generalizing cs with
  | nil =>
    cases h2
    exact List.Forall₂.nil
  | cons hab _ ih =>
    cases h2 with
    | cons hbc h2' => exact List.Forall₂.cons ⟨_, hab, hbc⟩ (ih h2')

theorem jsonOfMembers_cons (k : String) (v : JSVal) (ps : List (String × JSVal))
    (ms : List (String × Json)) (h : jsonOfMembers ((k, v) :: ps) = .ok ms) :
    ∃ jv ms1, jsonOf v = .ok jv ∧ jsonOfMembers ps = .ok ms1
      ∧ ms = (match jv with
        | none => ms1
        | some j => (k, j) :: ms1) := by
  simp only [jsonOfMembers] at h
  cases hv : jsonOf v with
  | error e => simp [hv] at h
  | ok jv =>
    cases hps : jsonOfMembers ps with
    | error e => simp [hv, hps] at h
    | ok ms1 =>
      refine ⟨jv, ms1, rfl, rfl, ?_⟩
      cases jv <;> simp_all

theorem jsonOfMembers_keys (ps : List (String × JSVal)) (ms : List (String × Json))
    (h : jsonOfMembers ps = .ok ms) : ∀ p ∈ ms, p.1 ∈ ps.map Prod.fst := by
  induction ps generalizing ms with
  | nil =>
    simp only [jsonOfMembers, Except.ok.injEq] at h
    subst h
    simp
  | cons q ps ih =>
    obtain ⟨k, v⟩ := q
    obtain ⟨jv, ms1, _, hps, hms⟩ := jsonOfMembers_cons k v ps ms h
    intro p hp
    cases jv with
    | none =>
      simp only at hms
      rw [hms] at hp
      exact List.mem_cons_of_mem _ (ih ms1 hps p hp)
    | some j =>
      simp only at hms
      rw [hms] at hp
      rcases List.mem_cons.mp hp with rfl | hp
      · simp
      · exact List.mem_cons_of_mem _ (ih ms1 hps p hp)

section

variable {NC : Type}

theorem decodeMembers_feed_cons_xsecToken (nc : GoType NC) (v : Json)
    (ms : List (String × Json)) (st : FeedOf NC) :
    decodeMembers (feedFields nc) (("xsecToken", v) :: ms) st
      = match goString.decode v st.XsecToken with
        | .error e => .error e
        | .ok x => decodeMembers (feedFields nc) ms { st with XsecToken := x } := by
  rw [decodeMembers]
  have : findField (feedFields nc) "xsecToken" = (feedFields nc)[0]? := by
    simp +decide [findField, feedFields, List.find?]
  rw [this]
  simp only [feedFields, List.getElem?_cons_succ, List.getElem?_cons_zero]
  cases goString.decode v st.XsecToken <;> rfl

theorem decodeMembers_feed_cons_id (nc : GoType NC) (v : Json)
    (ms : List (String × Json)) (st : FeedOf NC) :
    decodeMembers (feedFields nc) (("id", v) :: ms) st
      = match goString.decode v st.ID with
        | .error e => .error e
        | .ok x => decodeMembers (feedFields nc) ms { st with ID := x } := by
  rw [decodeMembers]
  have : findField (feedFields nc) "id" = (feedFields nc)[1]? := by
    simp +decide [findField, feedFields, List.find?]
  rw [this]
  simp only [feedFields, List.getElem?_cons_succ, List.getElem?_cons_zero]
  cases goString.decode v st.ID <;> rfl

theorem decodeMembers_feed_cons_modelType (nc : GoType NC) (v : Json)
    (ms : List (String × Json)) (st : FeedOf NC) :
    decodeMembers (feedFields nc) (("modelType", v) :: ms) st
      = match goString.decode v st.ModelType with
        | .error e => .error e
        | .ok x => decodeMembers (feedFields nc) ms { st with ModelType := x } := by
  rw [decodeMembers]
  have : findField (feedFields nc) "modelType" = (feedFields nc)[2]? := by
    simp +decide [findField, feedFields, List.find?]
  rw [this]
  simp only [feedFields, List.getElem?_cons_succ, List.getElem?_cons_zero]
  cases goString.decode v st.ModelType <;> rfl

theorem decodeMembers_feed_cons_index (nc : GoType NC) (v : Json)
    (ms : List (String × Json)) (st : FeedOf NC) :
    decodeMembers (feedFields nc) (("index", v) :: ms) st
      = match goInt.decode v st.Index with
        | .error e => .error e
        | .ok x => decodeMembers (feedFields nc) ms { st with Index := x } := by
  rw [decodeMembers]
  have : findField (feedFields nc) "index" = (feedFields nc)[4]? := by
    simp +decide [findField, feedFields, List.find?]
  rw [this]
  simp only [feedFields, List.getElem?_cons_succ, List.getElem?_cons_zero]
  cases goInt.decode v st.Index <;> rfl

theorem decodeMembers_feed_cons_noteCard (nc : GoType NC) (v : Json)
    (ms : List (String × Json)) (st : FeedOf NC) :
    decodeMembers (feedFields nc) (("noteCard", v) :: ms) st
      = match nc.decode v st.NoteCard with
        | .error e => .error e
        | .ok x => decodeMembers (feedFields nc) ms { st with NoteCard := x } := by
  rw [decodeMembers]
  have : findField (feedFields nc) "noteCard" = (feedFields nc)[3]? := by
    simp +decide [findField, feedFields, List.find?]
  rw [this]
  simp only [feedFields, List.getElem?_cons_succ, List.getElem?_cons_zero]
  cases nc.decode v st.NoteCard <;> rfl

/-- Members other than `xsecToken` and `id` leave both fields as they are. -/
theorem decodeMembers_feed_rest (nc : GoType NC) (ms : List (String × Json))
    (st st1 : FeedOf NC) (h : decodeMembers (feedFields nc) ms st = .ok st1)
    (hk : ∀ p ∈ ms, p.1 ∈ ["modelType", "index", "noteCard"]) :
    st1.XsecToken = st.XsecToken ∧ st1.ID = st.ID := by
  induction ms generalizing st with
  | nil =>
    simp only [decodeMembers, Except.ok.injEq] at h
    rw [h]
    exact ⟨rfl, rfl⟩
  | cons p ms ih =>
    obtain ⟨k, v⟩ := p
    have hrest : ∀ q ∈ ms, q.1 ∈ ["modelType", "index", "noteCard"] :=
      fun q hq => hk q (List.mem_cons_of_mem _ hq)
    have hkey := hk (k, v) (List.mem_cons_self _ _)
    simp only [List.mem_cons, List.mem_singleton, List.not_mem_nil, or_false] at hkey
    rcases hkey with rfl | rfl | rfl
    · rw [decodeMembers_feed_cons_modelType] at h
      cases hd : goString.decode v st.ModelType with
      | error e => simp [hd] at h
      | ok x =>
        simp only [hd] at h
        have := ih _ h hrest
        simpa using this
    · rw [decodeMembers_feed_cons_index] at h
      cases hd : goInt.decode v st.Index with
      | error e => simp [hd] at h
      | ok x =>
        simp only [hd] at h
        have := ih _ h hrest
        simpa using this
    · rw [decodeMembers_feed_cons_noteCard] at h
      cases hd : nc.decode v st.NoteCard with
      | error e => simp [hd] at h
      | ok x =>
        simp only [hd] at h
        have := ih _ h hrest
        simpa using this

theorem jsOr_str (s : String) : jsOr (.str s) (.str "") = .str s := by
  by_cases h : s = ""
  · subst h
    rfl
  · simp [jsOr, JSVal.truthy, h]

theorem decodeMembers_feed_id (nc : GoType NC) (j2 : Option Json)
    (ms2 : List (String × Json)) (st f : FeedOf NC)
    (hk : ∀ p ∈ ms2, p.1 ∈ ["modelType", "index", "noteCard"])
    (h : decodeMembers (feedFields nc)
      (match j2 with
        | none => ms2
        | some j => ("id", j) :: ms2) st = .ok f) :
    f.XsecToken = st.XsecToken ∧ (∀ s, j2 = some (.str s) → f.ID = s) := by
  cases j2 with
  | none =>
    simp only at h
    exact ⟨(decodeMembers_feed_rest nc ms2 st f h hk).1, fun s hs => by simp at hs⟩
  | some j =>
    simp only [decodeMembers_feed_cons_id] at h
    cases hd : goString.decode j st.ID with
    | error e => simp [hd] at h
    | ok x =>
      simp only [hd] at h
      have hrest := decodeMembers_feed_rest nc ms2 _ f h hk
      refine ⟨by simpa using hrest.1, fun s hs => ?_⟩
      simp only [Option.some.injEq] at hs
      subst hs
      simp only [goString, Except.ok.injEq] at hd
      subst hd
      simpa using hrest.2

/-- One feed from the page state to the decoded `Feed`: the token and the id are those of
the source entry. -/
theorem feed_fields (nc : GoType NC) (x y : JSVal) (j : Option Json) (f : FeedOf NC)
    (hx : x.truthy = true) (hy : feedOf x = .ok y) (hj : jsonOf y = .ok j)
    (hf : (feedType nc).decode (j.getD .null) (feedType nc).zero = .ok f) :
    (∀ s, x.prop "xsecToken" = .str s → f.XsecToken = s)
      ∧ (∀ s, x.prop "id" = .str s → f.ID = s) := by
  obtain ⟨card, _, hr⟩ := feedOf_eq x hx
  rw [hr] at hy
  have hy1 := (Except.ok.inj hy).symm
  subst hy1
  simp only [jsonOf] at hj
  cases hms : jsonOfMembers [("xsecToken", jsOr (x.prop "xsecToken") (.str "")),
      ("id", jsOr (x.prop "id") (.str "")),
      ("modelType", jsOr (x.prop "modelType") (.str "")),
      ("index", jsOr (x.prop "index") (.num 0)), ("noteCard", card)] with
  | error e => simp [hms] at hj
  | ok ms =>
    simp only [hms, Except.ok.injEq] at hj
    subst hj
    simp only [Option.getD_some, feedType, decodeStruct] at hf
    obtain ⟨j1, ms1, hj1, hms1, hms⟩ := jsonOfMembers_cons _ _ _ _ hms
    obtain ⟨j2, ms2, hj2, hms2, hms1⟩ := jsonOfMembers_cons _ _ _ _ hms1
    have hkeys := jsonOfMembers_keys _ _ hms2
    have hkeys2 : ∀ p ∈ ms2, p.1 ∈ ["modelType", "index", "noteCard"] := by
      intro p hp
      simpa using hkeys p hp
    have hid : ∀ s, x.prop "id" = .str s → j2 = some (.str s) := by
      intro s hs
      rw [hs, jsOr_str] at hj2
      simp only [jsonOf, Except.ok.injEq] at hj2
      exact hj2.symm
    subst hms hms1
    cases j1 with
    | none =>
      simp only at hf
      have h2 := decodeMembers_feed_id nc j2 ms2 _ f hkeys2 hf
      refine ⟨fun s hs => ?_, fun s hs => h2.2 s (hid s hs)⟩
      rw [hs, jsOr_str] at hj1
      simp [jsonOf] at hj1
    | some ja =>
      simp only [decodeMembers_feed_cons_xsecToken] at hf
      split at hf
      · simp at hf
      · rename_i t hd
        have h2 := decodeMembers_feed_id nc j2 ms2 _ f hkeys2 hf
        refine ⟨fun s hs => ?_, fun s hs => h2.2 s (hid s hs)⟩
        rw [hs, jsOr_str] at hj1
        simp only [jsonOf, Except.ok.injEq, Option.some.injEq] at hj1
        subst hj1
        simp only [goString, Except.ok.injEq] at hd
        subst hd
        simpa using h2.1

/-- The search script on a state whose `search.feeds._value` is a list. -/
theorem searchScript_of_list (stringify : Json → String) (state : JSVal) (xs ys : List JSVal)
    (hsrc : ((state.prop "search").prop "feeds").prop "_value" = .arr xs)
    (hys : mapArr feedOf xs = .ok ys) :
    searchScript stringify state
      = match jsonOfElems (ys.filter JSVal.notNull) with
        | .error e => .error e
        | .ok es =>
          .ok (stringify (.obj [("search", .obj [("feeds", .obj [("_value", .arr es)])])])) := by
  have hF : ((state.prop "search").prop "feeds").truthy = true :=
    truthy_of_prop_ne_undefined _ "_value" (by rw [hsrc]; simp)
  have hS : (state.prop "search").truthy = true :=
    truthy_of_prop_ne_undefined _ "feeds" (by
      intro h
      rw [h] at hF
      simp [JSVal.truthy] at hF)
  have hstate : state.truthy = true :=
    truthy_of_prop_ne_undefined _ "search" (by
      intro h
      rw [h] at hS
      simp [JSVal.truthy] at hS)
  have harr : (JSVal.arr xs).truthy = true := rfl
  simp only [searchScript, hstate, if_true, get_of_truthy _ _ hstate, safeExtractFeeds, hS,
    Bool.not_true, Bool.false_eq_true, if_false, get_of_truthy _ _ hS, hF, get_of_truthy _ _ hF,
    hsrc, harr, hys, stringifyObject, jsonOfMembers, jsonOf]
  cases jsonOfElems (ys.filter JSVal.notNull) <;> rfl

/-- On a page whose `window.__INITIAL_STATE__` is defined, `Search` passes the wait and is
the script followed by the mapping step. -/
theorem search_of_defined {Feed : Type} (stringify : Json → String)
    (parse : String → Except GoError Json) (feed : GoType Feed) (state : JSVal)
    (h : state ≠ .undefined) :
    SearchAction.Search stringify parse feed state
      = match searchScript stringify state with
        | .error e => .error (.fault e)
        | .ok result => .ok (SearchAction.mapResult parse feed result) := by
  cases state <;> first | exact absurd rfl h | rfl

/-- On a page whose `window.__INITIAL_STATE__` stays `undefined`, `Search` panics in
`MustWait` and the script never runs. -/
theorem search_of_undefined {Feed : Type} (stringify : Json → String)
    (parse : String → Except GoError Json) (feed : GoType Feed) :
    SearchAction.Search stringify parse feed .undefined = .error .waitTimeout := rfl

/-- C8 (amended): when `Search` returns a result for a state whose `search.feeds._value` is
the list `xs`, the feeds returned are, in order, those of the truthy entries of `xs` (the
script drops the falsy ones), and a feed's `XsecToken` and `ID` are the texts that its
source entry carries as `xsecToken` and `id`. -/
theorem search_tokens (stringify : Json → String) (parse : String → Except GoError Json)
    (hrt : ∀ j, parse (stringify j) = .ok j) (hne : ∀ j, stringify j ≠ "")
    (nc : GoType NC) (state : JSVal) (xs : List JSVal) (fs : List (FeedOf NC))
    (hsrc : ((state.prop "search").prop "feeds").prop "_value" = .arr xs)
    (hres : SearchAction.Search stringify parse (feedType nc) state = .ok (.ok fs)) :
    List.Forall₂
      (fun x f => (∀ s, x.prop "xsecToken" = .str s → f.XsecToken = s)
        ∧ (∀ s, x.prop "id" = .str s → f.ID = s))
      (xs.filter JSVal.truthy) fs := by
  obtain ⟨ys, hys, hall⟩ := mapArr_ok feedOf xs (fun x _ => feedOf_total x)
  have hscript := searchScript_of_list stringify state xs ys hsrc hys
  have hdef : state ≠ .undefined := by
    rintro rfl
    simp [SearchAction.Search] at hres
  rw [search_of_defined stringify parse (feedType nc) state hdef] at hres
  simp only [hscript] at hres
  cases hes : jsonOfElems (ys.filter JSVal.notNull) with
  | error e => simp [hes] at hres
  | ok es =>
    simp only [hes, Except.ok.injEq] at hres
    have hun : unmarshal parse (searchResultType (feedType nc))
        (stringify (.obj [("search", .obj [("feeds", .obj [("_value", .arr es)])])]))
        = match decodeElems (feedType nc) es [] with
          | .error e => .error e
          | .ok fs => .ok { Search := { Feeds := { Value := fs } } } := by
      simp only [unmarshal, hrt, decode_searchDocument]
      cases decodeElems (feedType nc) es [] <;> rfl
    simp only [SearchAction.mapResult, hne, if_false, hun] at hres
    cases hfs : decodeElems (feedType nc) es [] with
    | error e => simp [hfs] at hres
    | ok fs1 =>
      simp only [hfs, Except.ok.injEq] at hres
      subst hres
      have h1 := forall₂_filter_feedOf xs ys hall
      have h2 := jsonOfElems_forall₂ _ _ hes
      have h3 := decodeElems_forall₂ _ _ _ hfs
      refine (forall₂_comp (forall₂_comp h1 h2) h3).imp ?_
      rintro x f ⟨e, ⟨y, ⟨hx, hy⟩, j, hj, rfl⟩, hf⟩
      exact feed_fields nc x y j f hx hy hj hf

end

/-- C8 (counterexample): with the source list `[null, {xsecToken: "tok1", id: "id1"}]` the
entry at position 1 carries the token `"tok1"`, but `Search` returns a single feed: there
is no feed at position 1, and the feed carrying `"tok1"` is at position 0. With the source
list `[{xsecToken: "tok1", id: 5n}]` the script faults in `JSON.stringify` and `Search`
returns no result at all. -/
theorem search_tokens_counterexample :
    (∃ fs : List (FeedOf Json),
      SearchAction.Search renderJson parseJson (feedType goRaw)
          (.obj [("search", .obj [("feeds", .obj [("_value", .arr [.null,
            .obj [("xsecToken", .str "tok1"), ("id", .str "id1")]])])])])
        = .ok (.ok fs)
      ∧ ([JSVal.null, .obj [("xsecToken", .str "tok1"), ("id", .str "id1")]][1]?).map
          (fun x => x.prop "xsecToken") = some (.str "tok1")
      ∧ fs[1]? = none
      ∧ (fs[0]?).map (fun f => f.XsecToken) = some "tok1")
    ∧ SearchAction.Search renderJson parseJson (feedType goRaw)
        (.obj [("search", .obj [("feeds", .obj [("_value", .arr [
          .obj [("xsecToken", .str "tok1"), ("id", .bigint 5)]])])])])
      = .error (.fault .typeError) :=
  ⟨⟨[{ XsecToken := "tok1", ID := "id1", ModelType := "", NoteCard := .obj [], Index := 0 }],
    by rfl, by rfl, by rfl, by rfl⟩, by rfl⟩

/-! ### The results of the scripts -/

theorem prop_of_falsy (v : JSVal) (k : String) (h : v.truthy = false) :
    v.prop k = .undefined := by
  cases v <;> simp_all [JSVal.prop, JSVal.truthy]

theorem jsonOf_obj (ps : List (String × JSVal)) :
    jsonOf (.obj ps) = .error .typeError
      ∨ ∃ ms, jsonOfMembers ps = .ok ms ∧ jsonOf (.obj ps) = .ok (some (.obj ms)) := by
  simp only [jsonOf]
  cases h : jsonOfMembers ps with
  | error e =>
    cases e
    exact Or.inl rfl
  | ok ms => exact Or.inr ⟨ms, rfl, rfl⟩

theorem stringifyObject_cases (stringify : Json → String) (ps : List (String × JSVal)) :
    stringifyObject stringify ps = .error .typeError
      ∨ ∃ ms, jsonOfMembers ps = .ok ms
          ∧ stringifyObject stringify ps = .ok (stringify (.obj ms)) := by
  simp only [stringifyObject]
  cases h : jsonOfMembers ps with
  | error e =>
    cases e
    exact Or.inl rfl
  | ok ms => exact Or.inr ⟨ms, rfl, rfl⟩

theorem feedDetailScript_of_falsy (stringify : Json → String) (state : JSVal)
    (h : state.truthy = false) : feedDetailScript stringify state = some "" := by
  simp [feedDetailScript, feedDetailScriptBody, h]

theorem searchScript_of_falsy (stringify : Json → String) (state : JSVal)
    (h : state.truthy = false) : searchScript stringify state = .ok "" := by
  simp [searchScript, h]

theorem feedDetailScript_of_obj (stringify : Json → String) (ps : List (String × JSVal)) :
    ∃ r, feedDetailScript stringify (.obj ps) = some r
      ∧ (r = "" ∨ ∃ ms, r = stringify (.obj ms)) := by
  have ht : (JSVal.obj ps).truthy = true := rfl
  simp only [feedDetailScript, feedDetailScriptBody, ht, Bool.not_true, Bool.false_eq_true,
    if_false]
  cases hx : safeExtractNoteData (.obj ps) with
  | error e => exact ⟨"", rfl, Or.inl rfl⟩
  | ok d =>
    cases d with
    | none =>
      rcases jsonOf_obj ps with hj | ⟨ms, _, hj⟩
      · exact ⟨"", by simp [jsonStringify, hj], Or.inl rfl⟩
      · exact ⟨stringify (.obj ms), by simp [jsonStringify, hj], Or.inr ⟨ms, rfl⟩⟩
    | some noteData =>
      rcases stringifyObject_cases stringify noteData with hs | ⟨ms, _, hs⟩
      · exact ⟨"", by simp [hs], Or.inl rfl⟩
      · exact ⟨stringify (.obj ms), by simp [hs], Or.inr ⟨ms, rfl⟩⟩

theorem searchScript_of_not_list (stringify : Json → String) (state : JSVal)
    (h : (((state.prop "search").prop "feeds").prop "_value").isArray = false) :
    searchScript stringify state = .ok "" := by
  cases hs : state.truthy
  · exact searchScript_of_falsy stringify state hs
  · simp only [searchScript, hs, if_true, get_of_truthy _ _ hs, safeExtractFeeds]
    cases hS : (state.prop "search").truthy
    · simp
    · simp only [Bool.not_true, Bool.false_eq_true, if_false, get_of_truthy _ _ hS]
      cases hF : ((state.prop "search").prop "feeds").truthy
      · simp
      · simp only [Bool.not_true, Bool.false_eq_true, if_false, get_of_truthy _ _ hF]
        cases hV : (((state.prop "search").prop "feeds").prop "_value").truthy
        · simp
        · simp only [Bool.not_true, Bool.false_eq_true, if_false]
          cases hv : ((state.prop "search").prop "feeds").prop "_value" <;>
            simp_all [JSVal.isArray]

/-- C11 (counterexample): the state `{}` is present and the search script returns the empty
string; a state whose note carries the comment list `[null]` is present and the
feed-detail script returns the empty string. -/
theorem script_results_counterexample :
    (JSVal.obj []).truthy = true
      ∧ searchScript renderJson (.obj []) = .ok ""
      ∧ feedDetailScript renderJson
          (.obj [("note", .obj [("noteDetailMap", .obj [("f1", .obj [
            ("note", .obj [("id", .str "f1")]),
            ("comments", .obj [("comments", .arr [.null])])])])])])
        = some "" :=
  ⟨rfl, by rfl, by rfl⟩

/-- C11 (amended): both scripts return the empty string when the root state is absent or
falsy. For a root state that is an object the feed-detail script returns the empty string
(a fault was caught) or the text of a JSON object. The search script returns the empty
string when `search.feeds._value` is not a list; when it is a list the script returns the
text of a JSON object or ends with the fault of `JSON.stringify`. -/
theorem script_results (stringify : Json → String) (state : JSVal) :
    (state.truthy = false →
        feedDetailScript stringify state = some "" ∧ searchScript stringify state = .ok "")
      ∧ (∀ ps, state = .obj ps →
          ∃ r, feedDetailScript stringify state = some r
            ∧ (r = "" ∨ ∃ ms, r = stringify (.obj ms)))
      ∧ ((((state.prop "search").prop "feeds").prop "_value").isArray = false →
          searchScript stringify state = .ok "")
      ∧ ((((state.prop "search").prop "feeds").prop "_value").isArray = true →
          searchScript stringify state = .error .typeError
            ∨ ∃ ms, searchScript stringify state = .ok (stringify (.obj ms))) := by
  refine ⟨fun h => ⟨feedDetailScript_of_falsy stringify state h,
    searchScript_of_falsy stringify state h⟩, ?_, searchScript_of_not_list stringify state, ?_⟩
  · rintro ps rfl
    exact feedDetailScript_of_obj stringify ps
  · intro h
    cases hv : ((state.prop "search").prop "feeds").prop "_value" <;>
      simp [hv, JSVal.isArray] at h
    rename_i xs
    obtain ⟨ys, hys, _⟩ := mapArr_ok feedOf xs (fun x _ => feedOf_total x)
    rw [searchScript_of_list stringify state xs ys hv hys]
    cases jsonOfElems (ys.filter JSVal.notNull) with
    | error e =>
      cases e
      exact Or.inl rfl
    | ok es => exact Or.inr ⟨_, rfl⟩

/-- C13: on a feed whose `id` is a BigInt the search script ends with the `TypeError` of
`JSON.stringify`, which leaves the script and makes `Search` panic; on a note whose `id`
is a BigInt the feed-detail script catches the same fault and returns the empty string. -/
theorem search_fault_escapes :
    searchScript renderJson
        (.obj [("search", .obj [("feeds", .obj [("_value", .arr [
          .obj [("xsecToken", .str "tok1"), ("id", .bigint 5)]])])])])
      = .error .typeError
    ∧ SearchAction.Search renderJson parseJson (feedType goRaw)
        (.obj [("search", .obj [("feeds", .obj [("_value", .arr [
          .obj [("xsecToken", .str "tok1"), ("id", .bigint 5)]])])])])
      = .error (.fault .typeError)
    ∧ feedDetailScript renderJson
        (.obj [("note", .obj [("noteDetailMap", .obj [("f1", .obj [
          ("note", .obj [("id", .bigint 5)])])])])])
      = some "" :=
  ⟨by rfl, by rfl, by rfl⟩

theorem script_results_witness :
    (feedDetailScript renderJson .undefined = some ""
        ∧ searchScript renderJson .undefined = .ok "")
      ∧ (∃ r, feedDetailScript renderJson (.obj []) = some r
        ∧ (r = "" ∨ ∃ ms, r = renderJson (.obj ms)))
      ∧ searchScript renderJson (.obj []) = .ok ""
      ∧ (searchScript renderJson
            (.obj [("search", .obj [("feeds", .obj [("_value", .arr [
              .obj [("xsecToken", .str "tok1"), ("id", .str "id1")]])])])])
          = .error .typeError
        ∨ ∃ ms, searchScript renderJson
            (.obj [("search", .obj [("feeds", .obj [("_value", .arr [
              .obj [("xsecToken", .str "tok1"), ("id", .str "id1")]])])])])
          = .ok (renderJson (.obj ms))) :=
  ⟨(script_results renderJson .undefined).1 rfl,
    (script_results renderJson (.obj [])).2.1 [] rfl,
    (script_results renderJson (.obj [])).2.2.1 rfl,
    (script_results renderJson
      (.obj [("search", .obj [("feeds", .obj [("_value", .arr [
        .obj [("xsecToken", .str "tok1"), ("id", .str "id1")]])])])])).2.2.2 rfl⟩

/-! ### Extraction followed by mapping -/

/-- What the feed-detail script returns does not depend on the text layer beyond the
rendering of one document: `none` is the result `undefined`, `some none` the empty string. -/
theorem feedDetailScript_document (state : JSVal) :
    ∃ d : Option (Option Json), ∀ stringify : Json → String,
      feedDetailScript stringify state
        = match d with
          | none => none
          | some none => some ""
          | some (some j) => some (stringify j) := by
  cases ht : state.truthy
  · exact ⟨some none, fun stringify => by
      simp [feedDetailScript, feedDetailScriptBody, ht]⟩
  · cases hx : safeExtractNoteData state with
    | error e => exact ⟨some none, fun stringify => by
        simp [feedDetailScript, feedDetailScriptBody, ht, hx]⟩
    | ok nd =>
      cases nd with
      | none =>
        cases hj : jsonOf state with
        | error e => exact ⟨some none, fun stringify => by
            simp [feedDetailScript, feedDetailScriptBody, ht, hx, jsonStringify, hj]⟩
        | ok oj =>
          cases oj with
          | none => exact ⟨none, fun stringify => by
              simp [feedDetailScript, feedDetailScriptBody, ht, hx, jsonStringify, hj]⟩
          | some j => exact ⟨some (some j), fun stringify => by
              simp [feedDetailScript, feedDetailScriptBody, ht, hx, jsonStringify, hj]⟩
      | some noteData =>
        cases hm : jsonOfMembers noteData with
        | error e => exact ⟨some none, fun stringify => by
            simp [feedDetailScript, feedDetailScriptBody, ht, hx, stringifyObject, hm]⟩
        | ok ms => exact ⟨some (some (.obj ms)), fun stringify => by
            simp [feedDetailScript, feedDetailScriptBody, ht, hx, stringifyObject, hm]⟩

section

variable {FD CL : Type}

/-- The mapping step on the text of a document, for a reader that reads it back. -/
theorem mapResult_of_document (stringify : Json → String)
    (parse : String → Except GoError Json) (hrt : ∀ j, parse (stringify j) = .ok j)
    (hne : ∀ j, stringify j ≠ "") (fd : GoType FD) (cl : GoType CL) (j : Json)
    (feedID : String) :
    FeedDetailAction.mapResult parse fd cl (stringify j) feedID
      = match (initialStateType fd cl).decode j (initialStateType fd cl).zero with
        | .error err => .error (sprintf "failed to unmarshal __INITIAL_STATE__: %w" [err])
        | .ok initialState =>
          match initialState.Note.NoteDetailMap.get feedID with
          | none => .error (sprintf "feed %s not found in noteDetailMap" [feedID])
          | some noteDetail =>
            .ok { Note := noteDetail.Note, Comments := noteDetail.Comments } := by
  simp only [FeedDetailAction.mapResult, hne, if_false, unmarshal, hrt]

/-- C15: extraction followed by mapping gives a result that is determined by the page
state and the requested feed id: two runs on the same state return the same response or
the same error, whatever text the serialiser of each run writes, provided the reader
reads it back. -/
theorem getFeedDetail_deterministic (parse : String → Except GoError Json)
    (stringify1 stringify2 : Json → String)
    (hrt1 : ∀ j, parse (stringify1 j) = .ok j) (hne1 : ∀ j, stringify1 j ≠ "")
    (hrt2 : ∀ j, parse (stringify2 j) = .ok j) (hne2 : ∀ j, stringify2 j ≠ "")
    (fd : GoType FD) (cl : GoType CL) (undefinedText : String) (state : JSVal)
    (feedID : String) :
    FeedDetailAction.GetFeedDetail stringify1 parse fd cl undefinedText state feedID
      = FeedDetailAction.GetFeedDetail stringify2 parse fd cl undefinedText state feedID := by
  obtain ⟨d, hd⟩ := feedDetailScript_document state
  simp only [FeedDetailAction.GetFeedDetail, hd]
  cases d with
  | none => rfl
  | some oj =>
    cases oj with
    | none => rfl
    | some j =>
      simp only [mapResult_of_document stringify1 parse hrt1 hne1,
        mapResult_of_document stringify2 parse hrt2 hne2]

end

/-- A second writer: the reference writer with a leading space. -/
theorem parseJson_space_renderJson (j : Json) : parseJson (" " ++ renderJson j) = .ok j := by
  have hdata : (" " ++ renderJson j).data = ' ' :: renderChars j := by
    simp [renderJson, String.data_append]
  have hlen : (" " ++ renderJson j).length = (renderChars j).length + 1 := by
    show (" " ++ renderJson j).data.length = _
    rw [hdata, List.length_cons]
  have hstep : readValue ((renderChars j).length + 1 + 1) (' ' :: renderChars j)
      = readValue ((renderChars j).length + 1 + 1) (renderChars j) := by
    have hs : skipWs (' ' :: renderChars j) = skipWs (renderChars j) := by
      rw [skipWs]
      simp
    conv_lhs => rw [readValue, hs]
    conv_rhs => rw [readValue]
  have h2 := readValue_render j ((renderChars j).length + 1 + 1) [] (by omega)
    (fun c tl hc => by simp at hc)
  rw [List.append_nil] at h2
  simp [parseJson, hdata, hlen, hstep, h2, skipWs]

/-! ### The entries of the feed-detail output -/

theorem GoMap.mem_set {V : Type} (m : GoMap V) (k : String) (v : V) (p : String × V)
    (h : p ∈ GoMap.set m k v) : p = (k, v) ∨ p ∈ m := by
  induction m with
  | nil =>
    simp only [GoMap.set, List.mem_singleton] at h
    exact Or.inl h
  | cons q m ih =>
    obtain ⟨k1, v1⟩ := q
    by_cases hk : k1 = k
    · simp only [GoMap.set, hk, if_true, List.mem_cons] at h
      rcases h with h | h
      · exact Or.inl h
      · exact Or.inr (List.mem_cons_of_mem _ h)
    · simp only [GoMap.set, hk, if_false, List.mem_cons] at h
      rcases h with h | h
      · exact Or.inr (h ▸ List.mem_cons_self _ _)
      · rcases ih h with h | h
        · exact Or.inl h
        · exact Or.inr (List.mem_cons_of_mem _ h)

theorem GoMap.keys_set {V : Type} (m : GoMap V) (k : String) (v : V) :
    (GoMap.set m k v).map Prod.fst
      = if k ∈ m.map Prod.fst then m.map Prod.fst else m.map Prod.fst ++ [k] := by
  induction m with
  | nil => simp [GoMap.set]
  | cons q m ih =>
    obtain ⟨k1, v1⟩ := q
    by_cases hk : k1 = k
    · subst hk
      simp [GoMap.set]
    · have hk2 : ¬ k = k1 := fun h => hk h.symm
      simp only [GoMap.set, hk, if_false, List.map_cons, ih, List.mem_cons, hk2, false_or]
      split <;> simp

theorem GoMap.nodup_set {V : Type} (m : GoMap V) (k : String) (v : V)
    (h : (m.map Prod.fst).Nodup) : ((GoMap.set m k v).map Prod.fst).Nodup := by
  rw [GoMap.keys_set]
  split
  · exact h
  · rename_i hk
    exact List.Nodup.append h (List.nodup_singleton k) (by
      intro a ha hb
      simp only [List.mem_singleton] at hb
      subst hb
      exact hk ha)

theorem GoMap.mem_of_get {V : Type} (m : GoMap V) (k : String) (v : V)
    (h : GoMap.get m k = some v) : (k, v) ∈ m := by
  induction m with
  | nil => simp [GoMap.get_nil] at h
  | cons q m ih =>
    obtain ⟨k1, v1⟩ := q
    rw [GoMap.get_cons] at h
    by_cases hk : k1 = k
    · simp only [hk, if_true, Option.some.injEq] at h
      subst hk h
      exact List.mem_cons_self _ _
    · simp only [hk, if_false] at h
      exact List.mem_cons_of_mem _ (ih h)

theorem entryOf_eq (detail v : JSVal) (h : detail.truthy = true)
    (hv : entryOf detail = .ok v) :
    ∃ note comments, noteOf (detail.prop "note") = .ok note
      ∧ commentsOf (detail.prop "comments") = .ok comments
      ∧ v = .obj [("note", note), ("comments", comments)] := by
  simp only [entryOf, get_of_truthy detail _ h] at hv
  cases hn : noteOf (detail.prop "note") with
  | error e => simp [hn] at hv
  | ok note =>
    cases hc : commentsOf (detail.prop "comments") with
    | error e => simp [hn, hc] at hv
    | ok comments =>
      simp only [hn, hc, Except.ok.injEq] at hv
      exact ⟨note, comments, rfl, rfl, hv.symm⟩

theorem extractEntries_cons (key : String) (detail : JSVal) (rest acc : List (String × JSVal)) :
    extractEntries ((key, detail) :: rest) acc
      = if detail.truthy = true ∧ (detail.prop "note").truthy = true then
          match entryOf detail with
          | .error e => .error e
          | .ok entry => extractEntries rest (setOwn acc key entry)
        else extractEntries rest acc := by
  cases hd : detail.truthy
  · simp [extractEntries, hd]
  · cases hn : (detail.prop "note").truthy
    · simp [extractEntries, hd, get_of_truthy detail _ hd, hn]
    · simp only [extractEntries, hd, get_of_truthy detail _ hd, hn, Bool.not_true,
        Bool.false_eq_true, if_false, and_self, if_true]

theorem extractEntries_forall (P : JSVal → Prop)
    (hP : ∀ detail v, detail.truthy = true → (detail.prop "note").truthy = true →
      entryOf detail = .ok v → P v)
    (entries acc out : List (String × JSVal)) (h : extractEntries entries acc = .ok out)
    (hacc : ∀ p ∈ acc, P p.2) : ∀ p ∈ out, P p.2 := by
  induction entries generalizing acc with
  | nil =>
    simp only [extractEntries, Except.ok.injEq] at h
    subst h
    exact hacc
  | cons q entries ih =>
    obtain ⟨key, detail⟩ := q
    rw [extractEntries_cons] at h
    split at h
    · rename_i hc
      cases he : entryOf detail with
      | error e => simp [he] at h
      | ok entry =>
        simp only [he] at h
        refine ih _ h ?_
        intro p hp
        simp only [setOwn] at hp
        split at hp
        · exact hacc p hp
        · rcases GoMap.mem_set _ _ _ _ hp with rfl | hp
          · exact hP detail entry hc.1 hc.2 he
          · exact hacc p hp
    · exact ih _ h hacc

theorem extractEntries_nodup (entries acc out : List (String × JSVal))
    (h : extractEntries entries acc = .ok out) (hacc : (acc.map Prod.fst).Nodup) :
    (out.map Prod.fst).Nodup := by
  induction entries generalizing acc with
  | nil =>
    simp only [extractEntries, Except.ok.injEq] at h
    subst h
    exact hacc
  | cons q entries ih =>
    obtain ⟨key, detail⟩ := q
    rw [extractEntries_cons] at h
    split at h
    · cases he : entryOf detail with
      | error e => simp [he] at h
      | ok entry =>
        simp only [he] at h
        refine ih _ h ?_
        simp only [setOwn]
        split
        · exact hacc
        · exact GoMap.nodup_set _ _ _ hacc
    · exact ih _ h hacc

theorem extractEntries_get_of_absent (entries acc out : List (String × JSVal)) (k : String)
    (h : extractEntries entries acc = .ok out) (hk : ∀ p ∈ entries, p.1 ≠ k) :
    GoMap.get out k = GoMap.get acc k := by
  induction entries generalizing acc with
  | nil =>
    simp only [extractEntries, Except.ok.injEq] at h
    rw [h]
  | cons q entries ih =>
    obtain ⟨key, detail⟩ := q
    have hkey : key ≠ k := hk (key, detail) (List.mem_cons_self _ _)
    have hrest : ∀ p ∈ entries, p.1 ≠ k := fun p hp => hk p (List.mem_cons_of_mem _ hp)
    rw [extractEntries_cons] at h
    split at h
    · cases he : entryOf detail with
      | error e => simp [he] at h
      | ok entry =>
        simp only [he] at h
        rw [ih _ h hrest]
        simp only [setOwn]
        split
        · rfl
        · rw [GoMap.get_set, if_neg hkey]
    · exact ih _ h hrest

theorem extractEntries_get (pre post acc out : List (String × JSVal)) (k : String)
    (detail : JSVal) (hk : k ≠ "__proto__") (hd : detail.truthy = true)
    (hn : (detail.prop "note").truthy = true) (hpost : ∀ p ∈ post, p.1 ≠ k)
    (h : extractEntries (pre ++ (k, detail) :: post) acc = .ok out) :
    ∃ e, entryOf detail = .ok e ∧ GoMap.get out k = some e := by
  induction pre generalizing acc with
  | nil =>
    rw [List.nil_append, extractEntries_cons, if_pos ⟨hd, hn⟩] at h
    cases he : entryOf detail with
    | error e => simp [he] at h
    | ok entry =>
      simp only [he] at h
      refine ⟨entry, rfl, ?_⟩
      rw [extractEntries_get_of_absent _ _ _ k h hpost]
      simp only [setOwn, hk, if_false]
      rw [GoMap.get_set, if_pos rfl]
  | cons q pre ih =>
    obtain ⟨key, d⟩ := q
    rw [List.cons_append, extractEntries_cons] at h
    split at h
    · cases he : entryOf d with
      | error e => simp [he] at h
      | ok entry =>
        simp only [he] at h
        exact ih _ h
    · exact ih _ h

theorem noteOf_keys (nd note : JSVal) (h : nd.truthy = true) (hn : noteOf nd = .ok note) :
    JSHasKeys noteKeys note := by
  cases himg : imagesOf (nd.prop "images") with
  | error e =>
    obtain ⟨u, hu⟩ := userOf_total (nd.prop "user")
    simp [noteOf, getOr_of_truthy nd _ _ h, get_of_truthy nd _ h, himg, hu] at hn
  | ok images =>
    obtain ⟨user, video, ii, _, _, _, hr⟩ := noteOf_eq nd images h himg
    rw [hr] at hn
    have := (Except.ok.inj hn).symm
    subst this
    exact ⟨_, rfl, rfl⟩

theorem commentOf_keys (c y : JSVal) (h : commentOf c = .ok y) :
    c.nullish = false ∧ JSHasKeys commentKeys y := by
  cases hc : c.nullish
  · obtain ⟨user, _, hr⟩ := commentOf_of_not_nullish c hc
    rw [hr] at h
    have := (Except.ok.inj h).symm
    subst this
    exact ⟨rfl, _, rfl, rfl⟩
  · cases c <;> simp [JSVal.nullish] at hc <;> simp [commentOf, getOr, JSVal.get] at h

theorem forall₂_right {α β : Type} {R : α → β → Prop} {P : β → Prop} {as : List α}
    {bs : List β} (h : List.Forall₂ R as bs) (hP : ∀ a b, R a b → P b) : ∀ b ∈ bs, P b := by
  induction h with
  | nil => simp
  | cons hab _ ih =>
    intro b hb
    rcases List.mem_cons.mp hb with rfl | hb
    · exact hP _ _ hab
    · exact ih b hb

theorem commentsOf_shape (dc c : JSVal) (h : commentsOf dc = .ok c) :
    ∃ ys, c = .obj [("comments", .arr ys)] ∧ ∀ y ∈ ys, JSHasKeys commentKeys y := by
  have ht : (jsOr dc (.obj [("comments", .arr [])])).truthy = true := by
    unfold jsOr
    split
    · assumption
    · rfl
  have hg := get_of_truthy _ "comments" ht
  simp only [jsOr] at hg
  simp only [commentsOf, hg] at h
  cases hcs : JSVal.prop (if dc.truthy = true then dc else JSVal.obj [("comments", JSVal.arr [])])
      "comments" with
  | arr xs =>
    simp only [hcs] at h
    cases hm : mapArr commentOf xs with
    | error e => simp [hm] at h
    | ok ys =>
      simp only [hm, Except.ok.injEq] at h
      exact ⟨ys, h.symm, forall₂_right (mapArr_forall₂ _ _ _ hm)
        (fun a b hab => (commentOf_keys a b hab).2)⟩
  | _ =>
    simp only [hcs, Except.ok.injEq] at h
    exact ⟨[], h.symm, by simp⟩

theorem entryOf_shape (detail v : JSVal) (h : detail.truthy = true)
    (hn : (detail.prop "note").truthy = true) (hv : entryOf detail = .ok v) :
    JSEntryShape v := by
  obtain ⟨note, comments, hnote, hcomments, rfl⟩ := entryOf_eq detail v h hv
  obtain ⟨ys, rfl, hys⟩ := commentsOf_shape _ _ hcomments
  exact ⟨note, ys, rfl, noteOf_keys _ _ hn hnote, hys⟩

/-- The members that `JSON.stringify` writes for an object are its properties in their
order, with those left out whose value has no JSON form. -/
theorem jsonOfMembers_sublist (ps : List (String × JSVal)) (ms : List (String × Json))
    (h : jsonOfMembers ps = .ok ms) : (ms.map Prod.fst).Sublist (ps.map Prod.fst) := by
  induction ps generalizing ms with
  | nil =>
    simp only [jsonOfMembers, Except.ok.injEq] at h
    subst h
    exact List.Sublist.slnil
  | cons q ps ih =>
    obtain ⟨k, v⟩ := q
    obtain ⟨jv, ms1, _, hps, hms⟩ := jsonOfMembers_cons k v ps ms h
    cases jv with
    | none =>
      simp only at hms
      rw [hms]
      exact List.Sublist.cons _ (ih ms1 hps)
    | some j =>
      simp only at hms
      rw [hms]
      exact List.Sublist.cons₂ _ (ih ms1 hps)

theorem jsonOf_hasKeys (allowed : List String) (v : JSVal) (oj : Option Json)
    (hv : JSHasKeys allowed v) (h : jsonOf v = .ok oj) :
    ∃ j, oj = some j ∧ HasKeys allowed j := by
  obtain ⟨ps, rfl, hps⟩ := hv
  simp only [jsonOf] at h
  cases hm : jsonOfMembers ps with
  | error e => simp [hm] at h
  | ok ms =>
    simp only [hm, Except.ok.injEq] at h
    refine ⟨.obj ms, h.symm, ms, rfl, ?_⟩
    rw [← hps]
    exact jsonOfMembers_sublist ps ms hm

theorem jsonOfMembers_mem (ps : List (String × JSVal)) (ms : List (String × Json))
    (h : jsonOfMembers ps = .ok ms) :
    ∀ p ∈ ms, ∃ v, (p.1, v) ∈ ps ∧ jsonOf v = .ok (some p.2) := by
  induction ps generalizing ms with
  | nil =>
    simp only [jsonOfMembers, Except.ok.injEq] at h
    subst h
    simp
  | cons q ps ih =>
    obtain ⟨k, v⟩ := q
    obtain ⟨jv, ms1, hv, hps, hms⟩ := jsonOfMembers_cons k v ps ms h
    intro p hp
    cases jv with
    | none =>
      simp only at hms
      rw [hms] at hp
      obtain ⟨w, hw, hj⟩ := ih ms1 hps p hp
      exact ⟨w, List.mem_cons_of_mem _ hw, hj⟩
    | some j =>
      simp only at hms
      rw [hms] at hp
      rcases List.mem_cons.mp hp with rfl | hp
      · exact ⟨v, List.mem_cons_self _ _, hv⟩
      · obtain ⟨w, hw, hj⟩ := ih ms1 hps p hp
        exact ⟨w, List.mem_cons_of_mem _ hw, hj⟩

theorem jsonOf_entryShape (v : JSVal) (j : Json) (hv : JSEntryShape v)
    (h : jsonOf v = .ok (some j)) : EntryShape j := by
  obtain ⟨n, ys, rfl, hn, hys⟩ := hv
  simp only [jsonOf, jsonOfMembers] at h
  cases hjn : jsonOf n with
  | error e => simp [hjn] at h
  | ok ojn =>
    obtain ⟨jn, rfl, hkn⟩ := jsonOf_hasKeys noteKeys n ojn hn hjn
    cases hjs : jsonOfElems ys with
    | error e => simp [hjn, hjs] at h
    | ok js =>
      simp only [hjn, hjs, Except.ok.injEq, Option.some.injEq] at h
      refine ⟨jn, js, h.symm, hkn, ?_⟩
      have hall := jsonOfElems_forall₂ ys js hjs
      have hall2 : List.Forall₂
          (fun y e => JSHasKeys commentKeys y ∧ ∃ oj, jsonOf y = .ok oj ∧ e = oj.getD .null)
          ys js := by
        clear hjs h
        induction hall with
        | nil => exact List.Forall₂.nil
        | cons hab _ ih =>
          exact List.Forall₂.cons ⟨hys _ (List.mem_cons_self _ _), hab⟩
            (ih (fun y hy => hys y (List.mem_cons_of_mem _ hy)))
      refine forall₂_right hall2 ?_
      rintro y e ⟨hy, oj, hoj, rfl⟩
      obtain ⟨jy, rfl, hk⟩ := jsonOf_hasKeys commentKeys y oj hy hoj
      exact hk

/-- The feed-detail script on a state whose `note` is truthy: the entries extracted from
`note.noteDetailMap`, then the serialisation of `{ note: { noteDetailMap } }`. -/
theorem safeExtractNoteData_of_note (state : JSVal) (hs : state.truthy = true)
    (hn : (state.prop "note").truthy = true) :
    safeExtractNoteData state
      = match (if ((state.prop "note").prop "noteDetailMap").truthy = true
            then extractEntries ((state.prop "note").prop "noteDetailMap").entries []
            else .ok []) with
        | .error e => .error e
        | .ok m => .ok (some [("note", .obj [("noteDetailMap", .obj m)])]) := by
  simp only [safeExtractNoteData, hs, Bool.not_true, Bool.false_eq_true, if_false,
    get_of_truthy state _ hs, hn, get_of_truthy _ _ hn]

theorem stringifyObject_noteData (stringify : Json → String) (m : List (String × JSVal)) :
    stringifyObject stringify [("note", .obj [("noteDetailMap", .obj m)])]
      = match jsonOfMembers m with
        | .error e => .error e
        | .ok ms => .ok (stringify (.obj [("note", .obj [("noteDetailMap", .obj ms)])])) := by
  simp only [stringifyObject, jsonOfMembers, jsonOf]
  cases jsonOfMembers m <;> rfl

/-- C12 (counterexample): for a state without `note` the feed-detail script returns the
serialisation of the whole state, and the `tagList` of a note is written as it stands in
the source, with members that no schema names. -/
theorem feedDetail_schema_counterexample :
    feedDetailScript renderJson (.obj [("user", .obj [("token", .str "secret")])])
        = some (renderJson (.obj [("user", .obj [("token", .str "secret")])]))
      ∧ feedDetailScript renderJson
          (.obj [("note", .obj [("noteDetailMap", .obj [("f1", .obj [
            ("note", .obj [("tagList", .arr [.obj [("deep", .obj [("x", .num 1)])]])])])])])])
        = some (renderJson (.obj [("note", .obj [("noteDetailMap", .obj [("f1", .obj [
            ("note", .obj [("id", .str ""), ("title", .str ""), ("desc", .str ""),
              ("type", .str ""), ("time", .num 0), ("lastUpdateTime", .num 0),
              ("user", .obj []), ("images", .arr []), ("video", .null),
              ("interactInfo", .obj []),
              ("tagList", .arr [.obj [("deep", .obj [("x", .num 1)])]])]),
            ("comments", .obj [("comments", .arr [])])])])])])) :=
  ⟨by rfl, by rfl⟩

/-- A note whose `title` is a function: the script copies the function, which is truthy, and
`JSON.stringify` writes the note without the member `title`. -/
theorem feedDetailScript_function_title :
    feedDetailScript renderJson
        (.obj [("note", .obj [("noteDetailMap", .obj [("f1", .obj [
          ("note", .obj [("id", .str "f1"), ("title", .func)])])])])])
      = some (renderJson (.obj [("note", .obj [("noteDetailMap", .obj [("f1", .obj [
          ("note", .obj [("id", .str "f1"), ("desc", .str ""),
            ("type", .str ""), ("time", .num 0), ("lastUpdateTime", .num 0),
            ("user", .obj []), ("images", .arr []), ("video", .null),
            ("interactInfo", .obj []), ("tagList", .arr [])]),
          ("comments", .obj [("comments", .arr [])])])])])])) := by
  rfl

/-- C12 (amended): when `state.note` is truthy the feed-detail script returns the empty
string or the text of `{ note: { noteDetailMap: ... } }`, in which every entry is the JSON
form of an object built with exactly the allow-listed names, a note and a comment list; as
`JSON.stringify` leaves out a member whose value has no JSON form, the names written for a
note and for a comment are allow-listed names only, in the order of the schema and none
twice. When `state.note` is falsy the script returns what `JSON.stringify` makes of the
whole state. -/
theorem feedDetail_schema (stringify : Json → String) (state : JSVal)
    (hs : state.truthy = true) :
    ((state.prop "note").truthy = true →
        ∃ r, feedDetailScript stringify state = some r
          ∧ (r = "" ∨ ∃ entries,
              r = stringify (.obj [("note", .obj [("noteDetailMap", .obj entries)])])
                ∧ ∀ e ∈ entries, EntryShape e.2
                  ∧ ∃ v, JSEntryShape v ∧ jsonOf v = .ok (some e.2)))
      ∧ ((state.prop "note").truthy = false →
          feedDetailScript stringify state
            = match jsonOf state with
              | .error _ => some ""
              | .ok none => none
              | .ok (some j) => some (stringify j)) := by
  refine ⟨fun hn => ?_, fun hn => ?_⟩
  · simp only [feedDetailScript, feedDetailScriptBody, hs, Bool.not_true, Bool.false_eq_true,
      if_false, safeExtractNoteData_of_note state hs hn]
    cases hm : (if ((state.prop "note").prop "noteDetailMap").truthy = true
        then extractEntries ((state.prop "note").prop "noteDetailMap").entries []
        else Except.ok []) with
    | error e => exact ⟨"", rfl, Or.inl rfl⟩
    | ok m =>
      have hshape : ∀ p ∈ m, JSEntryShape p.2 := by
        split at hm
        · exact extractEntries_forall JSEntryShape entryOf_shape _ [] m hm (by simp)
        · simp only [Except.ok.injEq] at hm
          subst hm
          simp
      simp only [stringifyObject_noteData]
      cases hms : jsonOfMembers m with
      | error e => exact ⟨"", rfl, Or.inl rfl⟩
      | ok ms =>
        refine ⟨_, rfl, Or.inr ⟨ms, rfl, ?_⟩⟩
        intro e he
        obtain ⟨v, hv, hj⟩ := jsonOfMembers_mem m ms hms e he
        exact ⟨jsonOf_entryShape v e.2 (hshape (e.1, v) hv) hj, v, hshape (e.1, v) hv, hj⟩
  · have hx : safeExtractNoteData state = .ok none := by
      simp [safeExtractNoteData, hs, get_of_truthy state _ hs, hn]
    simp only [feedDetailScript, feedDetailScriptBody, hs, Bool.not_true, Bool.false_eq_true,
      if_false, hx, jsonStringify]
    cases hj : jsonOf state with
    | error e => rfl
    | ok oj => cases oj <;> rfl

theorem feedDetail_schema_witness :
    (JSVal.obj [("user", .obj [("token", .str "secret")])]).truthy = true
      ∧ ((JSVal.obj [("user", .obj [("token", .str "secret")])]).prop "note").truthy = false
      ∧ feedDetailScript renderJson (.obj [("user", .obj [("token", .str "secret")])])
        = (match jsonOf (.obj [("user", .obj [("token", .str "secret")])]) with
          | .error _ => some ""
          | .ok none => none
          | .ok (some j) => some (renderJson j))
      ∧ ∃ r, feedDetailScript renderJson
            (.obj [("note", .obj [("noteDetailMap", .obj [("f1", .obj [
              ("note", .obj [("id", .str "f1")])])])])])
          = some r
        ∧ (r = "" ∨ ∃ entries,
            r = renderJson (.obj [("note", .obj [("noteDetailMap", .obj entries)])])
              ∧ ∀ e ∈ entries, EntryShape e.2
                ∧ ∃ v, JSEntryShape v ∧ jsonOf v = .ok (some e.2)) :=
  ⟨rfl, rfl,
    (feedDetail_schema renderJson (.obj [("user", .obj [("token", .str "secret")])]) rfl).2 rfl,
    (feedDetail_schema renderJson
      (.obj [("note", .obj [("noteDetailMap", .obj [("f1", .obj [
        ("note", .obj [("id", .str "f1")])])])])]) rfl).1 rfl⟩

theorem space_renderJson_ne_empty (j : Json) : " " ++ renderJson j ≠ "" := by
  intro h
  have := congrArg String.data h
  simp [String.data_append] at this

theorem getFeedDetail_deterministic_witness :
    FeedDetailAction.GetFeedDetail renderJson parseJson goRaw goRaw "undefined"
        (.obj [("note", .obj [("noteDetailMap", .obj [("f1", .obj [
          ("note", .obj [("id", .str "f1")])])])])]) "f1"
      = FeedDetailAction.GetFeedDetail (fun j => " " ++ renderJson j) parseJson goRaw goRaw
          "undefined"
          (.obj [("note", .obj [("noteDetailMap", .obj [("f1", .obj [
            ("note", .obj [("id", .str "f1")])])])])]) "f1" :=
  getFeedDetail_deterministic parseJson renderJson (fun j => " " ++ renderJson j)
    parseJson_renderJson renderJson_ne_empty parseJson_space_renderJson
    space_renderJson_ne_empty goRaw goRaw "undefined" _ "f1"

/-! ### Comments: from the page state to the returned detail -/

section Comments

variable {U : Type}

theorem decodeMembers_comment_cons_id (u : GoType U) (v : Json)
    (ms : List (String × Json)) (st : CommentOf U) :
    decodeMembers (commentFields u) (("id", v) :: ms) st
      = match goString.decode v st.ID with
        | .error e => .error e
        | .ok x => decodeMembers (commentFields u) ms { st with ID := x } := by
  rw [decodeMembers]
  have : findField (commentFields u) "id" = (commentFields u)[0]? := by
    simp +decide [findField, commentFields, List.find?]
  rw [this]
  simp only [commentFields, List.getElem?_cons_succ, List.getElem?_cons_zero]
  cases goString.decode v st.ID <;> rfl

theorem decodeMembers_comment_cons_content (u : GoType U) (v : Json)
    (ms : List (String × Json)) (st : CommentOf U) :
    decodeMembers (commentFields u) (("content", v) :: ms) st
      = match goString.decode v st.Content with
        | .error e => .error e
        | .ok x => decodeMembers (commentFields u) ms { st with Content := x } := by
  rw [decodeMembers]
  have : findField (commentFields u) "content" = (commentFields u)[1]? := by
    simp +decide [findField, commentFields, List.find?]
  rw [this]
  simp only [commentFields, List.getElem?_cons_succ, List.getElem?_cons_zero]
  cases goString.decode v st.Content <;> rfl

theorem decodeMembers_comment_cons_user (u : GoType U) (v : Json)
    (ms : List (String × Json)) (st : CommentOf U) :
    decodeMembers (commentFields u) (("user", v) :: ms) st
      = match u.decode v st.User with
        | .error e => .error e
        | .ok x => decodeMembers (commentFields u) ms { st with User := x } := by
  rw [decodeMembers]
  have : findField (commentFields u) "user" = (commentFields u)[2]? := by
    simp +decide [findField, commentFields, List.find?]
  rw [this]
  simp only [commentFields, List.getElem?_cons_succ, List.getElem?_cons_zero]
  cases u.decode v st.User <;> rfl

theorem decodeMembers_comment_cons_time (u : GoType U) (v : Json)
    (ms : List (String × Json)) (st : CommentOf U) :
    decodeMembers (commentFields u) (("time", v) :: ms) st
      = match goInt.decode v st.Time with
        | .error e => .error e
        | .ok x => decodeMembers (commentFields u) ms { st with Time := x } := by
  rw [decodeMembers]
  have : findField (commentFields u) "time" = (commentFields u)[3]? := by
    simp +decide [findField, commentFields, List.find?]
  rw [this]
  simp only [commentFields, List.getElem?_cons_succ, List.getElem?_cons_zero]
  cases goInt.decode v st.Time <;> rfl

theorem decodeMembers_comment_cons_liked (u : GoType U) (v : Json)
    (ms : List (String × Json)) (st : CommentOf U) :
    decodeMembers (commentFields u) (("liked", v) :: ms) st
      = match goBool.decode v st.Liked with
        | .error e => .error e
        | .ok x => decodeMembers (commentFields u) ms { st with Liked := x } := by
  rw [decodeMembers]
  have : findField (commentFields u) "liked" = (commentFields u)[4]? := by
    simp +decide [findField, commentFields, List.find?]
  rw [this]
  simp only [commentFields, List.getElem?_cons_succ, List.getElem?_cons_zero]
  cases goBool.decode v st.Liked <;> rfl

theorem decodeMembers_comment_cons_likedCount (u : GoType U) (v : Json)
    (ms : List (String × Json)) (st : CommentOf U) :
    decodeMembers (commentFields u) (("likedCount", v) :: ms) st
      = match goInt.decode v st.LikedCount with
        | .error e => .error e
        | .ok x => decodeMembers (commentFields u) ms { st with LikedCount := x } := by
  rw [decodeMembers]
  have : findField (commentFields u) "likedCount" = (commentFields u)[5]? := by
    simp +decide [findField, commentFields, List.find?]
  rw [this]
  simp only [commentFields, List.getElem?_cons_succ, List.getElem?_cons_zero]
  cases goInt.decode v st.LikedCount <;> rfl

/-- Members other than `id` and `content` leave both fields as they are. -/
theorem decodeMembers_comment_rest (u : GoType U) (ms : List (String × Json))
    (st st1 : CommentOf U) (h : decodeMembers (commentFields u) ms st = .ok st1)
    (hk : ∀ p ∈ ms, p.1 ∈ ["user", "time", "liked", "likedCount"]) :
    st1.ID = st.ID ∧ st1.Content = st.Content := by
  induction ms generalizing st with
  | nil =>
    simp only [decodeMembers, Except.ok.injEq] at h
    rw [h]
    exact ⟨rfl, rfl⟩
  | cons p ms ih =>
    obtain ⟨k, v⟩ := p
    have hrest : ∀ q ∈ ms, q.1 ∈ ["user", "time", "liked", "likedCount"] :=
      fun q hq => hk q (List.mem_cons_of_mem _ hq)
    have hkey := hk (k, v) (List.mem_cons_self _ _)
    simp only [List.mem_cons, List.mem_singleton, List.not_mem_nil, or_false] at hkey
    rcases hkey with rfl | rfl | rfl | rfl
    · rw [decodeMembers_comment_cons_user] at h
      cases hd : u.decode v st.User with
      | error e => simp [hd] at h
      | ok x =>
        simp only [hd] at h
        have := ih _ h hrest
        simpa using this
    · rw [decodeMembers_comment_cons_time] at h
      cases hd : goInt.decode v st.Time with
      | error e => simp [hd] at h
      | ok x =>
        simp only [hd] at h
        have := ih _ h hrest
        simpa using this
    · rw [decodeMembers_comment_cons_liked] at h
      cases hd : goBool.decode v st.Liked with
      | error e => simp [hd] at h
      | ok x =>
        simp only [hd] at h
        have := ih _ h hrest
        simpa using this
    · rw [decodeMembers_comment_cons_likedCount] at h
      cases hd : goInt.decode v st.LikedCount with
      | error e => simp [hd] at h
      | ok x =>
        simp only [hd] at h
        have := ih _ h hrest
        simpa using this

theorem decodeMembers_comment_content (u : GoType U) (j2 : Option Json)
    (ms2 : List (String × Json)) (st f : CommentOf U)
    (hk : ∀ p ∈ ms2, p.1 ∈ ["user", "time", "liked", "likedCount"])
    (h : decodeMembers (commentFields u)
      (match j2 with
        | none => ms2
        | some j => ("content", j) :: ms2) st = .ok f) :
    f.ID = st.ID ∧ (∀ s, j2 = some (.str s) → f.Content = s) := by
  cases j2 with
  | none =>
    simp only at h
    exact ⟨(decodeMembers_comment_rest u ms2 st f h hk).1, fun s hs => by simp at hs⟩
  | some j =>
    simp only [decodeMembers_comment_cons_content] at h
    cases hd : goString.decode j st.Content with
    | error e => simp [hd] at h
    | ok x =>
      simp only [hd] at h
      have hrest := decodeMembers_comment_rest u ms2 _ f h hk
      refine ⟨by simpa using hrest.1, fun s hs => ?_⟩
      simp only [Option.some.injEq] at hs
      subst hs
      simp only [goString, Except.ok.injEq] at hd
      subst hd
      simpa using hrest.2

/-- One comment from the page state to the decoded `Comment`: the id and the content are
those of the source comment. -/
theorem comment_fields (u : GoType U) (c y : JSVal) (j : Option Json) (k : CommentOf U)
    (hy : commentOf c = .ok y) (hj : jsonOf y = .ok j)
    (hk : (commentType u).decode (j.getD .null) (commentType u).zero = .ok k) :
    (∀ s, c.prop "id" = .str s → k.ID = s)
      ∧ (∀ s, c.prop "content" = .str s → k.Content = s) := by
  obtain ⟨user, _, hr⟩ := commentOf_of_not_nullish c (commentOf_keys c y hy).1
  rw [hr] at hy
  have hy1 := (Except.ok.inj hy).symm
  subst hy1
  simp only [jsonOf] at hj
  cases hms : jsonOfMembers [("id", jsOr (c.prop "id") (.str "")),
      ("content", jsOr (c.prop "content") (.str "")), ("user", user),
      ("time", jsOr (c.prop "time") (.num 0)),
      ("liked", jsOr (c.prop "liked") (.bool false)),
      ("likedCount", jsOr (c.prop "likedCount") (.num 0))] with
  | error e => simp [hms] at hj
  | ok ms =>
    simp only [hms, Except.ok.injEq] at hj
    subst hj
    simp only [Option.getD_some, commentType, decodeStruct] at hk
    obtain ⟨j1, ms1, hj1, hms1, hms⟩ := jsonOfMembers_cons _ _ _ _ hms
    obtain ⟨j2, ms2, hj2, hms2, hms1⟩ := jsonOfMembers_cons _ _ _ _ hms1
    have hkeys := jsonOfMembers_keys _ _ hms2
    have hkeys2 : ∀ p ∈ ms2, p.1 ∈ ["user", "time", "liked", "likedCount"] := by
      intro p hp
      simpa using hkeys p hp
    have hcontent : ∀ s, c.prop "content" = .str s → j2 = some (.str s) := by
      intro s hs
      rw [hs, jsOr_str] at hj2
      simp only [jsonOf, Except.ok.injEq] at hj2
      exact hj2.symm
    subst hms hms1
    cases j1 with
    | none =>
      simp only at hk
      have h2 := decodeMembers_comment_content u j2 ms2 _ k hkeys2 hk
      refine ⟨fun s hs => ?_, fun s hs => h2.2 s (hcontent s hs)⟩
      rw [hs, jsOr_str] at hj1
      simp [jsonOf] at hj1
    | some ja =>
      simp only [decodeMembers_comment_cons_id] at hk
      split at hk
      · simp at hk
      · rename_i t hd
        have h2 := decodeMembers_comment_content u j2 ms2 _ k hkeys2 hk
        refine ⟨fun s hs => ?_, fun s hs => h2.2 s (hcontent s hs)⟩
        rw [hs, jsOr_str] at hj1
        simp only [jsonOf, Except.ok.injEq, Option.some.injEq] at hj1
        subst hj1
        simp only [goString, Except.ok.injEq] at hd
        subst hd
        simpa using h2.1

end Comments

theorem decodeMapMembers_inv {V : Type} (elem : GoType V) (ps : List (String × Json))
    (m m1 : GoMap V) (h : decodeMapMembers elem ps m = .ok m1) :
    ∀ p ∈ ps, ∃ x, elem.decode p.2 elem.zero = .ok x := by
  induction ps generalizing m with
  | nil => simp
  | cons q ps ih =>
    obtain ⟨k, v⟩ := q
    simp only [decodeMapMembers] at h
    cases hd : elem.decode v elem.zero with
    | error e => simp [hd] at h
    | ok x =>
      simp only [hd] at h
      intro p hp
      rcases List.mem_cons.mp hp with rfl | hp
      · exact ⟨x, hd⟩
      · exact ih _ h p hp

/-- The member that `JSON.stringify` writes for a property of an object with distinct
property names is the last one of its name. -/
theorem jsonOfMembers_split (ps : List (String × JSVal)) (ms : List (String × Json))
    (h : jsonOfMembers ps = .ok ms) (hnd : (ps.map Prod.fst).Nodup) (k : String) (v : JSVal)
    (j : Json) (hmem : (k, v) ∈ ps) (hj : jsonOf v = .ok (some j)) :
    ∃ pre post, ms = pre ++ (k, j) :: post ∧ ∀ p ∈ post, p.1 ≠ k := by
  induction ps generalizing ms with
  | nil => simp at hmem
  | cons q ps ih =>
    obtain ⟨k1, v1⟩ := q
    obtain ⟨jv, ms1, hv, hps, hms⟩ := jsonOfMembers_cons k1 v1 ps ms h
    simp only [List.map_cons, List.nodup_cons] at hnd
    rcases List.mem_cons.mp hmem with heq | hmem
    · simp only [Prod.mk.injEq] at heq
      obtain ⟨rfl, rfl⟩ := heq
      rw [hj] at hv
      simp only [Except.ok.injEq] at hv
      subst hv
      refine ⟨[], ms1, by simpa using hms, ?_⟩
      intro p hp hpk
      exact hnd.1 (hpk ▸ jsonOfMembers_keys ps ms1 hps p hp)
    · obtain ⟨pre, post, hsplit, hpost⟩ := ih ms1 hps hnd.2 hmem
      cases jv with
      | none => exact ⟨pre, post, by simpa [hsplit] using hms, hpost⟩
      | some j1 => exact ⟨(k1, j1) :: pre, post, by simpa [hsplit] using hms, hpost⟩

section Detail

variable {FD CL U : Type}

theorem decode_entry_comments (fd : GoType FD) (cl : GoType CL) (jn jc : Json)
    (x : NoteDetailEntry FD CL)
    (h : (noteDetailEntryType fd cl).decode (.obj [("note", jn), ("comments", jc)])
        (noteDetailEntryType fd cl).zero = .ok x) :
    cl.decode jc cl.zero = .ok x.Comments := by
  have h1 : ("note" == "comments") = false := by decide
  cases hn : fd.decode jn fd.zero with
  | error e =>
    simp [noteDetailEntryType, decodeStruct, decodeMembers, findField, List.find?, hn] at h
  | ok n =>
    cases hc : cl.decode jc cl.zero with
    | error e =>
      simp [noteDetailEntryType, decodeStruct, decodeMembers, findField, List.find?, hn, hc,
        h1] at h
    | ok c =>
      rw [decode_entry fd cl jn jc n c hn hc] at h
      simp only [Except.ok.injEq] at h
      rw [← h]

theorem decode_commentList (u : GoType U) (js : List Json) (c : CommentListOf U)
    (h : (commentListType u).decode (.obj [("comments", .arr js)]) (commentListType u).zero
      = .ok c) :
    decodeElems (commentType u) js [] = .ok c.Comments := by
  cases hd : decodeElems (commentType u) js [] with
  | error e =>
    simp [commentListType, decodeStruct, decodeMembers, findField, List.find?, decodeSlice,
      hd] at h
  | ok ks =>
    simp [commentListType, decodeStruct, decodeMembers, findField, List.find?, decodeSlice,
      hd] at h
    rw [← h]

end Detail

section Detail

variable {FD U : Type}

/-- The feed-detail script on a state whose `note.noteDetailMap` is an object. -/
theorem feedDetailScript_of_map (stringify : Json → String) (state : JSVal)
    (entries : List (String × JSVal))
    (hmap : (state.prop "note").prop "noteDetailMap" = .obj entries) :
    feedDetailScript stringify state
      = some (match extractEntries entries [] with
        | .error _ => ""
        | .ok m =>
          match jsonOfMembers m with
          | .error _ => ""
          | .ok ms => stringify (.obj [("note", .obj [("noteDetailMap", .obj ms)])])) := by
  have hn : (state.prop "note").truthy = true :=
    truthy_of_prop_ne_undefined _ "noteDetailMap" (by rw [hmap]; simp)
  have hs : state.truthy = true :=
    truthy_of_prop_ne_undefined _ "note" (by
      intro h0
      rw [h0] at hn
      simp [JSVal.truthy] at hn)
  have ht : (JSVal.obj entries).truthy = true := rfl
  simp only [feedDetailScript, feedDetailScriptBody, hs, Bool.not_true, Bool.false_eq_true,
    if_false, safeExtractNoteData_of_note state hs hn, hmap, ht, if_true, JSVal.entries]
  cases extractEntries entries [] with
  | error e => rfl
  | ok m =>
    simp only [stringifyObject_noteData]
    cases jsonOfMembers m <;> rfl

theorem commentsOf_of_array (dc : JSVal) (xs : List JSVal) (hdc : dc.truthy = true)
    (hxs : dc.prop "comments" = .arr xs) :
    commentsOf dc = match mapArr commentOf xs with
      | .error e => .error e
      | .ok ys => .ok (.obj [("comments", .arr ys)]) := by
  cases hm : mapArr commentOf xs <;>
    simp only [commentsOf, hdc, if_true, get_of_truthy dc _ hdc, hxs, hm]

theorem jsonOfMembers_ok_of_mem (ps : List (String × JSVal)) (ms : List (String × Json))
    (h : jsonOfMembers ps = .ok ms) : ∀ p ∈ ps, ∃ oj, jsonOf p.2 = .ok oj := by
  induction ps generalizing ms with
  | nil => simp
  | cons q ps ih =>
    obtain ⟨k, v⟩ := q
    obtain ⟨jv, ms1, hv, hps, _⟩ := jsonOfMembers_cons k v ps ms h
    intro p hp
    rcases List.mem_cons.mp hp with rfl | hp
    · exact ⟨jv, hv⟩
    · exact ih ms1 hps p hp

theorem jsonOf_entry (note : JSVal) (ys : List JSVal) (oj : Option Json)
    (hnote : JSHasKeys noteKeys note)
    (h : jsonOf (.obj [("note", note), ("comments", .obj [("comments", .arr ys)])]) = .ok oj) :
    ∃ jn js, jsonOfElems ys = .ok js
      ∧ oj = some (.obj [("note", jn), ("comments", .obj [("comments", .arr js)])]) := by
  simp only [jsonOf, jsonOfMembers] at h
  cases hjn : jsonOf note with
  | error e => simp [hjn] at h
  | ok ojn =>
    obtain ⟨jn, rfl, _⟩ := jsonOf_hasKeys noteKeys note ojn hnote hjn
    cases hjs : jsonOfElems ys with
    | error e => simp [hjn, hjs] at h
    | ok js =>
      simp only [hjn, hjs, Except.ok.injEq] at h
      exact ⟨jn, js, rfl, h.symm⟩

/-- The object built by the loop has no own property `__proto__`. -/
theorem extractEntries_no_proto (entries acc out : List (String × JSVal))
    (h : extractEntries entries acc = .ok out) (hacc : ∀ p ∈ acc, p.1 ≠ "__proto__") :
    ∀ p ∈ out, p.1 ≠ "__proto__" := by
  induction entries generalizing acc with
  | nil =>
    simp only [extractEntries, Except.ok.injEq] at h
    subst h
    exact hacc
  | cons q entries ih =>
    obtain ⟨key, detail⟩ := q
    rw [extractEntries_cons] at h
    split at h
    · cases he : entryOf detail with
      | error e => simp [he] at h
      | ok entry =>
        simp only [he] at h
        refine ih _ h ?_
        simp only [setOwn]
        split
        · exact hacc
        · rename_i hkey
          intro p hp
          rcases GoMap.mem_set _ _ _ p hp with rfl | hp
          · exact hkey
          · exact hacc p hp
    · exact ih _ h hacc

/-- C14: the comments of the returned detail are those of the source comment list, one for
one and in the same order, each with the id and the content of its source comment. -/
theorem getFeedDetail_comments (stringify : Json → String)
    (parse : String → Except GoError Json) (hrt : ∀ j, parse (stringify j) = .ok j)
    (hne : ∀ j, stringify j ≠ "") (fd : GoType FD) (u : GoType U) (undefinedText : String)
    (state : JSVal) (feedID : String) (pre post : List (String × JSVal)) (detail : JSVal)
    (cs : List JSVal) (resp : FeedDetailResponse FD (CommentListOf U))
    (hmap : (state.prop "note").prop "noteDetailMap" = .obj (pre ++ (feedID, detail) :: post))
    (hpost : ∀ p ∈ post, p.1 ≠ feedID)
    (hnote : (detail.prop "note").truthy = true)
    (hcs : (detail.prop "comments").prop "comments" = .arr cs)
    (h : FeedDetailAction.GetFeedDetail stringify parse fd (commentListType u) undefinedText
      state feedID = .ok resp) :
    List.Forall₂
      (fun c k => (∀ s, c.prop "id" = .str s → k.ID = s)
        ∧ (∀ s, c.prop "content" = .str s → k.Content = s))
      cs resp.Comments.Comments := by
  have hd : detail.truthy = true :=
    truthy_of_prop_ne_undefined _ "note" (by
      intro h0
      rw [h0] at hnote
      simp [JSVal.truthy] at hnote)
  have hdc : (detail.prop "comments").truthy = true :=
    truthy_of_prop_ne_undefined _ "comments" (by rw [hcs]; simp)
  simp only [FeedDetailAction.GetFeedDetail, feedDetailScript_of_map stringify state _ hmap]
    at h
  cases hm : extractEntries (pre ++ (feedID, detail) :: post) [] with
  | error e => simp [hm, FeedDetailAction.mapResult, sprintf] at h
  | ok m =>
    simp only [hm] at h
    cases hms : jsonOfMembers m with
    | error e => simp [hms, FeedDetailAction.mapResult, sprintf] at h
    | ok ms =>
      simp only [hms, mapResult_of_document stringify parse hrt hne, decode_noteDocument] at h
      cases hgm : decodeMapMembers (noteDetailEntryType fd (commentListType u)) ms [] with
      | error e => simp [hgm] at h
      | ok gm =>
        simp only [hgm] at h
        cases hget : GoMap.get gm feedID with
        | none => simp [hget] at h
        | some nd =>
          simp only [hget, Except.ok.injEq] at h
          subst h
          show List.Forall₂ _ cs nd.Comments.Comments
          have hk : feedID ≠ "__proto__" := by
            intro hk
            have hnone : GoMap.get gm feedID = GoMap.get [] feedID :=
              decodeMapMembers_get_of_absent _ ms feedID (fun p hp hpk => by
                obtain ⟨q, hq, hqp⟩ := List.mem_map.mp (jsonOfMembers_keys m ms hms p hp)
                exact extractEntries_no_proto _ [] m hm (by simp) q hq
                  (hqp.trans (hpk.trans hk))) [] gm hgm
            rw [hget] at hnone
            simp [GoMap.get] at hnone
          obtain ⟨e, he, hme⟩ := extractEntries_get pre post [] m feedID detail hk hd hnote
            hpost hm
          obtain ⟨note, comments, hnoteOf, hcomments, rfl⟩ := entryOf_eq detail e hd he
          rw [commentsOf_of_array _ cs hdc hcs] at hcomments
          cases hys : mapArr commentOf cs with
          | error e => simp [hys] at hcomments
          | ok ys =>
            simp only [hys, Except.ok.injEq] at hcomments
            subst hcomments
            have hmem := GoMap.mem_of_get m feedID _ hme
            obtain ⟨oj, hoj⟩ := jsonOfMembers_ok_of_mem m ms hms _ hmem
            obtain ⟨jn, js, hjs, rfl⟩ := jsonOf_entry note ys oj
              (noteOf_keys _ _ hnote hnoteOf) hoj
            obtain ⟨pre1, post1, hsplit, hpost1⟩ := jsonOfMembers_split m ms hms
              (extractEntries_nodup _ [] m hm (by simp)) feedID _ _ hmem hoj
            subst hsplit
            obtain ⟨x, hx⟩ := decodeMapMembers_inv _ _ [] gm hgm (feedID, _)
              (List.mem_append_right _ (List.mem_cons_self _ _))
            have hgx := decodeMapMembers_get_last _ pre1 post1 feedID _ x hpost1 hx [] gm hgm
            rw [hget] at hgx
            simp only [Option.some.injEq] at hgx
            subst hgx
            have hks := decode_commentList u js _ (decode_entry_comments fd _ jn _ nd hx)
            have hall := forall₂_comp (forall₂_comp (mapArr_forall₂ _ _ _ hys)
              (jsonOfElems_forall₂ ys js hjs)) (decodeElems_forall₂ _ js _ hks)
            refine hall.imp ?_
            rintro c k ⟨e, ⟨y, hy, oj, hoj, rfl⟩, hk⟩
            exact comment_fields u c y oj k hy hoj hk

end Detail

set_option maxRecDepth 20000

theorem getFeedDetail_comments_witness :
    FeedDetailAction.GetFeedDetail renderJson parseJson goRaw (commentListType goRaw)
        "undefined"
        (.obj [("note", .obj [("noteDetailMap", .obj [("f1", .obj [
          ("note", .obj [("id", .str "f1")]),
          ("comments", .obj [("comments", .arr [
            .obj [("id", .str "c1"), ("content", .str "first")],
            .obj [("id", .str "c2"), ("content", .str "second")]])])])])])]) "f1"
        = .ok { Note := .obj [("id", .str "f1"), ("title", .str ""), ("desc", .str ""),
                  ("type", .str ""), ("time", .num 0), ("lastUpdateTime", .num 0),
                  ("user", .obj []), ("images", .arr []), ("video", .null),
                  ("interactInfo", .obj []), ("tagList", .arr [])],
                Comments := { Comments := [
                  { ID := "c1", Content := "first", User := .obj [], Time := 0, Liked := false, LikedCount := 0 },
                  { ID := "c2", Content := "second", User := .obj [], Time := 0, Liked := false, LikedCount := 0 }] } }
      ∧ List.Forall₂
        (fun c (k : CommentOf Json) => (∀ s, c.prop "id" = .str s → k.ID = s)
          ∧ (∀ s, c.prop "content" = .str s → k.Content = s))
        [JSVal.obj [("id", .str "c1"), ("content", .str "first")],
          .obj [("id", .str "c2"), ("content", .str "second")]]
        [{ ID := "c1", Content := "first", User := .obj [], Time := 0, Liked := false, LikedCount := 0 },
          { ID := "c2", Content := "second", User := .obj [], Time := 0, Liked := false, LikedCount := 0 }] :=
  ⟨by rfl, getFeedDetail_comments renderJson parseJson parseJson_renderJson
    renderJson_ne_empty goRaw goRaw "undefined"
    (.obj [("note", .obj [("noteDetailMap", .obj [("f1", .obj [
      ("note", .obj [("id", .str "f1")]),
      ("comments", .obj [("comments", .arr [
        .obj [("id", .str "c1"), ("content", .str "first")],
        .obj [("id", .str "c2"), ("content", .str "second")]])])])])])]) "f1" [] []
    (.obj [("note", .obj [("id", .str "f1")]),
      ("comments", .obj [("comments", .arr [
        .obj [("id", .str "c1"), ("content", .str "first")],
        .obj [("id", .str "c2"), ("content", .str "second")]])])])
    [.obj [("id", .str "c1"), ("content", .str "first")],
      .obj [("id", .str "c2"), ("content", .str "second")]] _
    (by rfl) (by simp) (by rfl) (by rfl) (by rfl)⟩







/-! ### The service operations -/

theorem sprintf_panic (r : String) :
    sprintf "操作失败，发生内部错误: %v" [r] = "操作失败，发生内部错误: " ++ r := by
  apply String.ext
  simp [sprintf, sprintfChars, String.data_append]

theorem sprintf_titleWidth : sprintf "标题长度超过限制" [] = "标题长度超过限制" := by
  decide

/-- C16: on a feed that is already liked `Like` returns success after the navigation and
the inspection alone, and `LikeFeed` reports success for the same feed id; the same holds
for `Unlike` on a feed that is not liked, `Favorite` on a favorited feed and `Unfavorite`
on a feed that is not favorited. No trace has an interaction with the page. -/
theorem like_idempotent (clicked verified : Option GoError) (feedID : String) :
    (XiaohongshuService.LikeFeed (.ret ()) (.ret ())
          (LikeAction.Like none .liked clicked verified) feedID
        = { outcome := .ret (some { FeedID := feedID, Success := true, Message := "点赞成功或已点赞" }, none),
            trace := [.newBrowser, .newPage, .page .navigate, .page .inspect, .pageClose,
              .browserClose] })
      ∧ (XiaohongshuService.UnlikeFeed (.ret ()) (.ret ())
          (LikeAction.Unlike none .unliked clicked verified) feedID
        = { outcome := .ret (some { FeedID := feedID, Success := true, Message := "取消点赞成功或未点赞" }, none),
            trace := [.newBrowser, .newPage, .page .navigate, .page .inspect, .pageClose,
              .browserClose] })
      ∧ (XiaohongshuService.FavoriteFeed (.ret ()) (.ret ())
          (FavoriteAction.Favorite none .favorited clicked verified) feedID
        = { outcome := .ret (some { FeedID := feedID, Success := true, Message := "收藏成功或已收藏" }, none),
            trace := [.newBrowser, .newPage, .page .navigate, .page .inspect, .pageClose,
              .browserClose] })
      ∧ (XiaohongshuService.UnfavoriteFeed (.ret ()) (.ret ())
          (FavoriteAction.Unfavorite none .unfavorited clicked verified) feedID
        = { outcome := .ret (some { FeedID := feedID, Success := true, Message := "取消收藏成功或未收藏" }, none),
            trace := [.newBrowser, .newPage, .page .navigate, .page .inspect, .pageClose,
              .browserClose] }) :=
  ⟨rfl, rfl, rfl, rfl⟩

/-- C18: `panicRecoveryWrapperWithResult` returns what `fn` returns, and for a panic of
`fn` with the value `r` it returns the zero value and an error whose message ends with the
text of `r`; `panicRecoveryWrapper` does the same for a function with the result `err`
alone. -/
theorem panicRecovery_result {T : Type} (zero : T) (tr : List Event) :
    (∀ (v : T) (e : Option GoError),
        panicRecoveryWrapperWithResult zero { outcome := .ret (v, e), trace := tr }
          = { outcome := .ret (v, e), trace := tr })
      ∧ (∀ r : String,
        panicRecoveryWrapperWithResult zero { outcome := .panic r, trace := tr }
          = { outcome := .ret (zero, some ("操作失败，发生内部错误: " ++ r)), trace := tr })
      ∧ (∀ e : Option GoError,
        panicRecoveryWrapper { outcome := .ret e, trace := tr }
          = { outcome := .ret e, trace := tr })
      ∧ (∀ r : String,
        panicRecoveryWrapper { outcome := .panic r, trace := tr }
          = { outcome := .ret (some ("操作失败，发生内部错误: " ++ r)), trace := tr }) := by
  refine ⟨fun v e => rfl, fun r => ?_, fun e => rfl, fun r => ?_⟩
  · simp only [panicRecoveryWrapperWithResult, sprintf_panic]
  · simp only [panicRecoveryWrapper, sprintf_panic]

theorem sprintf_noVideo : sprintf "必须提供本地视频文件" [] = "必须提供本地视频文件" := by
  decide

/-- C17: a title wider than 40 units makes `PublishContent` and `PublishVideo` return the
error of the title check with nothing done; a title of at most 40 units passes the check:
`PublishContent` goes on to process the images, `PublishVideo` to check the video. -/
theorem publish_titleWidth (width : String → Nat) (stat : String → Option GoError)
    (processed : Outcome (Except GoError (List String))) (launched opened : Outcome Unit)
    (newAction publish : ActionRun (Option GoError)) (req : PublishRequest)
    (vreq : PublishVideoRequest) :
    (40 < width req.Title →
        XiaohongshuService.PublishContent width processed launched opened newAction publish req
          = { outcome := .ret (none, some "标题长度超过限制"), trace := [] })
      ∧ (40 < width vreq.Title →
        XiaohongshuService.PublishVideo width stat launched opened newAction publish vreq
          = { outcome := .ret (none, some "标题长度超过限制"), trace := [] })
      ∧ (width req.Title ≤ 40 →
        (XiaohongshuService.PublishContent width processed launched opened newAction publish
          req).trace.head? = some .processImages)
      ∧ (width vreq.Title ≤ 40 → vreq.Video = "" →
        XiaohongshuService.PublishVideo width stat launched opened newAction publish vreq
          = { outcome := .ret (none, some "必须提供本地视频文件"), trace := [] })
      ∧ (width vreq.Title ≤ 40 → vreq.Video ≠ "" →
        (XiaohongshuService.PublishVideo width stat launched opened newAction publish
          vreq).trace.head? = some (.stat vreq.Video)) := by
  refine ⟨fun h => ?_, fun h => ?_, fun h => ?_, fun h hv => ?_, fun h hv => ?_⟩
  · simp only [XiaohongshuService.PublishContent, gt_iff_lt, h, if_true, sprintf_titleWidth]
    rfl
  · simp only [XiaohongshuService.PublishVideo, gt_iff_lt, h, if_true, sprintf_titleWidth]
    rfl
  · have h1 : ¬ 40 < width req.Title := Nat.not_lt.mpr h
    simp only [XiaohongshuService.PublishContent, gt_iff_lt, h1, if_false]
    cases processed with
    | ret a =>
      simp only [panicRecoveryWrapperWithResult, Run.bind, XiaohongshuService.processImages]
      split <;> rfl
    | panic r => rfl
  · have h1 : ¬ 40 < width vreq.Title := Nat.not_lt.mpr h
    simp only [XiaohongshuService.PublishVideo, gt_iff_lt, h1, if_false, hv, if_true,
      sprintf_noVideo]
    rfl
  · have h1 : ¬ 40 < width vreq.Title := Nat.not_lt.mpr h
    simp only [XiaohongshuService.PublishVideo, gt_iff_lt, h1, if_false, hv]
    rfl

theorem publish_titleWidth_witness :
    unitStringWidth "标标标标标标标标标标标标标标标标标标标标" = 40
      ∧ (XiaohongshuService.PublishContent unitStringWidth (.ret (.ok [])) (.ret ()) (.ret ())
          { outcome := .ret none, events := [] } { outcome := .ret none, events := [] }
          { Title := "标标标标标标标标标标标标标标标标标标标标", Content := "", Images := [], Tags := [], AccessToken := "" }).trace.head?
        = some .processImages
      ∧ unitStringWidth "标标标标标标标标标标标标标标标标标标标标a" = 41
      ∧ XiaohongshuService.PublishContent unitStringWidth (.ret (.ok [])) (.ret ()) (.ret ())
          { outcome := .ret none, events := [] } { outcome := .ret none, events := [] }
          { Title := "标标标标标标标标标标标标标标标标标标标标a", Content := "", Images := [], Tags := [], AccessToken := "" }
        = { outcome := .ret (none, some "标题长度超过限制"), trace := [] }
      ∧ (XiaohongshuService.PublishVideo unitStringWidth (fun _ => none) (.ret ()) (.ret ())
          { outcome := .ret none, events := [] } { outcome := .ret none, events := [] }
          { Title := "标标标标标标标标标标标标标标标标标标标标", Content := "", Video := "a.mp4", Tags := [] }).trace.head?
        = some (.stat "a.mp4")
      ∧ XiaohongshuService.PublishVideo unitStringWidth (fun _ => none) (.ret ()) (.ret ())
          { outcome := .ret none, events := [] } { outcome := .ret none, events := [] }
          { Title := "标标标标标标标标标标标标标标标标标标标标a", Content := "", Video := "a.mp4", Tags := [] }
        = { outcome := .ret (none, some "标题长度超过限制"), trace := [] }
      ∧ XiaohongshuService.PublishVideo unitStringWidth (fun _ => none) (.ret ()) (.ret ())
          { outcome := .ret none, events := [] } { outcome := .ret none, events := [] }
          { Title := "标标标标标标标标标标标标标标标标标标标标", Content := "", Video := "", Tags := [] }
        = { outcome := .ret (none, some "必须提供本地视频文件"), trace := [] } :=
  ⟨by decide,
    (publish_titleWidth unitStringWidth (fun _ => none) (.ret (.ok [])) (.ret ()) (.ret ())
      { outcome := .ret none, events := [] } { outcome := .ret none, events := [] }
      { Title := "标标标标标标标标标标标标标标标标标标标标", Content := "", Images := [], Tags := [], AccessToken := "" }
      { Title := "", Content := "", Video := "", Tags := [] }).2.2.1 (by decide),
    by decide,
    (publish_titleWidth unitStringWidth (fun _ => none) (.ret (.ok [])) (.ret ()) (.ret ())
      { outcome := .ret none, events := [] } { outcome := .ret none, events := [] }
      { Title := "标标标标标标标标标标标标标标标标标标标标a", Content := "", Images := [], Tags := [], AccessToken := "" }
      { Title := "", Content := "", Video := "", Tags := [] }).1 (by decide),
    (publish_titleWidth unitStringWidth (fun _ => none) (.ret (.ok [])) (.ret ()) (.ret ())
      { outcome := .ret none, events := [] } { outcome := .ret none, events := [] }
      { Title := "", Content := "", Images := [], Tags := [], AccessToken := "" }
      { Title := "标标标标标标标标标标标标标标标标标标标标", Content := "", Video := "a.mp4", Tags := [] }).2.2.2.2
      (by decide) (by decide),
    (publish_titleWidth unitStringWidth (fun _ => none) (.ret (.ok [])) (.ret ()) (.ret ())
      { outcome := .ret none, events := [] } { outcome := .ret none, events := [] }
      { Title := "", Content := "", Images := [], Tags := [], AccessToken := "" }
      { Title := "标标标标标标标标标标标标标标标标标标标标a", Content := "", Video := "a.mp4", Tags := [] }).2.1
      (by decide),
    (publish_titleWidth unitStringWidth (fun _ => none) (.ret (.ok [])) (.ret ()) (.ret ())
      { outcome := .ret none, events := [] } { outcome := .ret none, events := [] }
      { Title := "", Content := "", Images := [], Tags := [], AccessToken := "" }
      { Title := "标标标标标标标标标标标标标标标标标标标标", Content := "", Video := "", Tags := [] }).2.2.2.1
      (by decide) rfl⟩



/-- C19: a panic of the action leaves `ListFeeds`, `UserProfile`, `PostCommentToFeed`,
`LikeFeed`, `UnlikeFeed`, `FavoriteFeed` and `UnfavoriteFeed` as a panic; `GetFeedDetail`
returns neither a response nor an error for it; `SearchFeeds` returns it as an error. -/
theorem service_panic_escapes {Feed D B I F : Type} (r : String) (evs : List PageEvent)
    (feedID : String) :
    (@XiaohongshuService.ListFeeds Feed (.ret ()) (.ret ())
        { outcome := .panic r, events := evs }).outcome = .panic r
      ∧ (@XiaohongshuService.UserProfile B I F (.ret ()) (.ret ())
        { outcome := .panic r, events := evs }).outcome = .panic r
      ∧ (XiaohongshuService.PostCommentToFeed (.ret ()) (.ret ())
        { outcome := .panic r, events := evs } feedID).outcome = .panic r
      ∧ (XiaohongshuService.LikeFeed (.ret ()) (.ret ())
        { outcome := .panic r, events := evs } feedID).outcome = .panic r
      ∧ (XiaohongshuService.UnlikeFeed (.ret ()) (.ret ())
        { outcome := .panic r, events := evs } feedID).outcome = .panic r
      ∧ (XiaohongshuService.FavoriteFeed (.ret ()) (.ret ())
        { outcome := .panic r, events := evs } feedID).outcome = .panic r
      ∧ (XiaohongshuService.UnfavoriteFeed (.ret ()) (.ret ())
        { outcome := .panic r, events := evs } feedID).outcome = .panic r
      ∧ (@XiaohongshuService.GetFeedDetail D (.ret ()) (.ret ())
        { outcome := .panic r, events := evs } feedID).outcome = .ret (none, none)
      ∧ (@XiaohongshuService.SearchFeeds Feed (.ret ()) (.ret ())
        { outcome := .panic r, events := evs }).outcome
          = .ret (none, some ("操作失败，发生内部错误: " ++ r)) := by
  refine ⟨rfl, rfl, rfl, rfl, rfl, rfl, rfl, rfl, ?_⟩
  rw [← sprintf_panic]
  rfl

/-! ### The page and the browser at the end of an operation -/

theorem pageOpen_append (xs ys : List Event) (h : pageOpen xs = false) :
    pageOpen (xs ++ ys) = pageOpen ys := by
  simp only [pageOpen, List.foldl_append] at h ⊢
  rw [h]

theorem browserOpen_append (xs ys : List Event) (h : browserOpen xs = false) :
    browserOpen (xs ++ ys) = browserOpen ys := by
  simp only [browserOpen, List.foldl_append] at h ⊢
  rw [h]

theorem handlesClosed_iff (tr : List Event) :
    handlesClosed tr = true ↔ pageOpen tr = false ∧ browserOpen tr = false := by
  simp [handlesClosed]

theorem handlesClosed_append (xs ys : List Event) (hx : handlesClosed xs = true)
    (hy : handlesClosed ys = true) : handlesClosed (xs ++ ys) = true := by
  rw [handlesClosed_iff] at hx hy ⊢
  rw [pageOpen_append xs ys hx.1, browserOpen_append xs ys hx.2]
  exact hy

/-- Whatever happened before, the page and the browser are closed after both closes. -/
theorem handlesClosed_closers (xs : List Event) :
    handlesClosed (xs ++ [.pageClose, .browserClose]) = true := by
  simp [handlesClosed, pageOpen, browserOpen, List.foldl_append]

theorem pageOpen_pages (evs : List PageEvent) : pageOpen (evs.map Event.page) = false := by
  induction evs with
  | nil => rfl
  | cons e evs ih => exact ih

theorem browserOpen_pages (evs : List PageEvent) :
    browserOpen (evs.map Event.page) = false := by
  induction evs with
  | nil => rfl
  | cons e evs ih => exact ih

theorem pageOpen_after (evs : List PageEvent) (ys : List Event) :
    pageOpen (.newBrowser :: .newPage :: (evs.map Event.page ++ ys))
      = pageOpen (.newPage :: ys) := by
  induction evs with
  | nil => rfl
  | cons e evs ih => exact ih

theorem browserOpen_after (evs : List PageEvent) (ys : List Event) :
    browserOpen (.newBrowser :: .newPage :: (evs.map Event.page ++ ys))
      = browserOpen (.newBrowser :: ys) := by
  induction evs with
  | nil => rfl
  | cons e evs ih => exact ih

theorem handlesClosed_pages (evs : List PageEvent) :
    handlesClosed (evs.map Event.page) = true := by
  rw [handlesClosed_iff]
  exact ⟨pageOpen_pages evs, browserOpen_pages evs⟩

theorem bind_closed {α β : Type} (x : Run α) (f : α → Run β)
    (hx : handlesClosed x.trace = true) (hf : ∀ a, handlesClosed (f a).trace = true) :
    handlesClosed (x.bind f).trace = true := by
  unfold Run.bind
  split
  · exact hx
  · exact handlesClosed_append _ _ hx (hf _)

theorem withPage_closed {α : Type} (launched opened : Outcome Unit) (body : Run α) :
    handlesClosed (withPage launched opened body).trace = true := by
  cases launched with
  | panic r => rfl
  | ret u =>
    cases opened with
    | panic r => rfl
    | ret v =>
      have h : (withPage (.ret u) (.ret v) body).trace
          = ([.newBrowser, .newPage] ++ body.trace) ++ [.pageClose, .browserClose] := by
        simp [withPage, newBrowser, NewPage, Run.bind, Run.defer, Run.emit]
      rw [h]
      exact handlesClosed_closers _

theorem wrapper_trace {T : Type} (zero : T) (fn : Run (T × Option GoError)) :
    (panicRecoveryWrapperWithResult zero fn).trace = fn.trace := by
  unfold panicRecoveryWrapperWithResult
  split <;> rfl

theorem deferRecover_trace {α : Type} (zero : α) (deferred : List Event) (body : Run α) :
    (Run.deferRecover zero deferred body).trace = body.trace ++ deferred := by
  unfold Run.deferRecover
  split <;> rfl

theorem loginWaiter_trace (wait : ActionRun Bool) (save : Outcome (Option GoError)) :
    (XiaohongshuService.loginWaiter wait save).trace
      = wait.events.map Event.page ++ [.pageClose, .browserClose] := by
  cases wait with
  | mk o evs =>
    cases o with
    | panic r => rfl
    | ret loggedIn =>
      cases loggedIn with
      | false => simp [XiaohongshuService.loginWaiter, Run.defer, Run.bind, ActionRun.run, Run.pure]
      | true =>
        cases save <;>
          simp [XiaohongshuService.loginWaiter, Run.defer, Run.bind, ActionRun.run, Run.pure]

/-- C20 (counterexample): `GetLoginQrcode` returns the QR code of a user who is not logged
in with its page and its browser open. -/
theorem handles_closed_counterexample :
    XiaohongshuService.GetLoginQrcode (.ret ()) (.ret ())
        { outcome := .ret ("qr", false, none), events := [.navigate] }
      = { outcome := .ret (some { Timeout := "4m0s", IsLoggedIn := false, Img := "qr" }, none),
          trace := [.newBrowser, .newPage, .page .navigate, .go] }
      ∧ pageOpen [.newBrowser, .newPage, .page .navigate, .go] = true
      ∧ browserOpen [.newBrowser, .newPage, .page .navigate, .go] = true :=
  ⟨rfl, rfl, rfl⟩

/-- C20 (amended): every operation other than `GetLoginQrcode` ends, by a return or by a
panic, with its page and its browser closed; `GetLoginQrcode` returns with both closed
when it returns an error or finds the user logged in, and otherwise returns with both open
and a goroutine started, whose end closes them. -/
theorem handles_closed {Feed D B I F : Type} (launched opened : Outcome Unit)
    (check : ActionRun (Except GoError Bool)) (username : String) (width : String → Nat)
    (stat : String → Option GoError) (processed : Outcome (Except GoError (List String)))
    (newAction publish action : ActionRun (Option GoError)) (req : PublishRequest)
    (vreq : PublishVideoRequest) (list : ActionRun (Except GoError (List Feed)))
    (detail : ActionRun (Except GoError D))
    (profile : ActionRun (Except GoError (UserProfileResponse B I F))) (feedID : String)
    (fetch : ActionRun (String × Bool × Option GoError)) (wait : ActionRun Bool)
    (save : Outcome (Option GoError)) :
    handlesClosed (XiaohongshuService.CheckLoginStatus launched opened check username).trace
        = true
      ∧ handlesClosed (XiaohongshuService.PublishContent width processed launched opened
          newAction publish req).trace = true
      ∧ handlesClosed (XiaohongshuService.PublishVideo width stat launched opened newAction
          publish vreq).trace = true
      ∧ handlesClosed (XiaohongshuService.ListFeeds launched opened list).trace = true
      ∧ handlesClosed (XiaohongshuService.SearchFeeds launched opened list).trace = true
      ∧ handlesClosed (XiaohongshuService.GetFeedDetail launched opened detail feedID).trace
          = true
      ∧ handlesClosed (XiaohongshuService.UserProfile launched opened profile).trace = true
      ∧ handlesClosed (XiaohongshuService.PostCommentToFeed launched opened action
          feedID).trace = true
      ∧ handlesClosed (XiaohongshuService.LikeFeed launched opened action feedID).trace = true
      ∧ handlesClosed (XiaohongshuService.UnlikeFeed launched opened action feedID).trace
          = true
      ∧ handlesClosed (XiaohongshuService.FavoriteFeed launched opened action feedID).trace
          = true
      ∧ handlesClosed (XiaohongshuService.UnfavoriteFeed launched opened action feedID).trace
          = true
      ∧ (∀ resp err,
          (XiaohongshuService.GetLoginQrcode launched opened fetch).outcome = .ret (resp, err)
            → (err ≠ none ∨ ∃ q, resp = some q ∧ q.IsLoggedIn = true)
            → handlesClosed (XiaohongshuService.GetLoginQrcode launched opened fetch).trace
              = true)
      ∧ (∀ q,
          (XiaohongshuService.GetLoginQrcode launched opened fetch).outcome
              = .ret (some q, none)
            → q.IsLoggedIn = false
            → pageOpen (XiaohongshuService.GetLoginQrcode launched opened fetch).trace = true
              ∧ browserOpen (XiaohongshuService.GetLoginQrcode launched opened fetch).trace
                = true
              ∧ Event.go ∈ (XiaohongshuService.GetLoginQrcode launched opened fetch).trace
              ∧ handlesClosed ((XiaohongshuService.GetLoginQrcode launched opened fetch).trace
                  ++ (XiaohongshuService.loginWaiter wait save).trace) = true) := by
  refine ⟨withPage_closed _ _ _, ?_, ?_, withPage_closed _ _ _, ?_, ?_, withPage_closed _ _ _,
    withPage_closed _ _ _, withPage_closed _ _ _, withPage_closed _ _ _,
    withPage_closed _ _ _, withPage_closed _ _ _, ?_, ?_⟩
  · rw [XiaohongshuService.PublishContent, wrapper_trace]
    split
    · rfl
    · refine bind_closed _ _ rfl (fun r => ?_)
      cases r with
      | error err => rfl
      | ok imagePaths =>
        refine bind_closed _ _ (withPage_closed _ _ _) (fun err => ?_)
        cases err <;> rfl
  · rw [XiaohongshuService.PublishVideo]
    split
    · rfl
    · split
      · rfl
      · refine bind_closed _ _ rfl (fun _ => ?_)
        split
        · rfl
        · refine bind_closed _ _ (withPage_closed _ _ _) (fun err => ?_)
          cases err <;> rfl
  · rw [XiaohongshuService.SearchFeeds, wrapper_trace]
    exact withPage_closed _ _ _
  · rw [XiaohongshuService.GetFeedDetail, wrapper_trace]
    cases launched with
    | panic r => rfl
    | ret u =>
      cases opened with
      | panic r => rfl
      | ret v =>
        simp only [newBrowser, NewPage, Run.bind, Run.emit, deferRecover_trace]
        simp only [List.singleton_append, List.cons_append, List.nil_append,
          List.append_assoc]
        exact handlesClosed_closers (.newBrowser :: .newPage :: _)
  · intro resp err hout hcase
    cases launched with
    | panic r => simp [XiaohongshuService.GetLoginQrcode, newBrowser, Run.bind] at hout
    | ret u =>
      cases opened with
      | panic r =>
        simp [XiaohongshuService.GetLoginQrcode, newBrowser, NewPage, Run.bind, Run.emit]
          at hout
      | ret v =>
        obtain ⟨o, evs⟩ := fetch
        cases o with
        | panic r =>
          simp [XiaohongshuService.GetLoginQrcode, newBrowser, NewPage, Run.bind, Run.emit,
            ActionRun.run] at hout
        | ret x =>
          obtain ⟨img, loggedIn, e⟩ := x
          have hclosed : e.isSome = true ∨ loggedIn = true →
              (XiaohongshuService.GetLoginQrcode (.ret u) (.ret v)
                { outcome := .ret (img, loggedIn, e), events := evs }).trace
              = (.newBrowser :: .newPage :: evs.map Event.page)
                ++ [.pageClose, .browserClose] := by
            intro h
            cases e with
            | some e1 =>
              simp [XiaohongshuService.GetLoginQrcode, newBrowser, NewPage, Run.bind,
                Run.emit, ActionRun.run, Run.defer, Run.pure]
            | none =>
              simp only [Option.isSome_none, Bool.false_eq_true, false_or] at h
              subst h
              simp [XiaohongshuService.GetLoginQrcode, newBrowser, NewPage, Run.bind,
                Run.emit, ActionRun.run, Run.defer, Run.pure]
          cases e with
          | some e1 =>
            rw [hclosed (Or.inl rfl)]
            exact handlesClosed_closers _
          | none =>
            cases loggedIn with
            | true =>
              rw [hclosed (Or.inr rfl)]
              exact handlesClosed_closers _
            | false =>
              simp [XiaohongshuService.GetLoginQrcode, newBrowser, NewPage, Run.bind,
                Run.emit, ActionRun.run, Run.defer, Run.pure] at hout
              obtain ⟨hresp, herr⟩ := hout
              subst hresp herr
              simp at hcase
  · intro q hout hq
    cases launched with
    | panic r => simp [XiaohongshuService.GetLoginQrcode, newBrowser, Run.bind] at hout
    | ret u =>
      cases opened with
      | panic r =>
        simp [XiaohongshuService.GetLoginQrcode, newBrowser, NewPage, Run.bind, Run.emit]
          at hout
      | ret v =>
        obtain ⟨o, evs⟩ := fetch
        cases o with
        | panic r =>
          simp [XiaohongshuService.GetLoginQrcode, newBrowser, NewPage, Run.bind, Run.emit,
            ActionRun.run] at hout
        | ret x =>
          obtain ⟨img, loggedIn, e⟩ := x
          cases e with
          | some e1 =>
            simp [XiaohongshuService.GetLoginQrcode, newBrowser, NewPage, Run.bind,
              Run.emit, ActionRun.run, Run.defer, Run.pure] at hout
          | none =>
            cases loggedIn with
            | true =>
              simp [XiaohongshuService.GetLoginQrcode, newBrowser, NewPage, Run.bind,
                Run.emit, ActionRun.run, Run.defer, Run.pure] at hout
              subst hout
              simp at hq
            | false =>
              have htr : (XiaohongshuService.GetLoginQrcode (.ret u) (.ret v)
                  { outcome := .ret (img, false, none), events := evs }).trace
                  = (.newBrowser :: .newPage :: evs.map Event.page) ++ [.go] := by
                simp [XiaohongshuService.GetLoginQrcode, newBrowser, NewPage, Run.bind,
                  Run.emit, ActionRun.run, Run.defer, Run.pure]
              rw [htr, loginWaiter_trace]
              refine ⟨?_, ?_, by simp, ?_⟩
              · exact pageOpen_after evs [.go]
              · exact browserOpen_after evs [.go]
              · rw [← List.append_assoc]
                exact handlesClosed_closers _

theorem handles_closed_witness :
    handlesClosed (XiaohongshuService.GetLoginQrcode (.ret ()) (.ret ())
        { outcome := .ret ("", true, none), events := [.navigate] }).trace = true
      ∧ (pageOpen (XiaohongshuService.GetLoginQrcode (.ret ()) (.ret ())
            { outcome := .ret ("qr", false, none), events := [.navigate] }).trace = true
        ∧ browserOpen (XiaohongshuService.GetLoginQrcode (.ret ()) (.ret ())
            { outcome := .ret ("qr", false, none), events := [.navigate] }).trace = true
        ∧ Event.go ∈ (XiaohongshuService.GetLoginQrcode (.ret ()) (.ret ())
            { outcome := .ret ("qr", false, none), events := [.navigate] }).trace
        ∧ handlesClosed ((XiaohongshuService.GetLoginQrcode (.ret ()) (.ret ())
              { outcome := .ret ("qr", false, none), events := [.navigate] }).trace
            ++ (XiaohongshuService.loginWaiter { outcome := .ret true, events := [.inspect] }
              (.ret none)).trace) = true) :=
  ⟨(@handles_closed Unit Unit Unit Unit Unit (.ret ()) (.ret ())
      { outcome := .ret (.ok true), events := [] } "" unitStringWidth (fun _ => none)
      (.ret (.ok [])) { outcome := .ret none, events := [] }
      { outcome := .ret none, events := [] } { outcome := .ret none, events := [] }
      { Title := "", Content := "", Images := [], Tags := [], AccessToken := "" }
      { Title := "", Content := "", Video := "", Tags := [] }
      { outcome := .ret (.ok []), events := [] } { outcome := .ret (.ok ()), events := [] }
      { outcome := .ret (.error ""), events := [] } ""
      { outcome := .ret ("", true, none), events := [.navigate] }
      { outcome := .ret true, events := [.inspect] } (.ret none)).2.2.2.2.2.2.2.2.2.2.2.2.1
      (some { Timeout := "0s", IsLoggedIn := true, Img := "" }) none rfl
      (Or.inr ⟨_, rfl, rfl⟩),
    (@handles_closed Unit Unit Unit Unit Unit (.ret ()) (.ret ())
      { outcome := .ret (.ok true), events := [] } "" unitStringWidth (fun _ => none)
      (.ret (.ok [])) { outcome := .ret none, events := [] }
      { outcome := .ret none, events := [] } { outcome := .ret none, events := [] }
      { Title := "", Content := "", Images := [], Tags := [], AccessToken := "" }
      { Title := "", Content := "", Video := "", Tags := [] }
      { outcome := .ret (.ok []), events := [] } { outcome := .ret (.ok ()), events := [] }
      { outcome := .ret (.error ""), events := [] } ""
      { outcome := .ret ("qr", false, none), events := [.navigate] }
      { outcome := .ret true, events := [.inspect] } (.ret none)).2.2.2.2.2.2.2.2.2.2.2.2.2
      { Timeout := "4m0s", IsLoggedIn := false, Img := "qr" } rfl rfl⟩



/-! ### The image strings of a request -/

theorem startsWithChars_iff (s p : List Char) :
    startsWithChars s p = true ↔ ∃ t, s = p ++ t := by
  induction p generalizing s with
  | nil => cases s <;> simp [startsWithChars]
  | cons a p ih =>
    cases s with
    | nil => simp [startsWithChars]
    | cons c cs =>
      simp only [startsWithChars, Bool.and_eq_true, beq_iff_eq, ih, List.cons_append,
        List.cons.injEq]
      constructor
      · rintro ⟨rfl, t, rfl⟩
        exact ⟨t, rfl, rfl⟩
      · rintro ⟨t, rfl, rfl⟩
        exact ⟨rfl, t, rfl⟩

theorem containsChars_singleton (s : List Char) (c : Char) :
    containsChars s [c] = true ↔ c ∈ s := by
  induction s with
  | nil => simp [containsChars, startsWithChars]
  | cons a s ih =>
    simp only [containsChars, startsWithChars, Bool.or_eq_true, Bool.and_eq_true, beq_iff_eq,
      ih, List.mem_cons]
    constructor
    · rintro (⟨rfl, _⟩ | h)
      · exact Or.inl rfl
      · exact Or.inr h
    · rintro (rfl | h)
      · exact Or.inl ⟨rfl, by cases s <;> trivial⟩
      · exact Or.inr h

theorem isTokenChar_iff (c : Char) :
    isTokenChar c = true ↔ (97 ≤ c.toNat ∧ c.toNat ≤ 122) ∨ (65 ≤ c.toNat ∧ c.toNat ≤ 90)
      ∨ (48 ≤ c.toNat ∧ c.toNat ≤ 57) := by
  simp [isTokenChar, or_assoc]

/-- C25: `IsFeishuFileToken` holds exactly for the texts of 15 to 50 bytes whose characters
are all ASCII letters or digits; a text with `/` or `\`, or one that starts with `http://`
or `https://`, is rejected. -/
theorem isFeishuFileToken_iff (token : String) :
    (IsFeishuFileToken token = true ↔
        15 ≤ goLen token ∧ goLen token ≤ 50
          ∧ ∀ c ∈ token.data, (97 ≤ c.toNat ∧ c.toNat ≤ 122) ∨ (65 ≤ c.toNat ∧ c.toNat ≤ 90)
              ∨ (48 ≤ c.toNat ∧ c.toNat ≤ 57))
      ∧ ('/' ∈ token.data → IsFeishuFileToken token = false)
      ∧ ('\\' ∈ token.data → IsFeishuFileToken token = false)
      ∧ (strings.HasPrefix token "http://" = true → IsFeishuFileToken token = false)
      ∧ (strings.HasPrefix token "https://" = true → IsFeishuFileToken token = false) := by
  have hiff : IsFeishuFileToken token = true ↔
      15 ≤ goLen token ∧ goLen token ≤ 50
        ∧ ∀ c ∈ token.data, (97 ≤ c.toNat ∧ c.toNat ≤ 122) ∨ (65 ≤ c.toNat ∧ c.toNat ≤ 90)
            ∨ (48 ≤ c.toNat ∧ c.toNat ≤ 57) := by
    constructor
    · intro h
      unfold IsFeishuFileToken at h
      split at h
      · simp at h
      · rename_i hlen
        split at h
        · simp at h
        · simp only [Bool.or_eq_true, decide_eq_true_eq, not_or, Nat.not_lt] at hlen
          refine ⟨hlen.1, by omega, fun c hc => ?_⟩
          exact (isTokenChar_iff c).mp (List.all_eq_true.mp h c hc)
    · rintro ⟨h1, h2, hall⟩
      have hno : ∀ c : Char, isTokenChar c = false → strings.Contains token (String.singleton c) = false := by
        intro c hc
        cases hcon : strings.Contains token (String.singleton c)
        · rfl
        · have hmem : c ∈ token.data :=
            (containsChars_singleton token.data c).mp (by simpa [strings.Contains] using hcon)
          have := (isTokenChar_iff c).mpr (hall c hmem)
          rw [hc] at this
          cases this
      have hs : strings.Contains token "/" = false := hno '/' (by decide)
      have hb : strings.Contains token "\\" = false := hno '\\' (by decide)
      unfold IsFeishuFileToken
      have hlen : (decide (goLen token < 15) || decide (goLen token > 50)) = false := by
        simp only [Bool.or_eq_false_iff, decide_eq_false_iff_not, Nat.not_lt, gt_iff_lt]
        exact ⟨h1, h2⟩
      simp only [hlen, Bool.false_eq_true, if_false, hs, hb, Bool.or_self]
      exact List.all_eq_true.mpr (fun c hc => (isTokenChar_iff c).mpr (hall c hc))
  have hrej : ∀ c : Char, isTokenChar c = false → c ∈ token.data →
      IsFeishuFileToken token = false := by
    intro c hc hmem
    cases h : IsFeishuFileToken token
    · rfl
    · have := (isTokenChar_iff c).mpr ((hiff.mp h).2.2 c hmem)
      rw [hc] at this
      cases this
  refine ⟨hiff, hrej '/' (by decide), hrej '\\' (by decide), fun h => ?_, fun h => ?_⟩
  · obtain ⟨t, ht⟩ := (startsWithChars_iff _ _).mp h
    exact hrej ':' (by decide) (by rw [ht]; exact List.mem_append_left _ (by decide))
  · obtain ⟨t, ht⟩ := (startsWithChars_iff _ _).mp h
    exact hrej ':' (by decide) (by rw [ht]; exact List.mem_append_left _ (by decide))

theorem isFeishuFileToken_iff_witness :
    IsFeishuFileToken "boxcnAbCdEf1234567890" = true
      ∧ IsFeishuFileToken "/tmp/images/cover0001.png" = false
      ∧ IsFeishuFileToken "C:\\images\\cover0001.png" = false
      ∧ IsFeishuFileToken "http://example.com/a.png" = false
      ∧ IsFeishuFileToken "https://example.com/a.png" = false :=
  ⟨(isFeishuFileToken_iff "boxcnAbCdEf1234567890").1.mpr ⟨by decide, by decide, by decide⟩,
    (isFeishuFileToken_iff "/tmp/images/cover0001.png").2.1 (by decide),
    (isFeishuFileToken_iff "C:\\images\\cover0001.png").2.2.1 (by decide),
    (isFeishuFileToken_iff "http://example.com/a.png").2.2.2.1 (by decide),
    (isFeishuFileToken_iff "https://example.com/a.png").2.2.2.2 (by decide)⟩

theorem separateImages_local (lower : Char → Char) (images : List String)
    (hurl : ∀ image ∈ images, IsImageURL lower image = false)
    (htok : ∀ image ∈ images, IsFeishuFileToken image = false) (acc : ImageLists) :
    separateImages lower images acc
      = { acc with localPaths := acc.localPaths ++ images } := by
  induction images generalizing acc with
  | nil => simp [separateImages]
  | cons image rest ih =>
    have h1 := hurl image (List.mem_cons_self _ _)
    have h2 := htok image (List.mem_cons_self _ _)
    simp only [separateImages, h1, h2, Bool.false_eq_true, if_false]
    rw [ih (fun i hi => hurl i (List.mem_cons_of_mem _ hi))
      (fun i hi => htok i (List.mem_cons_of_mem _ hi))]
    simp

/-- C21 (counterexample): a name of sixteen letters and a name that starts with `HTTP://`
do not start with `http://` or `https://`; for the first `ProcessImages` asks for an
access token, the second it hands to the downloader and returns the downloaded path. -/
theorem processImages_local_counterexample :
    strings.HasPrefix "abcdefghijklmnop" "http://" = false
      ∧ strings.HasPrefix "abcdefghijklmnop" "https://" = false
      ∧ ImageProcessor.ProcessImages (fun c => c) (fun _ => ([], none))
          (fun _ _ => ([], none)) ["abcdefghijklmnop"]
        = .error "access_token is required for feishu file_token download"
      ∧ strings.HasPrefix "HTTP://EXAMPLE.COM/A.PNG" "http://" = false
      ∧ strings.HasPrefix "HTTP://EXAMPLE.COM/A.PNG" "https://" = false
      ∧ ImageProcessor.ProcessImages (fun c => c) (fun _ => (["images/img_1.png"], none))
          (fun _ _ => ([], none)) ["HTTP://EXAMPLE.COM/A.PNG"]
        = .ok ["images/img_1.png"] := by
  refine ⟨by decide, by decide, by rfl, by decide, by decide, by rfl⟩

/-- C21 (amended): a non-empty list of image strings none of which is an image URL (a
start `http://` or `https://` in any case of the letters) or has the form of a file token
is returned as it is, in the same order, without an error and whatever the access
token. -/
theorem processImages_local (lower : Char → Char)
    (downloadImages : List String → List String × Option GoError)
    (downloadFeishuImages : List String → String → List String × Option GoError)
    (images : List String) (accessToken : String) (hne : images ≠ [])
    (hurl : ∀ image ∈ images, IsImageURL lower image = false)
    (htok : ∀ image ∈ images, IsFeishuFileToken image = false) :
    ImageProcessor.ProcessImages lower downloadImages downloadFeishuImages images
        = .ok images
      ∧ ImageProcessor.ProcessImagesWithFeishuToken lower downloadImages downloadFeishuImages
          images accessToken = .ok images := by
  have hlen : images.length ≠ 0 := by
    intro h
    exact hne (List.length_eq_zero.mp h)
  have h : ∀ token, ImageProcessor.ProcessImagesWithFeishuToken lower downloadImages
      downloadFeishuImages images token = .ok images := by
    intro token
    simp [ImageProcessor.ProcessImagesWithFeishuToken, separateImages_local lower images hurl htok,
      hlen, hne]
  exact ⟨h "", h accessToken⟩

theorem processImages_local_witness :
    ImageProcessor.ProcessImages (fun c => c) (fun _ => ([], none)) (fun _ _ => ([], none))
        ["/tmp/a.png", "images/b.jpg"]
        = .ok ["/tmp/a.png", "images/b.jpg"]
      ∧ ImageProcessor.ProcessImagesWithFeishuToken (fun c => c) (fun _ => ([], none))
          (fun _ _ => ([], none)) ["/tmp/a.png", "images/b.jpg"] "token"
        = .ok ["/tmp/a.png", "images/b.jpg"] :=
  processImages_local (fun c => c) (fun _ => ([], none)) (fun _ _ => ([], none))
    ["/tmp/a.png", "images/b.jpg"] "token" (by decide) (by decide) (by decide)



/-! ### The handlers and the request of a cover image -/

theorem textToImageSize_range {F : Type} (toInt : F → Int) (arg : ArgValue F) :
    256 ≤ textToImageSize toInt arg ∧ textToImageSize toInt arg ≤ 768 := by
  cases arg <;> simp only [textToImageSize] <;> split_ifs <;> omega

/-- C22: for a request with a prompt, the width and the height handed to the image API
lie in `[256, 768]`; a requested integer in that range is handed on as it is, an absent
value and an integer outside the range give 512. -/
theorem textToImage_size {F : Type} (toInt : F → Int) (p : String) (hp : p ≠ "")
    (width height : ArgValue F) :
    ∃ req, AppServer.handleTextToImageRequest toInt (.string p) width height = .ok req
      ∧ (256 ≤ req.width ∧ req.width ≤ 768 ∧ 256 ≤ req.height ∧ req.height ≤ 768)
      ∧ (∀ n, width = .int n → 256 ≤ n → n ≤ 768 → req.width = n)
      ∧ (∀ n, width = .int n → n < 256 ∨ 768 < n → req.width = 512)
      ∧ (width = .absent → req.width = 512)
      ∧ (∀ n, height = .int n → 256 ≤ n → n ≤ 768 → req.height = n)
      ∧ (∀ n, height = .int n → n < 256 ∨ 768 < n → req.height = 512)
      ∧ (height = .absent → req.height = 512) := by
  refine ⟨{ req_key := "jimeng_high_aes_general_v21_L", prompt := p, width := textToImageSize toInt width, height := textToImageSize toInt height },
    by simp only [AppServer.handleTextToImageRequest, hp, if_false],
    ⟨(textToImageSize_range toInt width).1, (textToImageSize_range toInt width).2,
      (textToImageSize_range toInt height).1, (textToImageSize_range toInt height).2⟩,
    ?_, ?_, ?_, ?_, ?_, ?_⟩
  · rintro n rfl h1 h2
    simp only [textToImageSize]
    split_ifs <;> omega
  · rintro n rfl h
    simp only [textToImageSize]
    split_ifs <;> omega
  · rintro rfl
    rfl
  · rintro n rfl h1 h2
    simp only [textToImageSize]
    split_ifs <;> omega
  · rintro n rfl h
    simp only [textToImageSize]
    split_ifs <;> omega
  · rintro rfl
    rfl

theorem textToImage_size_witness :
    ∃ req, AppServer.handleTextToImageRequest (fun _ : Unit => 0) (.string "a cat")
        (.int 300) (.int 1024) = .ok req
      ∧ req.width = 300 ∧ req.height = 512 :=
  (textToImage_size (fun _ : Unit => 0) "a cat" (by decide) (.int 300) (.int 1024)).imp
    (fun _ h => ⟨h.1, h.2.2.1 300 rfl (by decide) (by decide),
      h.2.2.2.2.2.2.1 1024 rfl (Or.inr (by decide))⟩)

/-- C23: without a background image the request keeps every value that is set and gets
the width 1080, the height 1440, the font size 48, the text colour `#FFFFFF` and the style
`gradient` where the value is zero or empty. -/
theorem coverRequest_defaults (getImageDimensions : String → Except GoError (Int × Int))
    (scaled : Int → Int → Int × Int) (req : CoverImageRequest)
    (hbg : req.BackgroundImage = "") :
    ImageGenerator.GenerateCoverImageRequest getImageDimensions scaled req
      = .ok { Text := req.Text
              Width := if req.Width = 0 then 1080 else req.Width
              Height := if req.Height = 0 then 1440 else req.Height
              FontSize := if req.FontSize = 0 then 48 else req.FontSize
              TextColor := if req.TextColor = "" then "#FFFFFF" else req.TextColor
              BgColor := req.BgColor
              Style := if req.Style = "" then "gradient" else req.Style
              BackgroundImage := req.BackgroundImage
              TextOffsetY := req.TextOffsetY
              OutputPath := req.OutputPath } := by
  obtain ⟨text, w, h, fs, tc, bg, st, bi, off, out⟩ := req
  simp only at hbg
  subst hbg
  simp only [ImageGenerator.GenerateCoverImageRequest, ne_eq, not_true_eq_false, if_false]
  by_cases hw : w = 0 <;> by_cases hh : h = 0 <;> by_cases hf : fs = 0 <;>
    by_cases ht : tc = "" <;> by_cases hs : st = "" <;>
    simp [hw, hh, hf, ht, hs]

theorem coverRequest_defaults_witness :
    ImageGenerator.GenerateCoverImageRequest (fun _ => .error "") (fun _ _ => (0, 0))
        { Text := "封面", Width := 0, Height := 800, FontSize := 0, TextColor := "", BgColor := "", Style := "solid", BackgroundImage := "", TextOffsetY := 0, OutputPath := "" }
      = .ok { Text := "封面", Width := 1080, Height := 800, FontSize := 48, TextColor := "#FFFFFF", BgColor := "", Style := "solid", BackgroundImage := "", TextOffsetY := 0, OutputPath := "" } :=
  coverRequest_defaults (fun _ => .error "") (fun _ _ => (0, 0))
    { Text := "封面", Width := 0, Height := 800, FontSize := 0, TextColor := "", BgColor := "", Style := "solid", BackgroundImage := "", TextOffsetY := 0, OutputPath := "" } rfl

theorem sprintf_httpURL (ip portOnly filename : String) :
    sprintf "http://%s%s/images/%s" [ip, portOnly, filename]
      = "http://" ++ ip ++ portOnly ++ "/images/" ++ filename := by
  apply String.ext
  simp [sprintf, sprintfChars, String.data_append]

/-- For a port argument without a colon `convertToHTTPURL` puts the argument right after
the address (mcp_handlers.go:44-47). -/
theorem convertToHTTPURL_bare (ip localPath port : String)
    (h : strings.Contains port ":" = false) :
    convertToHTTPURL ip localPath port
      = "http://" ++ ip ++ port ++ "/images/" ++ filepath.Base localPath := by
  simp only [convertToHTTPURL, h, Bool.false_eq_true, if_false, sprintf_httpURL]

theorem utf8Bytes_length_pos (c : Char) : 0 < (utf8Bytes c).length := by
  simp only [utf8Bytes]
  split_ifs <;> simp

theorem lastColonFrom_of_not_mem (cs : List Char) (pos : Nat) (found : Int)
    (h : ':' ∉ cs) : lastColonFrom cs pos found = found := by
  induction cs generalizing pos found with
  | nil => rfl
  | cons c cs ih =>
    have hc : c ≠ ':' := fun hc => h (hc ▸ List.mem_cons_self _ _)
    rw [lastColonFrom, if_neg hc]
    exact ih _ _ (fun hm => h (List.mem_cons_of_mem _ hm))

theorem lastColonFrom_split (front back : List Char) (pos : Nat) (found : Int)
    (h : ':' ∉ back) :
    lastColonFrom (front ++ ':' :: back) pos found
      = ((pos + (front.flatMap utf8Bytes).length : Nat) : Int) := by
  induction front generalizing pos found with
  | nil =>
    simp only [List.nil_append, lastColonFrom, if_true, List.flatMap_nil, List.length_nil,
      Nat.add_zero]
    exact lastColonFrom_of_not_mem back _ _ h
  | cons c front ih =>
    rw [List.cons_append, lastColonFrom, ih]
    simp only [List.flatMap_cons, List.length_append]
    congr 1
    omega

theorem dropBytes_split (front rest : List Char) :
    dropBytes (front ++ rest) (front.flatMap utf8Bytes).length = rest := by
  induction front with
  | nil =>
    simp only [List.nil_append, List.flatMap_nil, List.length_nil]
    cases rest <;> rfl
  | cons c front ih =>
    have hpos := utf8Bytes_length_pos c
    simp only [List.flatMap_cons, List.length_append, List.cons_append]
    obtain ⟨k, hk⟩ : ∃ k, (utf8Bytes c).length + (front.flatMap utf8Bytes).length = k + 1 :=
      ⟨(utf8Bytes c).length + (front.flatMap utf8Bytes).length - 1, by omega⟩
    rw [hk, dropBytes]
    have : k + 1 - (utf8Bytes c).length = (front.flatMap utf8Bytes).length := by omega
    rw [this]
    exact ih

theorem containsChars_colon (front back : List Char) :
    containsChars (front ++ ':' :: back) [':'] = true :=
  (containsChars_singleton _ _).mpr (by simp)

/-- C27 (counterexample): for the port argument `18060` the result has no colon between
the address and the port. -/
theorem convertToHTTPURL_port_counterexample :
    convertToHTTPURL "192.168.1.5" "/tmp/images/a.png" "18060"
        = "http://192.168.1.518060/images/a.png"
      ∧ convertToHTTPURL "192.168.1.5" "/tmp/images/a.png" "18060"
        ≠ "http://192.168.1.5" ++ ":" ++ "18060" ++ "/images/" ++ "a.png" := by
  refine ⟨by decide, by decide⟩

/-- C27 (amended): for a port argument with a colon, the result is `http://`, the address,
a colon, the part of the argument after its last colon, `/images/` and the base name of
the path. -/
theorem convertToHTTPURL_port (ip localPath : String) (front back : List Char)
    (h : ':' ∉ back) :
    convertToHTTPURL ip localPath (String.mk (front ++ ':' :: back))
      = "http://" ++ ip ++ ":" ++ String.mk back ++ "/images/" ++ filepath.Base localPath := by
  have hc : strings.Contains (String.mk (front ++ ':' :: back)) ":" = true :=
    containsChars_colon front back
  have hi : strings.LastIndexColon (String.mk (front ++ ':' :: back))
      = (((front.flatMap utf8Bytes).length : Nat) : Int) := by
    simp only [strings.LastIndexColon]
    rw [lastColonFrom_split front back 0 (-1) h]
    simp
  simp only [convertToHTTPURL, hc, if_true, hi, Int.toNat_ofNat, dropBytes_split,
    sprintf_httpURL]
  apply String.ext
  simp [String.data_append]

theorem convertToHTTPURL_port_witness :
    convertToHTTPURL "192.168.1.5" "/tmp/images/a.png" ":18060"
        = "http://192.168.1.5:18060/images/a.png"
      ∧ convertToHTTPURL "192.168.1.5" "/tmp/images/a.png" "0.0.0.0:18060"
        = "http://192.168.1.5:18060/images/a.png" :=
  ⟨(convertToHTTPURL_port "192.168.1.5" "/tmp/images/a.png" [] "18060".data
      (by decide)).trans (by decide),
    (convertToHTTPURL_port "192.168.1.5" "/tmp/images/a.png" "0.0.0.0".data "18060".data
      (by decide)).trans (by decide)⟩

/-! ### The words and the lines of a cover text -/

theorem firstRune_utf8Bytes (c : Char) : firstRune (utf8Bytes c) = c.toNat := by
  have hv : c.toNat < 0xD800 ∨ (0xDFFF < c.toNat ∧ c.toNat < 0x110000) := c.valid
  simp only [utf8Bytes]
  generalize c.toNat = n at hv ⊢
  by_cases h1 : n < 0x80
  · simp only [h1, if_true, firstRune]
  · by_cases h2 : n < 0x800
    · simp only [h1, h2, if_false, if_true, firstRune]
      split_ifs <;> omega
    · by_cases h3 : n < 0x10000
      · simp only [h1, h2, h3, if_false, if_true, firstRune]
        split_ifs <;> omega
      · simp only [h1, h2, h3, if_false, firstRune]
        rw [if_neg (by omega), if_neg (by omega), if_neg (by omega), if_neg (by omega),
          if_pos (by omega)]
        by_cases h40 : 0xF0 + n / 0x40000 = 0xF0
        · have hlo : (if 0xF0 + n / 0x40000 = 0xF0 then 0x90 else 0x80) = 0x90 := if_pos h40
          have hhi : (if 0xF0 + n / 0x40000 = 0xF4 then 0x8F else 0xBF) = 0xBF :=
            if_neg (by omega)
          rw [hlo, hhi, if_neg (by omega), if_neg (by omega), if_neg (by omega)]
          omega
        · have hlo : (if 0xF0 + n / 0x40000 = 0xF0 then 0x90 else 0x80) = 0x80 := if_neg h40
          by_cases h44 : 0xF0 + n / 0x40000 = 0xF4
          · have hhi : (if 0xF0 + n / 0x40000 = 0xF4 then 0x8F else 0xBF) = 0x8F :=
              if_pos h44
            rw [hlo, hhi, if_neg (by omega), if_neg (by omega), if_neg (by omega)]
            omega
          · have hhi : (if 0xF0 + n / 0x40000 = 0xF4 then 0x8F else 0xBF) = 0xBF :=
              if_neg h44
            rw [hlo, hhi, if_neg (by omega), if_neg (by omega), if_neg (by omega)]
            omega

theorem isChinese_utf8Bytes (c : Char) :
    ImageGenerator.isChinese (utf8Bytes c)
      = (decide (0x4e00 ≤ c.toNat) && decide (c.toNat ≤ 0x9fff)) := by
  have hlen : (utf8Bytes c).length ≠ 0 := by
    simp only [utf8Bytes]
    split_ifs <;> simp
  simp only [ImageGenerator.isChinese, hlen, if_false, firstRune_utf8Bytes]

/-- A single byte never passes for a Chinese character. -/
theorem isChinese_byte (b : Nat) : ImageGenerator.isChinese [b] = false := by
  simp only [ImageGenerator.isChinese, List.length_singleton, firstRune]
  split_ifs <;> simp <;> omega

/-- The loop of `splitText`: what it has written, word by word, is what it had written and
what it read, without the spaces and the tabs. -/
theorem splitTextLoop_chars (rest : List Char) (words : List String) (current : List Char) :
    ((splitTextLoop rest words current).1.map String.data).flatten
        ++ (splitTextLoop rest words current).2
      = (words.map String.data).flatten ++ current
        ++ rest.filter (fun c => c != ' ' && c != '\t') := by
  induction rest generalizing words current with
  | nil => simp [splitTextLoop]
  | cons r rest ih =>
    rw [splitTextLoop]
    by_cases hc : ImageGenerator.isChinese (utf8Bytes r) = true
    · have hns : (r != ' ' && r != '\t') = true := by
        rw [isChinese_utf8Bytes] at hc
        simp only [Bool.and_eq_true, decide_eq_true_eq] at hc
        have h1 : r ≠ ' ' := by
          rintro rfl
          revert hc
          decide
        have h2 : r ≠ '\t' := by
          rintro rfl
          revert hc
          decide
        simp [h1, h2]
      rw [if_pos hc, ih]
      by_cases h0 : current.length > 0
      · simp [h0, List.filter_cons, hns, String.singleton]
      · have : current = [] := List.length_eq_zero.mp (by omega)
        subst this
        simp [List.filter_cons, hns, String.singleton]
    · rw [if_neg hc]
      by_cases hs : r = ' ' ∨ r = '\t'
      · have hns : (r != ' ' && r != '\t') = false := by
          rcases hs with rfl | rfl <;> decide
        rw [if_pos hs]
        by_cases h0 : current.length > 0
        · rw [if_pos h0, ih]
          simp [List.filter_cons, hns]
        · have : current = [] := List.length_eq_zero.mp (by omega)
          subst this
          rw [if_neg h0, ih]
          simp [List.filter_cons, hns]
      · have hns : (r != ' ' && r != '\t') = true := by
          simp only [not_or] at hs
          simp [hs.1, hs.2]
        rw [if_neg hs, ih]
        simp [List.filter_cons, hns]

theorem splitWord_singleton (r : Char) (h : ImageGenerator.isChinese (utf8Bytes r) = true) :
    SplitWord (String.singleton r) := by
  rw [isChinese_utf8Bytes] at h
  simp only [Bool.and_eq_true, decide_eq_true_eq] at h
  have h1 : r ≠ ' ' := by
    rintro rfl
    revert h
    decide
  have h2 : r ≠ '\t' := by
    rintro rfl
    revert h
    decide
  refine ⟨by simp [String.singleton, String.ext_iff], ?_, ?_, ?_⟩
  · simpa [String.singleton] using h1.symm
  · simpa [String.singleton] using h2.symm
  · intro c hc _
    have : c = r := by simpa [String.singleton] using hc
    rw [this]

theorem splitWord_plain (current : List Char) (h0 : current ≠ [])
    (hcur : ∀ c ∈ current, c ≠ ' ' ∧ c ≠ '\t' ∧ ¬ ChineseChar c) :
    SplitWord (String.mk current) := by
  refine ⟨by simpa [String.ext_iff] using h0, fun h => (hcur _ h).1 rfl,
    fun h => (hcur _ h).2.1 rfl, fun c hc hch => absurd hch (hcur c hc).2.2⟩

/-- The loop of `splitText` writes words only, and keeps a word in progress without
spaces, tabs and Chinese characters. -/
theorem splitTextLoop_words (rest : List Char) (words : List String) (current : List Char)
    (hw : ∀ w ∈ words, SplitWord w)
    (hcur : ∀ c ∈ current, c ≠ ' ' ∧ c ≠ '\t' ∧ ¬ ChineseChar c) :
    (∀ w ∈ (splitTextLoop rest words current).1, SplitWord w)
      ∧ ∀ c ∈ (splitTextLoop rest words current).2, c ≠ ' ' ∧ c ≠ '\t' ∧ ¬ ChineseChar c := by
  induction rest generalizing words current with
  | nil => exact ⟨hw, hcur⟩
  | cons r rest ih =>
    rw [splitTextLoop]
    have hadd : ∀ ws : List String, (∀ w ∈ ws, SplitWord w) → ∀ x, SplitWord x →
        ∀ w ∈ ws ++ [x], SplitWord w := by
      intro ws hws x hx w hmem
      rcases List.mem_append.mp hmem with h | h
      · exact hws w h
      · rw [List.mem_singleton.mp h]
        exact hx
    by_cases hc : ImageGenerator.isChinese (utf8Bytes r) = true
    · rw [if_pos hc]
      refine ih _ _ (hadd _ ?_ _ (splitWord_singleton r hc)) (by simp)
      by_cases h0 : current.length > 0
      · rw [if_pos h0]
        exact hadd _ hw _ (splitWord_plain current (by
          intro h
          rw [h] at h0
          exact absurd h0 (by decide)) hcur)
      · rw [if_neg h0]
        exact hw
    · rw [if_neg hc]
      by_cases hs : r = ' ' ∨ r = '\t'
      · rw [if_pos hs]
        by_cases h0 : current.length > 0
        · rw [if_pos h0]
          exact ih _ _ (hadd _ hw _ (splitWord_plain current (by
            intro h
            rw [h] at h0
            exact absurd h0 (by decide)) hcur)) (by simp)
        · rw [if_neg h0]
          exact ih _ _ hw hcur
      · rw [if_neg hs]
        refine ih _ _ hw ?_
        intro c hmem
        rcases List.mem_append.mp hmem with h | h
        · exact hcur c h
        · rw [List.mem_singleton.mp h]
          simp only [not_or] at hs
          refine ⟨hs.1, hs.2, fun hch => hc ?_⟩
          rw [isChinese_utf8Bytes]
          simpa [ChineseChar] using hch

/-- C26: the words that `splitText` returns are not empty and hold no space and no tab, a
word with a Chinese character is that character alone, and the words put together are the
text without its spaces and tabs. -/
theorem splitText_words (text : String) :
    (∀ w ∈ ImageGenerator.splitText text, w ≠ "" ∧ ' ' ∉ w.data ∧ '\t' ∉ w.data)
      ∧ (∀ w ∈ ImageGenerator.splitText text, ∀ c ∈ w.data,
          0x4e00 ≤ c.toNat → c.toNat ≤ 0x9fff → w = String.singleton c)
      ∧ String.join (ImageGenerator.splitText text)
        = String.mk (text.data.filter (fun c => c != ' ' && c != '\t')) := by
  have hwords := splitTextLoop_words text.data [] [] (by simp) (by simp)
  have hchars := splitTextLoop_chars text.data [] []
  have hall : ∀ w ∈ ImageGenerator.splitText text, SplitWord w := by
    intro w hmem
    simp only [ImageGenerator.splitText] at hmem
    by_cases h0 : (splitTextLoop text.data [] []).2.length > 0
    · rw [if_pos h0] at hmem
      rcases List.mem_append.mp hmem with h | h
      · exact hwords.1 w h
      · rw [List.mem_singleton.mp h]
        exact splitWord_plain _ (by
          intro h
          rw [h] at h0
          exact absurd h0 (by decide)) hwords.2
    · rw [if_neg h0] at hmem
      exact hwords.1 w hmem
  refine ⟨fun w hw => ⟨(hall w hw).1, (hall w hw).2.1, (hall w hw).2.2.1⟩,
    fun w hw c hc h1 h2 => (hall w hw).2.2.2 c hc ⟨h1, h2⟩, ?_⟩
  apply String.ext
  rw [String.data_join]
  simp only [ImageGenerator.splitText]
  simp only [List.map_nil, List.flatten_nil, List.nil_append] at hchars
  rw [← hchars]
  by_cases h0 : (splitTextLoop text.data [] []).2.length > 0
  · rw [if_pos h0]
    simp
  · have : (splitTextLoop text.data [] []).2 = [] := List.length_eq_zero.mp (by omega)
    rw [if_neg h0, this]
    simp

theorem isChinese_optionByte (b : Option Nat) : ImageGenerator.isChinese b.toList = false := by
  cases b with
  | none => rfl
  | some b => exact isChinese_byte b

/-- C24: the separator of `wrapText` is a space for every line and every word, because the
tests for a Chinese character look at single bytes; the three lines of Chinese characters
come back with a space between any two characters. -/
theorem wrapText_separator :
    (∀ currentLine word : String, wrapSeparator currentLine word = " ")
      ∧ ImageGenerator.wrapText (fun _ => true) "第一行文字\n第二行文字\n第三行文字"
        = ["第 一 行 文 字", "第 二 行 文 字", "第 三 行 文 字"] := by
  refine ⟨fun currentLine word => ?_, by decide⟩
  unfold wrapSeparator
  split
  · simp only [isChinese_optionByte, Bool.or_self, Bool.false_eq_true, if_false]
  · rfl

theorem splitText_words_witness :
    ("你" ≠ "" ∧ ' ' ∉ "你".data ∧ '\t' ∉ "你".data)
      ∧ ("hi" ≠ "" ∧ ' ' ∉ "hi".data ∧ '\t' ∉ "hi".data)
      ∧ "你" = String.singleton '你'
      ∧ String.join (ImageGenerator.splitText "你好 hi\tthere")
        = String.mk ("你好 hi\tthere".data.filter (fun c => c != ' ' && c != '\t')) :=
  ⟨(splitText_words "你好 hi\tthere").1 "你" (by decide),
    (splitText_words "你好 hi\tthere").1 "hi" (by decide),
    (splitText_words "你好 hi\tthere").2.1 "你" (by decide) '你' (by decide) (by decide)
      (by decide),
    (splitText_words "你好 hi\tthere").2.2⟩



/-! ### The colour of a cover image -/

theorem hexValue_ascii (c : Char) (d : Nat) (h : hexValue c = some d) :
    c.toNat < 128 ∧ c ≠ '#' ∧ c ≠ '\n' ∧ isScanSpace c = false ∧ d < 16 := by
  simp only [hexValue] at h
  have hr : (48 ≤ c.toNat ∧ c.toNat ≤ 57) ∨ (97 ≤ c.toNat ∧ c.toNat ≤ 102)
      ∨ (65 ≤ c.toNat ∧ c.toNat ≤ 70) := by
    split_ifs at h with h1 h2 h3
    · exact Or.inl h1
    · exact Or.inr (Or.inl h2)
    · exact Or.inr (Or.inr h3)
  have hd : d < 16 := by
    split_ifs at h with h1 h2 h3 <;> simp only [Option.some.injEq] at h <;> omega
  refine ⟨by omega, ?_, ?_, ?_, hd⟩
  · rintro rfl
    revert hr
    decide
  · rintro rfl
    revert hr
    decide
  · simp only [isScanSpace, Bool.or_eq_false_iff, Bool.and_eq_false_iff, decide_eq_false_iff_not,
      beq_eq_false_iff_ne, ne_eq]
    omega

theorem utf8Bytes_ascii (c : Char) (h : c.toNat < 128) : (utf8Bytes c).length = 1 := by
  simp [utf8Bytes, h]

theorem scanHex2_pair (c1 c2 : Char) (d1 d2 : Nat) (rest : List Char)
    (h1 : hexValue c1 = some d1) (h2 : hexValue c2 = some d2) :
    scanHex2 (c1 :: c2 :: rest) = .ok (d1 * 16 + d2, rest) := by
  have a1 := hexValue_ascii c1 d1 h1
  simp only [scanHex2, skipScanSpace, a1.2.2.1, a1.2.2.2.1, if_false, Bool.false_eq_true, h1,
    h2]

theorem goLen_hex6 (c1 c2 c3 c4 c5 c6 : Char) (h1 : c1.toNat < 128) (h2 : c2.toNat < 128)
    (h3 : c3.toNat < 128) (h4 : c4.toNat < 128) (h5 : c5.toNat < 128) (h6 : c6.toNat < 128) :
    goLen (String.mk [c1, c2, c3, c4, c5, c6]) = 6 := by
  simp [goLen, List.flatMap, utf8Bytes_ascii, h1, h2, h3, h4, h5, h6]

/-- C28: for six hexadecimal digits, with or without a leading `#`, `parseColor` returns
the opaque colour whose components are the values of the three pairs of digits; for a text
whose length without one leading `#` is not 6 bytes it returns an error. -/
theorem parseColor_hex (errText : ScanError → String) :
    (∀ (c1 c2 c3 c4 c5 c6 : Char) (d1 d2 d3 d4 d5 d6 : Nat),
        hexValue c1 = some d1 → hexValue c2 = some d2 → hexValue c3 = some d3 →
        hexValue c4 = some d4 → hexValue c5 = some d5 → hexValue c6 = some d6 →
        parseColor errText ("#" ++ String.mk [c1, c2, c3, c4, c5, c6])
            = .ok { R := d1 * 16 + d2, G := d3 * 16 + d4, B := d5 * 16 + d6, A := 255 }
          ∧ parseColor errText (String.mk [c1, c2, c3, c4, c5, c6])
            = .ok { R := d1 * 16 + d2, G := d3 * 16 + d4, B := d5 * 16 + d6, A := 255 }
          ∧ d1 * 16 + d2 < 256 ∧ d3 * 16 + d4 < 256 ∧ d5 * 16 + d6 < 256)
      ∧ (∀ colorStr : String, goLen (stripHash colorStr) ≠ 6 →
          parseColor errText colorStr
            = .error (sprintf "无效的颜色格式: %s" [stripHash colorStr])) := by
  refine ⟨?_, fun colorStr h => ?_⟩
  · intro c1 c2 c3 c4 c5 c6 d1 d2 d3 d4 d5 d6 h1 h2 h3 h4 h5 h6
    have a1 := hexValue_ascii c1 d1 h1
    have a2 := hexValue_ascii c2 d2 h2
    have a3 := hexValue_ascii c3 d3 h3
    have a4 := hexValue_ascii c4 d4 h4
    have a5 := hexValue_ascii c5 d5 h5
    have a6 := hexValue_ascii c6 d6 h6
    have hlen := goLen_hex6 c1 c2 c3 c4 c5 c6 a1.1 a2.1 a3.1 a4.1 a5.1 a6.1
    have hscan : sscanfHex3 [c1, c2, c3, c4, c5, c6]
        = .ok (d1 * 16 + d2, d3 * 16 + d4, d5 * 16 + d6) := by
      simp only [sscanfHex3, scanHex2_pair c1 c2 d1 d2 _ h1 h2,
        scanHex2_pair c3 c4 d3 d4 _ h3 h4, scanHex2_pair c5 c6 d5 d6 _ h5 h6]
    have hplain : stripHash (String.mk [c1, c2, c3, c4, c5, c6])
        = String.mk [c1, c2, c3, c4, c5, c6] := by
      have : strings.HasPrefix (String.mk [c1, c2, c3, c4, c5, c6]) "#" = false := by
        simp [strings.HasPrefix, startsWithChars, a1.2.1]
      simp only [stripHash, this, Bool.false_eq_true, if_false]
    have hhash : stripHash ("#" ++ String.mk [c1, c2, c3, c4, c5, c6])
        = String.mk [c1, c2, c3, c4, c5, c6] := by
      have : strings.HasPrefix ("#" ++ String.mk [c1, c2, c3, c4, c5, c6]) "#" = true := by
        simp [strings.HasPrefix, startsWithChars, String.data_append]
      simp only [stripHash, this, if_true, String.data_append]
      rfl
    refine ⟨?_, ?_, by omega, by omega, by omega⟩
    · simp only [parseColor, hhash, hlen, ne_eq, not_true_eq_false, if_false, hscan]
    · simp only [parseColor, hplain, hlen, ne_eq, not_true_eq_false, if_false, hscan]
  · simp only [parseColor, h, ne_eq, not_false_eq_true, if_true]

theorem parseColor_hex_witness :
    parseColor (fun _ => "") "#667eea" = .ok { R := 0x66, G := 0x7e, B := 0xea, A := 255 }
      ∧ parseColor (fun _ => "") "667eea" = .ok { R := 0x66, G := 0x7e, B := 0xea, A := 255 }
      ∧ parseColor (fun _ => "") "#FFF" = .error "无效的颜色格式: FFF" :=
  ⟨((parseColor_hex (fun _ => "")).1 '6' '6' '7' 'e' 'e' 'a' 6 6 7 14 14 10
      rfl rfl rfl rfl rfl rfl).1,
    ((parseColor_hex (fun _ => "")).1 '6' '6' '7' 'e' 'e' 'a' 6 6 7 14 14 10
      rfl rfl rfl rfl rfl rfl).2.1,
    (parseColor_hex (fun _ => "")).2 "#FFF" (by decide)⟩

/-! ### Instances on concrete texts -/

theorem makeSearchURL_eq_witness :
    (∀ c ∈ "travel".data, unreservedByte c.toNat = true)
      ∧ makeSearchURL "travel"
          = "https://www.xiaohongshu.com/search_result?keyword=" ++ "travel"
              ++ "&source=web_explore_feed" :=
  ⟨by decide, (makeSearchURL_eq "travel").2 (by decide)⟩

theorem getFeedDetail_notFound_witness :
    FeedDetailAction.mapResult parseJson goRaw goRaw
        "\x7b\"note\":\x7b\"noteDetailMap\":\x7b\"xyz999\":\x7b\"note\":\x7b\"id\":\"xyz999\"\x7d,\"comments\":\x7b\"comments\":[]\x7d\x7d\x7d\x7d\x7d"
        "abc123"
      = .error ("feed " ++ "abc123" ++ " not found in noteDetailMap") :=
  (getFeedDetail_notFound parseJson goRaw goRaw _ "abc123"
    { Note := { NoteDetailMap := [("xyz999",
        { Note := .obj [("id", .str "xyz999")], Comments := .obj [("comments", .arr [])] })] } }
    (by decide) (by rfl) (by simp)).1

theorem getFeedDetail_found_witness :
    FeedDetailAction.mapResult parseJson goString goRaw
        "\x7b\"note\":\x7b\"noteDetailMap\":\x7b\"xyz999\":\x7b\"note\":\"first\",\"comments\":[]\x7d,\"abc123\":\x7b\"note\":\"second\",\"comments\":[1]\x7d\x7d\x7d\x7d"
        "abc123"
      = .ok { Note := "second", Comments := .arr [.num 1] } :=
  getFeedDetail_found parseJson goString goRaw _ "abc123"
    [("xyz999", .obj [("note", .str "first"), ("comments", .arr [])])] []
    (.str "second") (.arr [.num 1]) "second" (.arr [.num 1])
    (by decide) (by rfl)
    (by
      intro p hp
      simp only [List.mem_singleton] at hp
      subst hp
      exact ⟨_, rfl⟩)
    (by simp) rfl rfl

theorem mapResult_unmarshalError_witness :
    FeedDetailAction.mapResult parseJson goRaw goRaw "\x7b\"note\":5\x7d" "abc123"
        = .error ("failed to unmarshal __INITIAL_STATE__: "
            ++ "json: cannot unmarshal number into Go value of type struct")
      ∧ SearchAction.mapResult parseJson goRaw "\x7b\"note\":" 
        = .error ("failed to unmarshal __INITIAL_STATE__: "
            ++ "invalid character in JSON input") :=
  ⟨((mapResult_unmarshalError parseJson goRaw goRaw goRaw "\x7b\"note\":5\x7d" "abc123"
      (by decide)).1 _ (by rfl)).1,
   ((mapResult_unmarshalError parseJson goRaw goRaw goRaw "\x7b\"note\":" "abc123"
      (by decide)).2 _ (by rfl)).1⟩

theorem search_length_witness :
    ∃ fs : List (FeedOf Json), SearchAction.mapResult parseJson (feedType goRaw)
        "\x7b\"search\":\x7b\"feeds\":\x7b\"_value\":[\x7b\"xsecToken\":\"t1\",\"id\":\"a\"\x7d,\x7b\"xsecToken\":\"t2\",\"id\":\"b\"\x7d]\x7d\x7d\x7d"
        = .ok fs
      ∧ fs.length = 2 :=
  (search_length parseJson (feedType goRaw) _
    [.obj [("xsecToken", .str "t1"), ("id", .str "a")],
      .obj [("xsecToken", .str "t2"), ("id", .str "b")]] (by decide) (by rfl)
    (by
      intro x hx
      simp only [List.mem_cons, List.mem_singleton, List.not_mem_nil, or_false] at hx
      rcases hx with h | h <;> subst h <;> exact ⟨_, by rfl⟩)).imp
    (fun _ h => ⟨h.1, h.2.1⟩)

theorem extraction_defaults_witness :
    (JSVal.obj [("id", .str "f1")]).truthy = true
      ∧ ∃ r, feedOf (.obj [("id", .str "f1")]) = .ok r
        ∧ ∀ p ∈ feedDefaults,
            (JSVal.obj [("id", .str "f1")]).prop p.1 = .undefined → r.prop p.1 = p.2 :=
  ⟨rfl, (extraction_defaults (.obj [("id", .str "f1")]) rfl).1⟩

theorem extraction_wrongType_witness :
    (JSVal.obj [("id", .num 7)]).truthy = true
      ∧ ∃ r, feedOf (.obj [("id", .num 7)]) = .ok r
        ∧ ∀ p ∈ feedCopied, r.prop p.1 = jsOr ((JSVal.obj [("id", .num 7)]).prop p.1) p.2 :=
  ⟨rfl, (extraction_wrongType (.obj [("id", .num 7)]) rfl).1⟩

theorem search_tokens_witness :
    SearchAction.Search renderJson parseJson (feedType goRaw)
        (.obj [("search", .obj [("feeds", .obj [("_value", .arr [.null,
          .obj [("xsecToken", .str "tok1"), ("id", .str "id1")]])])])])
        = .ok (.ok
          [{ XsecToken := "tok1", ID := "id1", ModelType := "", NoteCard := .obj [], Index := 0 }])
      ∧ List.Forall₂
        (fun x (f : FeedOf Json) => (∀ s, x.prop "xsecToken" = .str s → f.XsecToken = s)
          ∧ (∀ s, x.prop "id" = .str s → f.ID = s))
        ([JSVal.null, .obj [("xsecToken", .str "tok1"), ("id", .str "id1")]].filter JSVal.truthy)
        [{ XsecToken := "tok1", ID := "id1", ModelType := "", NoteCard := .obj [], Index := 0 }] :=
  ⟨by rfl, search_tokens renderJson parseJson parseJson_renderJson renderJson_ne_empty goRaw
    (.obj [("search", .obj [("feeds", .obj [("_value", .arr [.null,
      .obj [("xsecToken", .str "tok1"), ("id", .str "id1")]])])])])
    [.null, .obj [("xsecToken", .str "tok1"), ("id", .str "id1")]] _ (by rfl) (by rfl)⟩

end Xhs
